import Mathlib

/-
Shallow embedding of bevy_rollsafe_hierarchy.

Entities are bevy storage slots, modelled as naturals.  A `World` carries the
set of live entities, the three per-entity markers (`RollSafeId`,
`RollSafeParent`, `RollSafeChildren`) as partial functions, and the optional
`IdManager` resource.  Machine integers (`usize`) are modelled as `Nat`;
counter overflow is out of scope for normal operation (spec section 7), so
`next_id` increments without wrapping.  Rust panics (`entity_mut` on a dead
entity, the self-parenting guards, `insert_from_slice` out of bounds) are
modelled by returning `none`.
-/

namespace RollSafe

abbrev Entity := Nat

/-- The integer inside the `RollSafeId` newtype (components/mod.rs line 10). -/
abbrev RollSafeId := Nat

def USIZE_MAX : Nat := 2 ^ 64 - 1

/-- components/mod.rs line 12: `RollSafeId(usize::MAX)`. -/
def ROLL_SAFE_ID_PLACE_HOLDER : RollSafeId := USIZE_MAX

/-- id_manager.rs lines 6-11.  The `HashMap<usize, Entity>` reverse table is
modelled as an association list; `lookup_entity` takes the first matching
entry (the rebuild in `update_id_entity_map` produces at most one entry per
key, so the choice is irrelevant there). -/
structure IdManager where
  next_id : Nat
  unused_ids : List Nat
  id_to_entity_id : List (Nat × Entity)
  deriving DecidableEq, Repr

/-- id_manager.rs lines 24-31: pop the free pool (a `Vec`, so from the back),
else mint `next_id`. -/
def IdManager.alloc_id (m : IdManager) : RollSafeId × IdManager :=
  match m.unused_ids.getLast? with
  | some i => (i, { m with unused_ids := m.unused_ids.dropLast })
  | none => (m.next_id, { m with next_id := m.next_id + 1 })

/-- id_manager.rs lines 33-35: push onto the free pool. -/
def IdManager.free_id (m : IdManager) (i : RollSafeId) : IdManager :=
  { m with unused_ids := m.unused_ids ++ [i] }

/-- id_manager.rs lines 37-39. -/
def IdManager.lookup_entity (m : IdManager) (i : RollSafeId) : Option Entity :=
  (m.id_to_entity_id.find? (fun p => p.1 = i)).map (fun p => p.2)

/-- The world: live slots plus the three markers and the `IdManager` resource.
A dead entity never reports a component (bevy's `get` returns `None` for a
despawned entity), which the accessors below enforce. -/
@[ext] structure World where
  alive : Finset Entity
  idComp : Entity → Option RollSafeId
  parentComp : Entity → Option RollSafeId
  childrenComp : Entity → Option (List RollSafeId)
  idm : Option IdManager

/-- `world.get::<RollSafeId>(e)`. -/
def World.getId (w : World) (e : Entity) : Option RollSafeId :=
  if e ∈ w.alive then w.idComp e else none

/-- `world.get::<RollSafeParent>(e)` (the id inside the marker). -/
def World.getParent (w : World) (e : Entity) : Option RollSafeId :=
  if e ∈ w.alive then w.parentComp e else none

/-- `world.get::<RollSafeChildren>(e)` (the id sequence inside the marker). -/
def World.getChildren (w : World) (e : Entity) : Option (List RollSafeId) :=
  if e ∈ w.alive then w.childrenComp e else none

def World.setIdSome (w : World) (e : Entity) (i : RollSafeId) : World :=
  { w with idComp := Function.update w.idComp e (some i) }

def World.setParentSome (w : World) (e : Entity) (i : RollSafeId) : World :=
  { w with parentComp := Function.update w.parentComp e (some i) }

def World.setParentNone (w : World) (e : Entity) : World :=
  { w with parentComp := Function.update w.parentComp e none }

def World.setChildrenSome (w : World) (e : Entity) (l : List RollSafeId) : World :=
  { w with childrenComp := Function.update w.childrenComp e (some l) }

def World.setChildrenNone (w : World) (e : Entity) : World :=
  { w with childrenComp := Function.update w.childrenComp e none }

/-- `world.despawn(e)`: the slot dies and its components are dropped. -/
def World.despawn (w : World) (e : Entity) : World :=
  { alive := w.alive.erase e
    idComp := Function.update w.idComp e none
    parentComp := Function.update w.parentComp e none
    childrenComp := Function.update w.childrenComp e none
    idm := w.idm }

/-- lib.rs lines 23-26. -/
def id_to_entity (w : World) (i : RollSafeId) : Option Entity :=
  match w.idm with
  | none => none
  | some m => m.lookup_entity i

/-- lib.rs lines 28-31. -/
def alloc_id (w : World) : RollSafeId × World :=
  match w.idm with
  | none => (ROLL_SAFE_ID_PLACE_HOLDER, w)
  | some m =>
    let r := m.alloc_id
    (r.1, { w with idm := some r.2 })

/-- lib.rs lines 33-36. -/
def free_id (w : World) (i : RollSafeId) : World :=
  match w.idm with
  | none => w
  | some m => { w with idm := some (m.free_id i) }

/-- lib.rs lines 38-45.  `world.entity_mut(entity).insert(id)` panics when the
entity is dead, hence the `Option`. -/
def get_or_assign_new_id (w : World) (e : Entity) : Option (RollSafeId × World) :=
  match w.getId e with
  | some i => some (i, w)
  | none =>
    let r := alloc_id w
    if e ∈ r.2.alive then some (r.1, r.2.setIdSome e r.1) else none

/-- id_manager.rs lines 43-51: clear the reverse table and reinsert one entry
per live `RollSafeId` marker.  Query iteration order is unspecified; the live
set is scanned in ascending slot order.  (If the `IdManager` resource is
absent the system cannot run; the world is returned unchanged.) -/
def update_id_entity_map (w : World) : World :=
  match w.idm with
  | none => w
  | some m =>
    { w with
      idm := some { m with
        id_to_entity_id :=
          (w.alive.sort (· ≤ ·)).filterMap
            (fun e => (w.getId e).map (fun i => (i, e))) } }

/-- child_builder.rs lines 24-35 (`update_parent`). -/
def update_parent (w : World) (child new_parent : Entity) :
    Option (Option Entity × World) :=
  match get_or_assign_new_id w new_parent with
  | none => none
  | some (new_parent_id, w1) =>
    if child ∈ w1.alive then
      match w1.getParent child with
      | some previous =>
        some (id_to_entity (w1.setParentSome child new_parent_id) previous,
          w1.setParentSome child new_parent_id)
      | none => some (none, w1.setParentSome child new_parent_id)
    else none

/-- child_builder.rs lines 40-52 (`remove_from_children`).  Uses
`get_entity_mut`, so a dead parent is a silent no-op, never a panic. -/
def remove_from_children (w : World) (parent child : Entity) : World :=
  match w.getId child with
  | none => w
  | some child_id =>
    if parent ∈ w.alive then
      match w.getChildren parent with
      | none => w
      | some l =>
        let l' := l.filter (fun x => x ≠ child_id)
        if l' = [] then w.setChildrenNone parent
        else w.setChildrenSome parent l'
    else w

/-- child_builder.rs lines 62-71 (`update_old_parent`). -/
def update_old_parent (w : World) (child parent : Entity) : Option World :=
  match update_parent w child parent with
  | none => none
  | some (previous?, w1) =>
    match previous? with
    | none => some w1
    | some previous_parent =>
      if previous_parent = parent then some w1
      else some (remove_from_children w1 previous_parent child)

/-- child_builder.rs lines 81-92 (`update_old_parents`); the loop body is the
body of `update_old_parent`, run over the batch in order. -/
def update_old_parents (w : World) (parent : Entity) (children : List Entity) :
    Option World :=
  match children with
  | [] => some w
  | child :: rest =>
    match update_old_parent w child parent with
    | none => none
    | some w1 => update_old_parents w1 parent rest

/-- child_builder.rs lines 96-122 (`remove_children`).  The second loop runs
`world.entity_mut(child)` on every batch member, so any dead member panics. -/
def remove_children_fn (parent : Entity) (children : List Entity) (w : World) :
    Option World :=
  match w.getChildren parent with
  | none => some w
  | some parent_children =>
    let children2 : List RollSafeId :=
      children.filterMap (fun child =>
        match w.getId child with
        | none => none
        | some cid => if cid ∈ parent_children then some cid else none)
    if children.all (fun c => c ∈ w.alive) then
      let w1 := children.foldl (fun wacc child => wacc.setParentNone child) w
      match w1.getChildren parent with
      | none => some w1
      | some l =>
        let l' := l.filter (fun x => ¬ children2.contains x)
        if l' = [] then some (w1.setChildrenNone parent)
        else some (w1.setChildrenSome parent l')
    else none

/-- The loop of `clear_children` (child_builder.rs lines 128-131): strip the
`RollSafeParent` marker of each resolvable listed child, skipping unresolved
ids; `entity_mut` panics on a resolved but despawned child. -/
def clear_children_strip (w : World) (ids : List RollSafeId) : Option World :=
  match ids with
  | [] => some w
  | cid :: rest =>
    match id_to_entity w cid with
    | none => clear_children_strip w rest
    | some ce =>
      if ce ∈ w.alive then clear_children_strip (w.setParentNone ce) rest
      else none

/-- child_builder.rs lines 126-133 (`clear_children`).  `entity_mut(parent)`
panics when the parent is dead. -/
def clear_children_fn (parent : Entity) (w : World) : Option World :=
  if parent ∈ w.alive then
    match w.getChildren parent with
    | none => some w
    | some l => clear_children_strip (w.setChildrenNone parent) l
  else none

/-- child_builder.rs lines 575-591 (`BuildWorldChildren::add_child` for
`EntityWorldMut`, also the body of the queued `PushChild::apply`). -/
def add_child (parent child : Entity) (w : World) : Option World :=
  if parent ∈ w.alive then
    if child = parent then none
    else
      match update_old_parent w child parent with
      | none => none
      | some w1 =>
        match get_or_assign_new_id w1 child with
        | none => none
        | some (child_id, w2) =>
          match w2.getChildren parent with
          | some l =>
            some (w2.setChildrenSome parent
              (l.filter (fun x => x ≠ child_id) ++ [child_id]))
          | none => some (w2.setChildrenSome parent [child_id])
  else none

/-- Shared tail of `push_children`/`insert_children` (child_builder.rs lines
600-604 and 624-628): collect `get_or_assign_new_id` over the batch in
order. -/
def collect_child_ids (w : World) (children : List Entity) :
    Option (List RollSafeId × World) :=
  match children with
  | [] => some ([], w)
  | child :: rest =>
    match get_or_assign_new_id w child with
    | none => none
    | some (i, w1) =>
      match collect_child_ids w1 rest with
      | none => none
      | some (ids, w2) => some (i :: ids, w2)

/-- child_builder.rs lines 593-615 (`BuildWorldChildren::push_children`). -/
def push_children (parent : Entity) (children : List Entity) (w : World) :
    Option World :=
  if parent ∈ w.alive then
    if parent ∈ children then none
    else
      match update_old_parents w parent children with
      | none => none
      | some w1 =>
        match collect_child_ids w1 children with
        | none => none
        | some (children2, w2) =>
          match w2.getChildren parent with
          | some l =>
            some (w2.setChildrenSome parent
              (l.filter (fun x => ¬ children2.contains x) ++ children2))
          | none => some (w2.setChildrenSome parent children2)
  else none

/-- child_builder.rs lines 617-639 (`BuildWorldChildren::insert_children`).
`insert_from_slice` panics when the index exceeds the (already filtered)
length; with no marker present the batch is inserted ignoring the index. -/
def insert_children (parent : Entity) (index : Nat) (children : List Entity)
    (w : World) : Option World :=
  if parent ∈ w.alive then
    if parent ∈ children then none
    else
      match update_old_parents w parent children with
      | none => none
      | some w1 =>
        match collect_child_ids w1 children with
        | none => none
        | some (children2, w2) =>
          match w2.getChildren parent with
          | some l =>
            if index ≤ (l.filter (fun x => ¬ children2.contains x)).length then
              some (w2.setChildrenSome parent
                ((l.filter (fun x => ¬ children2.contains x)).take index ++
                  children2 ++
                  (l.filter (fun x => ¬ children2.contains x)).drop index))
            else none
          | none => some (w2.setChildrenSome parent children2)
  else none

/-- child_builder.rs lines 649-655 (`BuildWorldChildren::set_parent`):
`world.entity_mut(parent).add_child(child)` on the child's `EntityWorldMut`. -/
def set_parent (child parent : Entity) (w : World) : Option World :=
  if child ∈ w.alive then add_child parent child w else none

/-- child_builder.rs lines 657-667 (`BuildWorldChildren::remove_parent`). -/
def remove_parent (child : Entity) (w : World) : Option World :=
  if child ∈ w.alive then
    match w.getParent child with
    | none => some w
    | some p =>
      let w1 := w.setParentNone child
      match id_to_entity w1 p with
      | some parent => some (remove_from_children w1 parent child)
      | none => some w1
  else none

/-- child_builder.rs lines 669-675 (`BuildWorldChildren::clear_children`). -/
def clear_children (parent : Entity) (w : World) : Option World :=
  clear_children_fn parent w

/-- child_builder.rs lines 677-679 (`BuildWorldChildren::replace_children`):
`clear_children` then `push_children`; identical to the queued
`ReplaceChildren::apply` (lines 217-222). -/
def replace_children (parent : Entity) (children : List Entity) (w : World) :
    Option World :=
  match clear_children_fn parent w with
  | none => none
  | some w1 => push_children parent children w1

/-- The id-reassignment loop of the queued `PushChildren::apply`
(child_builder.rs lines 175-182): every child is given a freshly allocated
id, overwriting any id it already carries; `entity_mut` panics on a dead
child. -/
def assign_fresh_ids (w : World) (children : List Entity) : Option World :=
  match children with
  | [] => some w
  | child :: rest =>
    let r := alloc_id w
    if child ∈ r.2.alive then assign_fresh_ids (r.2.setIdSome child r.1) rest
    else none

/-- child_builder.rs lines 173-185 (the queued `PushChildren::apply`). -/
def push_children_command (parent : Entity) (children : List Entity)
    (w : World) : Option World :=
  match assign_fresh_ids w children with
  | none => none
  | some w1 => push_children parent children w1

/-- One step of the `rollsafe_despawn_recursive` loop after the children have
been collected: detach `atE` from its parent's list (lib.rs lines 69-82),
clear its own children list (lines 83-85), despawn it and free its id
(lines 86-87). -/
def despawnBody (w : World) (atE : Entity) (at_id : RollSafeId) : World :=
  let w1 :=
    match w.getParent atE with
    | none => w
    | some p =>
      match id_to_entity w p with
      | none => w
      | some pe =>
        match w.getChildren pe with
        | none => w
        | some l =>
          let l' := l.filter (fun x => x ≠ at_id)
          if l' = [] then w.setChildrenNone pe else w.setChildrenSome pe l'
  let w2 :=
    match w1.getChildren atE with
    | none => w1
    | some _ => w1.setChildrenSome atE []
  free_id (w2.despawn atE) at_id

/-- lib.rs lines 47-89 (`rollsafe_despawn_recursive`).  The Rust `Vec` stack
is represented with its top at the head: `pop` takes the head, and the
children (pushed in order, so popped in reverse) are prepended reversed. -/
def despawnLoop (w : World) (stack : List Entity) : World :=
  match stack with
  | [] => w
  | atE :: rest =>
    match hid : w.getId atE with
    | none => despawnLoop w rest
    | some at_id =>
      let childEnts :=
        ((w.getChildren atE).getD []).filterMap (fun cid => id_to_entity w cid)
      despawnLoop (despawnBody w atE at_id) (childEnts.reverse ++ rest)
termination_by (w.alive.card, stack.length)
decreasing_by
  · apply Prod.Lex.right
    simp
  · apply Prod.Lex.left
    have key : ∀ (x : World) (a : Entity) (j : RollSafeId), x.getId a = some j →
        (despawnBody x a j).alive.card < x.alive.card := by
      intro x a j hj
      have halive : (despawnBody x a j).alive = x.alive.erase a := by
        have k2 : ∀ y : World,
            (free_id (y.despawn a) j).alive = y.alive.erase a := by
          intro y
          unfold free_id
          split <;> rfl
        unfold despawnBody
        rw [k2]
        congr 1
        repeat' split
        all_goals (try rfl)
        all_goals (dsimp only; split <;> rfl)
      have hmem : a ∈ x.alive := by
        unfold World.getId at hj
        by_cases he : a ∈ x.alive
        · exact he
        · simp [he] at hj
      rw [halive]
      exact Finset.card_erase_lt_of_mem hmem
    exact key _ _ _ (by assumption)

/-- lib.rs lines 47-89 entry point (both the `EntityWorldMut` variant and the
queued `RollSafeDespawnRecursive::apply`, which call the same function). -/
def rollsafe_despawn_recursive (w : World) (target : Entity) : World :=
  despawnLoop w [target]

/-- Guarded universal over an `Option`: holds vacuously for `none`. -/
def OptAll {α : Type} (o : Option α) (p : α → Prop) : Prop :=
  match o with
  | none => True
  | some x => p x

instance {α : Type} (o : Option α) (p : α → Prop) [∀ x, Decidable (p x)] :
    Decidable (OptAll o p) :=
  match o with
  | none => isTrue trivial
  | some x => inferInstanceAs (Decidable (p x))

/-- Guarded existential over an `Option`: fails for `none`. -/
def OptEx {α : Type} (o : Option α) (p : α → Prop) : Prop :=
  match o with
  | none => False
  | some x => p x

instance {α : Type} (o : Option α) (p : α → Prop) [∀ x, Decidable (p x)] :
    Decidable (OptEx o p) :=
  match o with
  | none => isFalse (fun h => h)
  | some x => inferInstanceAs (Decidable (p x))

/-- The id sequence of an entity's `RollSafeChildren` marker, `[]` when the
marker is absent. -/
def childrenList (w : World) (e : Entity) : List RollSafeId :=
  (w.childrenComp e).getD []

/-- Well-formedness of a world mid-cycle: live entities carry pairwise
distinct ids, each registered in the reverse table; every `RollSafeParent`
marker names a live entity listing the child; every listed id belongs to a
live child pointing back; children lists hold no duplicates. -/
def InvB (w : World) : Prop :=
  (∀ e1 ∈ w.alive, ∀ e2 ∈ w.alive,
    OptAll (w.idComp e1) fun i => OptAll (w.idComp e2) fun j => i = j → e1 = e2) ∧
  (∀ e ∈ w.alive, (w.idComp e).isSome = true) ∧
  (∀ e ∈ w.alive, OptAll (w.idComp e) fun i => id_to_entity w i = some e) ∧
  (∀ c ∈ w.alive, OptAll (w.parentComp c) fun p =>
    ∃ P ∈ w.alive, w.idComp P = some p ∧
      OptAll (w.idComp c) fun ci => ci ∈ childrenList w P) ∧
  (∀ P ∈ w.alive, ∀ i ∈ childrenList w P, ∃ c ∈ w.alive,
    w.idComp c = some i ∧ OptEx (w.idComp P) fun pi => w.parentComp c = some pi) ∧
  (∀ P ∈ w.alive, (childrenList w P).Nodup)

instance instDecidableInvB (w : World) : Decidable (InvB w) := by
  unfold InvB
  infer_instance

/-- No live entity carries an empty `RollSafeChildren` marker. -/
def NE (w : World) : Prop :=
  ∀ e ∈ w.alive, ¬ w.childrenComp e = some ([] : List RollSafeId)

instance instDecidableNE (w : World) : Decidable (NE w) := by
  unfold NE
  infer_instance

/-- The intermediate well-formedness invariant maintained while the
reparenting loop of `push_children`/`insert_children` walks its batch: the
already-processed members (`S`) point at `p` without yet being listed in
`p`'s `RollSafeChildren` marker. -/
def MidInv (p : Entity) (pid : RollSafeId) (S : List Entity) (w : World) : Prop :=
  (∀ e1 ∈ w.alive, ∀ e2 ∈ w.alive,
    OptAll (w.idComp e1) fun i => OptAll (w.idComp e2) fun j => i = j → e1 = e2) ∧
  (∀ e ∈ w.alive, (w.idComp e).isSome = true) ∧
  (∀ e ∈ w.alive, OptAll (w.idComp e) fun i => id_to_entity w i = some e) ∧
  (∀ c ∈ w.alive, OptAll (w.parentComp c) fun q =>
    (∃ P ∈ w.alive, w.idComp P = some q ∧
      OptAll (w.idComp c) fun ci => ci ∈ childrenList w P) ∨
    (c ∈ S ∧ q = pid)) ∧
  (∀ P ∈ w.alive, ∀ i ∈ childrenList w P, ∃ c ∈ w.alive,
    w.idComp c = some i ∧ OptEx (w.idComp P) fun pi => w.parentComp c = some pi) ∧
  (∀ P ∈ w.alive, (childrenList w P).Nodup) ∧
  (p ∈ w.alive ∧ w.idComp p = some pid) ∧
  (∀ c ∈ S, c ∈ w.alive ∧ w.parentComp c = some pid)

/-- The bidirectional consistency property exactly as the specification
states it: a `RollSafeParent` marker naming an identity that resolves to a
live entity is matched by exactly one occurrence in that entity's
`RollSafeChildren` marker, and every listed identity that resolves to a live
entity points back at the listing parent. -/
def Bidir (w : World) : Prop :=
  (∀ c ∈ w.alive, OptAll (w.parentComp c) fun p =>
    OptAll (id_to_entity w p) fun P => P ∈ w.alive →
      OptAll (w.idComp c) fun ci => (childrenList w P).count ci = 1) ∧
  (∀ P ∈ w.alive, ∀ i ∈ childrenList w P,
    OptAll (id_to_entity w i) fun c => c ∈ w.alive →
      OptEx (w.idComp P) fun pi => w.parentComp c = some pi)

instance instDecidableBidir (w : World) : Decidable (Bidir w) := by
  unfold Bidir
  infer_instance

/-- The public hierarchy mutation operations of section 4.2. -/
inductive Op where
  | addChild (parent child : Entity)
  | pushChildren (parent : Entity) (children : List Entity)
  | insertChildren (parent : Entity) (index : Nat) (children : List Entity)
  | removeChildren (parent : Entity) (children : List Entity)
  | clearChildren (parent : Entity)
  | replaceChildren (parent : Entity) (children : List Entity)
  | setParent (child parent : Entity)
  | removeParent (child : Entity)
  | despawnRecursive (target : Entity)
  deriving DecidableEq, Repr

/-- The direct (`EntityWorldMut`) variant of each operation. -/
def applyDirect : Op → World → Option World
  | .addChild p c, w => add_child p c w
  | .pushChildren p cs, w => push_children p cs w
  | .insertChildren p i cs, w => insert_children p i cs w
  | .removeChildren p cs, w => remove_children_fn p cs w
  | .clearChildren p, w => clear_children_fn p w
  | .replaceChildren p cs, w => replace_children p cs w
  | .setParent c p, w => set_parent c p w
  | .removeParent c, w => remove_parent c w
  | .despawnRecursive t, w => some (rollsafe_despawn_recursive w t)

/-- The queued (`Command`) variant of each operation: every `apply` body
invokes the same function as the direct variant, except `PushChildren::apply`
(child_builder.rs lines 173-185). -/
def applyQueued : Op → World → Option World
  | .addChild p c, w => add_child p c w
  | .pushChildren p cs, w => push_children_command p cs w
  | .insertChildren p i cs, w => insert_children p i cs w
  | .removeChildren p cs, w => remove_children_fn p cs w
  | .clearChildren p, w => clear_children_fn p w
  | .replaceChildren p cs, w => replace_children p cs w
  | .setParent c p, w => add_child p c w
  | .removeParent c, w => remove_parent c w
  | .despawnRecursive t, w => some (rollsafe_despawn_recursive w t)

/-- A queue of operations flushed in enqueue order, direct variants. -/
def applySeqDirect : List Op → World → Option World
  | [], w => some w
  | op :: rest, w => (applyDirect op w).bind (applySeqDirect rest)

/-- A queue of operations flushed in enqueue order, queued variants. -/
def applySeqQueued : List Op → World → Option World
  | [], w => some w
  | op :: rest, w => (applyQueued op w).bind (applySeqQueued rest)

/-- Whether an operation is the queued-`PushChildren` shape. -/
def Op.isPush : Op → Bool
  | .pushChildren _ _ => true
  | _ => false

/-- Side conditions under which one operation preserves well-formedness:
batches of the reparenting operations contain no duplicate entities, and
`remove_children` batches only contain entities that are either parentless or
currently children of the target parent. -/
def OpOK : Op → World → Prop
  | .pushChildren _ cs, _ => cs.Nodup
  | .insertChildren _ _ cs, _ => cs.Nodup
  | .replaceChildren _ cs, _ => cs.Nodup
  | .removeChildren p cs, w =>
    ∀ c ∈ cs, OptAll (w.getParent c) fun q => w.getId p = some q
  | _, _ => True

instance (op : Op) (w : World) : Decidable (OpOK op w) := by
  unfold OpOK
  match op with
  | .addChild p c => exact isTrue trivial
  | .pushChildren p cs => exact inferInstance
  | .insertChildren p i cs => exact inferInstance
  | .removeChildren p cs => exact inferInstance
  | .clearChildren p => exact isTrue trivial
  | .replaceChildren p cs => exact inferInstance
  | .setParent c p => exact isTrue trivial
  | .removeParent c => exact isTrue trivial
  | .despawnRecursive t => exact isTrue trivial

/-- Batch non-emptiness, needed so that the reparenting operations never
insert an empty `RollSafeChildren` marker. -/
def OpNE : Op → Prop
  | .pushChildren _ cs => cs ≠ []
  | .insertChildren _ _ cs => cs ≠ []
  | .replaceChildren _ cs => cs ≠ []
  | _ => True

instance (op : Op) : Decidable (OpNE op) := by
  unfold OpNE
  match op with
  | .addChild p c => exact isTrue trivial
  | .pushChildren p cs => exact inferInstance
  | .insertChildren p i cs => exact inferInstance
  | .removeChildren p cs => exact isTrue trivial
  | .clearChildren p => exact isTrue trivial
  | .replaceChildren p cs => exact inferInstance
  | .setParent c p => exact isTrue trivial
  | .removeParent c => exact isTrue trivial
  | .despawnRecursive t => exact isTrue trivial

/-- `OpOK` along the whole trace of a direct-variant queue. -/
def SeqOK : List Op → World → Prop
  | [], _ => True
  | op :: rest, w =>
    OpOK op w ∧ OptAll (applyDirect op w) (fun w' => SeqOK rest w')

instance instDecidableSeqOK : (ops : List Op) → (w : World) → Decidable (SeqOK ops w)
  | [], _ => isTrue trivial
  | op :: rest, w =>
    have : ∀ w', Decidable (SeqOK rest w') := fun w' => instDecidableSeqOK rest w'
    inferInstanceAs (Decidable (OpOK op w ∧ OptAll (applyDirect op w) (fun w' => SeqOK rest w')))

/- Concrete worlds used to instantiate and to refute the claims. -/

/-- Two live, marker-free entities; the `IdManager` resource is absent. -/
def Wbare : World where
  alive := {1, 5}
  idComp := fun _ => none
  parentComp := fun _ => none
  childrenComp := fun _ => none
  idm := none

/-- Entity 1 (id 0) parents entities 2 (id 5) and 3 (id 6), in that order;
the reverse table is exact and the allocator fresh. -/
def Wtwo : World where
  alive := {1, 2, 3}
  idComp := fun e =>
    if e = 1 then some 0 else if e = 2 then some 5 else
    if e = 3 then some 6 else none
  parentComp := fun e => if e = 2 then some 0 else if e = 3 then some 0 else none
  childrenComp := fun e => if e = 1 then some [5, 6] else none
  idm := some { next_id := 7, unused_ids := [], id_to_entity_id := [(0, 1), (5, 2), (6, 3)] }

/-- Entity 2 (id 20) is parentless; entity 3 (id 30) lists id 20 in its
children marker while the reverse table maps entity 1's id 10 to entity 3:
a stale-table state used to refute add_child idempotence. -/
def Wstale : World where
  alive := {1, 2, 3}
  idComp := fun e =>
    if e = 1 then some 10 else if e = 2 then some 20 else
    if e = 3 then some 30 else none
  parentComp := fun _ => none
  childrenComp := fun e => if e = 3 then some [20] else none
  idm := some { next_id := 31, unused_ids := [], id_to_entity_id := [(10, 3), (20, 2)] }

/-- Entity 1 carries id 0 and is registered in the reverse table; entities
2 and 3 are live but identity-free (their ids will be minted mid-cycle). -/
def Wmint : World where
  alive := {1, 2, 3}
  idComp := fun e => if e = 1 then some 0 else none
  parentComp := fun _ => none
  childrenComp := fun _ => none
  idm := some { next_id := 1, unused_ids := [], id_to_entity_id := [(0, 1)] }

/-- A single live entity with id 0, registered in the reverse table. -/
def Wone : World where
  alive := {1}
  idComp := fun e => if e = 1 then some 0 else none
  parentComp := fun _ => none
  childrenComp := fun _ => none
  idm := some { next_id := 1, unused_ids := [], id_to_entity_id := [(0, 1)] }

/-- Entity 1 (id 0) parents entity 2 (id 1); entity 3 (id 2) parents entity
4 (id 3); the reverse table is exact and the allocator fresh. -/
def Wpair : World where
  alive := {1, 2, 3, 4}
  idComp := fun e =>
    if e = 1 then some 0 else if e = 2 then some 1 else
    if e = 3 then some 2 else if e = 4 then some 3 else none
  parentComp := fun e => if e = 2 then some 0 else if e = 4 then some 2 else none
  childrenComp := fun e => if e = 1 then some [1] else if e = 3 then some [3] else none
  idm := some { next_id := 4, unused_ids := [],
                id_to_entity_id := [(0, 1), (1, 2), (2, 3), (3, 4)] }

/-- Five live entities with ids 0-4, no relations, exact reverse table. -/
def Wfive : World where
  alive := {1, 2, 3, 4, 5}
  idComp := fun e =>
    if e = 1 then some 0 else if e = 2 then some 1 else
    if e = 3 then some 2 else if e = 4 then some 3 else
    if e = 5 then some 4 else none
  parentComp := fun _ => none
  childrenComp := fun _ => none
  idm := some { next_id := 5, unused_ids := [],
                id_to_entity_id := [(0, 1), (1, 2), (2, 3), (3, 4), (4, 5)] }

/-- A three-node chain: entity 1 (id 0) parents entity 2 (id 1), which
parents entity 3 (id 2); exact reverse table. -/
def Wchain : World where
  alive := {1, 2, 3}
  idComp := fun e =>
    if e = 1 then some 0 else if e = 2 then some 1 else
    if e = 3 then some 2 else none
  parentComp := fun e => if e = 2 then some 0 else if e = 3 then some 1 else none
  childrenComp := fun e => if e = 1 then some [1] else if e = 2 then some [2] else none
  idm := some { next_id := 3, unused_ids := [],
                id_to_entity_id := [(0, 1), (1, 2), (2, 3)] }

/-- The child edge induced by `RollSafeChildren` markers: `b` is a child of
`a` when both are live and `b` carries an id listed in `a`'s marker. -/
def childEdge (w : World) (a b : Entity) : Prop :=
  a ∈ w.alive ∧ b ∈ w.alive ∧ ∃ i ∈ childrenList w a, w.idComp b = some i

/-- Reachability along `RollSafeChildren` links. -/
def Reach (w : World) : Entity → Entity → Prop :=
  Relation.ReflTransGen (childEdge w)

/-- The allocator's free-id pool, `[]` when the resource is absent. -/
def unusedIds (w : World) : List Nat :=
  match w.idm with
  | none => []
  | some m => m.unused_ids

/-- `n`-step reachability along child edges. -/
def ReachN (w : World) : Nat → Entity → Entity → Prop
  | 0, a, e => a = e
  | n + 1, a, e => ∃ b, childEdge w a b ∧ ReachN w n b e

/-- An `n`-step child-edge path whose nodes after the start all differ from
`z`. -/
def AvoidTail (w : World) (z : Entity) : Nat → Entity → Entity → Prop
  | 0, a, e => a = e
  | n + 1, a, e => ∃ b, childEdge w a b ∧ b ≠ z ∧ AvoidTail w z n b e

/-- Loop invariant of `rollsafe_despawn_recursive`: the world is well formed
except that a live entity still sitting on the work stack may point at an
already-despawned parent, recognisable because its parent id resolves (if at
all) to a dead slot. -/
def DespawnInv (w : World) (stack : List Entity) : Prop :=
  (∀ e1 ∈ w.alive, ∀ e2 ∈ w.alive,
    OptAll (w.idComp e1) fun i => OptAll (w.idComp e2) fun j => i = j → e1 = e2) ∧
  (∀ e ∈ w.alive, (w.idComp e).isSome = true) ∧
  (∀ e ∈ w.alive, OptAll (w.idComp e) fun i => id_to_entity w i = some e) ∧
  (∀ c ∈ w.alive, OptAll (w.parentComp c) fun q =>
    (∃ P ∈ w.alive, w.idComp P = some q ∧
      OptAll (w.idComp c) fun ci => ci ∈ childrenList w P) ∨
    (c ∈ stack ∧ OptAll (id_to_entity w q) fun P => P ∉ w.alive)) ∧
  (∀ P ∈ w.alive, ∀ i ∈ childrenList w P, ∃ c ∈ w.alive,
    w.idComp c = some i ∧ OptEx (w.idComp P) fun pi => w.parentComp c = some pi) ∧
  (∀ P ∈ w.alive, (childrenList w P).Nodup)

/-- What running the despawn loop to completion guarantees: the invariant is
restored, no empty marker appears, only stacked work dies, survivors keep
their ids, the free pool only grows and absorbs the ids of everything that
died, everything reachable from a stack entry dies, and the reverse table is
untouched. -/
def DespawnConcl (w : World) (stack : List Entity) : Prop :=
  InvB (despawnLoop w stack) ∧
  (NE w → NE (despawnLoop w stack)) ∧
  (despawnLoop w stack).alive ⊆ w.alive ∧
  (∀ e ∈ (despawnLoop w stack).alive, (despawnLoop w stack).idComp e = w.idComp e) ∧
  (∀ i ∈ unusedIds w, i ∈ unusedIds (despawnLoop w stack)) ∧
  (∀ e ∈ w.alive, e ∉ (despawnLoop w stack).alive →
    OptAll (w.idComp e) fun i => i ∈ unusedIds (despawnLoop w stack)) ∧
  (∀ s ∈ stack, ∀ n e, ReachN w n s e → e ∉ (despawnLoop w stack).alive) ∧
  (∀ i, id_to_entity (despawnLoop w stack) i = id_to_entity w i)

/- ------------------------------------------------------------------ -/
/- Theorems.                                                          -/
/- ------------------------------------------------------------------ -/

section Basics

variable {w : World} {e x : Entity} {i : RollSafeId} {l : List RollSafeId}

@[simp] theorem alive_setIdSome : (w.setIdSome e i).alive = w.alive := rfl

@[simp] theorem alive_setParentSome : (w.setParentSome e i).alive = w.alive := rfl

@[simp] theorem alive_setParentNone : (w.setParentNone e).alive = w.alive := rfl

@[simp] theorem alive_setChildrenSome : (w.setChildrenSome e l).alive = w.alive := rfl

@[simp] theorem alive_setChildrenNone : (w.setChildrenNone e).alive = w.alive := rfl

@[simp] theorem idm_setIdSome : (w.setIdSome e i).idm = w.idm := rfl

@[simp] theorem idm_setParentSome : (w.setParentSome e i).idm = w.idm := rfl

@[simp] theorem idm_setParentNone : (w.setParentNone e).idm = w.idm := rfl

@[simp] theorem idm_setChildrenSome : (w.setChildrenSome e l).idm = w.idm := rfl

@[simp] theorem idm_setChildrenNone : (w.setChildrenNone e).idm = w.idm := rfl

@[simp] theorem id_to_entity_setIdSome (j : RollSafeId) :
    id_to_entity (w.setIdSome e i) j = id_to_entity w j := rfl

@[simp] theorem id_to_entity_setParentSome (j : RollSafeId) :
    id_to_entity (w.setParentSome e i) j = id_to_entity w j := rfl

@[simp] theorem id_to_entity_setParentNone (j : RollSafeId) :
    id_to_entity (w.setParentNone e) j = id_to_entity w j := rfl

@[simp] theorem id_to_entity_setChildrenSome (j : RollSafeId) :
    id_to_entity (w.setChildrenSome e l) j = id_to_entity w j := rfl

@[simp] theorem id_to_entity_setChildrenNone (j : RollSafeId) :
    id_to_entity (w.setChildrenNone e) j = id_to_entity w j := rfl

@[simp] theorem id_to_entity_despawn (j : RollSafeId) :
    id_to_entity (w.despawn e) j = id_to_entity w j := rfl

@[simp] theorem idComp_setIdSome :
    (w.setIdSome e i).idComp x = if x = e then some i else w.idComp x := by
  simp [World.setIdSome, Function.update_apply]

@[simp] theorem parentComp_setIdSome : (w.setIdSome e i).parentComp = w.parentComp := rfl

@[simp] theorem childrenComp_setIdSome : (w.setIdSome e i).childrenComp = w.childrenComp := rfl

@[simp] theorem parentComp_setParentSome :
    (w.setParentSome e i).parentComp x = if x = e then some i else w.parentComp x := by
  simp [World.setParentSome, Function.update_apply]

@[simp] theorem idComp_setParentSome : (w.setParentSome e i).idComp = w.idComp := rfl

@[simp] theorem childrenComp_setParentSome :
    (w.setParentSome e i).childrenComp = w.childrenComp := rfl

@[simp] theorem parentComp_setParentNone :
    (w.setParentNone e).parentComp x = if x = e then none else w.parentComp x := by
  simp [World.setParentNone, Function.update_apply]

@[simp] theorem idComp_setParentNone : (w.setParentNone e).idComp = w.idComp := rfl

@[simp] theorem childrenComp_setParentNone :
    (w.setParentNone e).childrenComp = w.childrenComp := rfl

@[simp] theorem childrenComp_setChildrenSome :
    (w.setChildrenSome e l).childrenComp x = if x = e then some l else w.childrenComp x := by
  simp [World.setChildrenSome, Function.update_apply]

@[simp] theorem idComp_setChildrenSome : (w.setChildrenSome e l).idComp = w.idComp := rfl

@[simp] theorem parentComp_setChildrenSome :
    (w.setChildrenSome e l).parentComp = w.parentComp := rfl

@[simp] theorem childrenComp_setChildrenNone :
    (w.setChildrenNone e).childrenComp x = if x = e then none else w.childrenComp x := by
  simp [World.setChildrenNone, Function.update_apply]

@[simp] theorem idComp_setChildrenNone : (w.setChildrenNone e).idComp = w.idComp := rfl

@[simp] theorem parentComp_setChildrenNone :
    (w.setChildrenNone e).parentComp = w.parentComp := rfl

@[simp] theorem alive_despawn : (w.despawn e).alive = w.alive.erase e := rfl

@[simp] theorem idm_despawn : (w.despawn e).idm = w.idm := rfl

@[simp] theorem idComp_despawn :
    (w.despawn e).idComp x = if x = e then none else w.idComp x := by
  simp [World.despawn, Function.update_apply]

@[simp] theorem parentComp_despawn :
    (w.despawn e).parentComp x = if x = e then none else w.parentComp x := by
  simp [World.despawn, Function.update_apply]

@[simp] theorem childrenComp_despawn :
    (w.despawn e).childrenComp x = if x = e then none else w.childrenComp x := by
  simp [World.despawn, Function.update_apply]

@[simp] theorem alive_free_id (i : RollSafeId) : (free_id w i).alive = w.alive := by
  unfold free_id
  split <;> rfl

@[simp] theorem idComp_free_id (i : RollSafeId) : (free_id w i).idComp = w.idComp := by
  unfold free_id
  split <;> rfl

@[simp] theorem parentComp_free_id (i : RollSafeId) :
    (free_id w i).parentComp = w.parentComp := by
  unfold free_id
  split <;> rfl

@[simp] theorem childrenComp_free_id (i : RollSafeId) :
    (free_id w i).childrenComp = w.childrenComp := by
  unfold free_id
  split <;> rfl

@[simp] theorem alive_alloc_id : (alloc_id w).2.alive = w.alive := by
  unfold alloc_id
  split <;> rfl

@[simp] theorem idComp_alloc_id : (alloc_id w).2.idComp = w.idComp := by
  unfold alloc_id
  split <;> rfl

@[simp] theorem parentComp_alloc_id : (alloc_id w).2.parentComp = w.parentComp := by
  unfold alloc_id
  split <;> rfl

@[simp] theorem childrenComp_alloc_id : (alloc_id w).2.childrenComp = w.childrenComp := by
  unfold alloc_id
  split <;> rfl

@[simp] theorem id_to_entity_alloc_id (j : RollSafeId) :
    id_to_entity (alloc_id w).2 j = id_to_entity w j := by
  unfold alloc_id
  cases hm : w.idm with
  | none => rfl
  | some m =>
    cases hg : m.unused_ids.getLast? <;>
      simp [id_to_entity, IdManager.alloc_id, hg, hm, IdManager.lookup_entity]

@[simp] theorem id_to_entity_free_id (i j : RollSafeId) :
    id_to_entity (free_id w i) j = id_to_entity w j := by
  unfold free_id
  cases hm : w.idm with
  | none => rfl
  | some m =>
    simp [id_to_entity, IdManager.free_id, hm, IdManager.lookup_entity]

theorem getId_eq_some_iff :
    w.getId e = some i ↔ e ∈ w.alive ∧ w.idComp e = some i := by
  unfold World.getId
  by_cases he : e ∈ w.alive <;> simp [he]

theorem getId_of_mem (he : e ∈ w.alive) : w.getId e = w.idComp e := by
  unfold World.getId
  simp [he]

theorem getParent_of_mem (he : e ∈ w.alive) : w.getParent e = w.parentComp e := by
  unfold World.getParent
  simp [he]

theorem getChildren_of_mem (he : e ∈ w.alive) : w.getChildren e = w.childrenComp e := by
  unfold World.getChildren
  simp [he]

theorem getId_mem {i : RollSafeId} (h : w.getId e = some i) : e ∈ w.alive :=
  (getId_eq_some_iff.mp h).1

theorem getParent_mem {p : RollSafeId} (h : w.getParent e = some p) : e ∈ w.alive := by
  unfold World.getParent at h
  by_cases he : e ∈ w.alive
  · exact he
  · simp [he] at h

theorem getChildren_mem {l : List RollSafeId} (h : w.getChildren e = some l) :
    e ∈ w.alive := by
  unfold World.getChildren at h
  by_cases he : e ∈ w.alive
  · exact he
  · simp [he] at h

end Basics

/-- C10: when the `IdManager` resource is absent, `alloc_id` returns the
placeholder `RollSafeId(usize::MAX)` without failing, `free_id` is a no-op,
and `get_or_assign_new_id` hands every identity-free live entity that same
placeholder (and leaves an already-assigned identity unchanged). -/
theorem C10_no_id_manager_placeholder (w : World) (h : w.idm = none) :
    alloc_id w = (ROLL_SAFE_ID_PLACE_HOLDER, w) ∧
    (∀ i, free_id w i = w) ∧
    (∀ e, e ∈ w.alive → w.idComp e = none →
      get_or_assign_new_id w e =
        some (ROLL_SAFE_ID_PLACE_HOLDER, w.setIdSome e ROLL_SAFE_ID_PLACE_HOLDER)) ∧
    (∀ e i, w.getId e = some i → get_or_assign_new_id w e = some (i, w)) := by
  have ha : alloc_id w = (ROLL_SAFE_ID_PLACE_HOLDER, w) := by
    unfold alloc_id
    rw [h]
  refine ⟨ha, ?_, ?_, ?_⟩
  · intro i
    unfold free_id
    rw [h]
  · intro e he hid
    have hg : w.getId e = none := by
      unfold World.getId
      simp [he, hid]
    unfold get_or_assign_new_id
    rw [hg, ha]
    simp [he]
  · intro e i hid
    unfold get_or_assign_new_id
    rw [hid]

/-- Witness for C10 at a concrete resource-free world. -/
theorem C10_witness :
    alloc_id Wbare = (ROLL_SAFE_ID_PLACE_HOLDER, Wbare) ∧
    free_id Wbare 3 = Wbare ∧
    get_or_assign_new_id Wbare 1 =
      some (ROLL_SAFE_ID_PLACE_HOLDER, Wbare.setIdSome 1 ROLL_SAFE_ID_PLACE_HOLDER) := by
  obtain ⟨h1, h2, h3, _⟩ := C10_no_id_manager_placeholder Wbare rfl
  exact ⟨h1, h2 3, h3 1 (by decide) rfl⟩

/-- C8: every self-parenting request fails fatally — `add_child(E,E)` and
`set_parent(E,E)` panic, and `push_children`, `insert_children` and
`replace_children` panic whenever the batch contains the parent itself. -/
theorem C8_self_parenting_panics (w : World) (E : Entity) (cs : List Entity) (i : Nat) :
    add_child E E w = none ∧ set_parent E E w = none ∧
    (E ∈ cs → push_children E cs w = none ∧ insert_children E i cs w = none ∧
      replace_children E cs w = none) := by
  refine ⟨?_, ?_, fun hmem => ⟨?_, ?_, ?_⟩⟩
  · simp [add_child]
  · simp [set_parent, add_child]
  · simp [push_children, hmem]
  · simp [insert_children, hmem]
  · unfold replace_children
    cases hcl : clear_children_fn E w with
    | none => rfl
    | some w1 => simp [hcl, push_children, hmem]

/-- Witness for C8 at a concrete world and batch. -/
theorem C8_witness :
    add_child 5 5 Wbare = none ∧ push_children 5 [1, 5] Wbare = none ∧
    replace_children 5 [1, 5] Wbare = none := by
  obtain ⟨h1, _, h3⟩ := C8_self_parenting_panics Wbare 5 [1, 5] 0
  obtain ⟨h4, _, h6⟩ := h3 (by decide)
  exact ⟨h1, h4, h6⟩

theorem strip_fold_spec (cs : List Entity) (w : World) :
    (cs.foldl (fun wacc c => wacc.setParentNone c) w).alive = w.alive ∧
    (cs.foldl (fun wacc c => wacc.setParentNone c) w).idComp = w.idComp ∧
    (cs.foldl (fun wacc c => wacc.setParentNone c) w).childrenComp = w.childrenComp ∧
    (cs.foldl (fun wacc c => wacc.setParentNone c) w).idm = w.idm ∧
    ∀ e, (cs.foldl (fun wacc c => wacc.setParentNone c) w).parentComp e =
      if e ∈ cs then none else w.parentComp e := by
  induction cs generalizing w with
  | nil => simp
  | cons c cs ih =>
    obtain ⟨h1, h2, h3, h4, h5⟩ := ih (w.setParentNone c)
    refine ⟨by simpa using h1, by simpa using h2, by simpa using h3,
      by simpa using h4, ?_⟩
    intro e
    rw [List.foldl_cons, h5 e]
    by_cases hec : e = c <;> by_cases hecs : e ∈ cs <;>
      simp [hec, hecs]

theorem mem_removed_ids {w : World} {cs : List Entity} {l : List RollSafeId}
    {x : RollSafeId} (hx : x ∈ l) :
    (x ∈ cs.filterMap (fun child =>
        match w.getId child with
        | none => none
        | some cid => if cid ∈ l then some cid else none)) ↔
      ∃ c ∈ cs, w.getId c = some x := by
  rw [List.mem_filterMap]
  constructor
  · rintro ⟨c, hc, hfc⟩
    refine ⟨c, hc, ?_⟩
    cases hg : w.getId c with
    | none => simp [hg] at hfc
    | some cid =>
      rw [hg] at hfc
      dsimp only at hfc
      by_cases hmem : cid ∈ l
      · rw [if_pos hmem] at hfc
        exact hfc
      · rw [if_neg hmem] at hfc
        exact absurd hfc (by simp)
  · rintro ⟨c, hc, hg⟩
    refine ⟨c, hc, ?_⟩
    rw [hg]
    dsimp only
    rw [if_pos hx]

/-- C5 (amended): with a `RollSafeChildren` marker present on the parent,
`remove_children` removes exactly the batch members' identities from the
marker (order of the remainder preserved, marker dropped when emptied) but
strips the `RollSafeParent` marker from every live batch member, listed under
the parent or not; with no marker present nothing happens; a dead batch
member is a panic. -/
theorem C5_remove_children_amended (p : Entity) (cs : List Entity) (w : World) :
    (w.getChildren p = none → remove_children_fn p cs w = some w) ∧
    (∀ l, w.getChildren p = some l → (∀ c ∈ cs, c ∈ w.alive) →
      ∃ w', remove_children_fn p cs w = some w' ∧
        w'.alive = w.alive ∧ w'.idComp = w.idComp ∧ w'.idm = w.idm ∧
        (∀ c ∈ cs, w'.parentComp c = none) ∧
        (∀ e, e ∉ cs → w'.parentComp e = w.parentComp e) ∧
        (∀ q, q ≠ p → w'.childrenComp q = w.childrenComp q) ∧
        w'.childrenComp p =
          (if l.filter (fun x => ¬ ∃ c ∈ cs, w.getId c = some x) = [] then none
           else some (l.filter (fun x => ¬ ∃ c ∈ cs, w.getId c = some x)))) ∧
    (∀ l, w.getChildren p = some l → ¬ (∀ c ∈ cs, c ∈ w.alive) →
      remove_children_fn p cs w = none) := by
  refine ⟨?_, ?_, ?_⟩
  · intro h
    unfold remove_children_fn
    rw [h]
  · intro l hl halive
    have hp : p ∈ w.alive := getChildren_mem hl
    obtain ⟨ha, hi, hc, hm, hpar⟩ := strip_fold_spec cs w
    have hall : cs.all (fun c => decide (c ∈ w.alive)) = true := by
      rw [List.all_eq_true]
      intro c hc2
      exact decide_eq_true (halive c hc2)
    have hgc : (cs.foldl (fun wacc c => wacc.setParentNone c) w).getChildren p = some l := by
      rw [getChildren_of_mem (by rw [ha]; exact hp), hc]
      rw [getChildren_of_mem hp] at hl
      exact hl
    have hfeq : l.filter (fun x => ¬ (cs.filterMap (fun child =>
        match w.getId child with
        | none => none
        | some cid => if cid ∈ l then some cid else none)).contains x) =
        l.filter (fun x => ¬ ∃ c ∈ cs, w.getId c = some x) := by
      apply List.filter_congr
      intro x hx
      rw [decide_eq_decide]
      exact not_congr (Iff.trans List.elem_iff (mem_removed_ids hx))
    by_cases hemp : l.filter (fun x => ¬ ∃ c ∈ cs, w.getId c = some x) = []
    · have heq : remove_children_fn p cs w =
          some ((cs.foldl (fun wacc c => wacc.setParentNone c) w).setChildrenNone p) := by
        unfold remove_children_fn
        rw [hl]
        dsimp only
        simp only [hall, if_true]
        rw [hgc]
        dsimp only
        rw [hfeq, if_pos hemp]
      refine ⟨_, heq, by simpa using ha, by simpa using hi, by simpa using hm,
        ?_, ?_, ?_, ?_⟩
      · intro c hc2
        simp [hpar c, hc2]
      · intro e he
        simp [hpar e, he]
      · intro q hq
        simp [hq]
        exact congrFun hc q
      · rw [if_pos hemp]
        simp
    · have heq : remove_children_fn p cs w =
          some ((cs.foldl (fun wacc c => wacc.setParentNone c) w).setChildrenSome p
            (l.filter (fun x => ¬ ∃ c ∈ cs, w.getId c = some x))) := by
        unfold remove_children_fn
        rw [hl]
        dsimp only
        simp only [hall, if_true]
        rw [hgc]
        dsimp only
        rw [hfeq, if_neg hemp]
      refine ⟨_, heq, by simpa using ha, by simpa using hi, by simpa using hm,
        ?_, ?_, ?_, ?_⟩
      · intro c hc2
        simp [hpar c, hc2]
      · intro e he
        simp [hpar e, he]
      · intro q hq
        simp [hq]
        exact congrFun hc q
      · rw [if_neg hemp]
        simp
  · intro l hl hnall
    unfold remove_children_fn
    rw [hl]
    have : cs.all (fun c => decide (c ∈ w.alive)) = false := by
      rw [List.all_eq_false]
      push_neg at hnall
      obtain ⟨c, hc, hcal⟩ := hnall
      exact ⟨c, hc, by simpa using hcal⟩
    simp [this]

/-- Counterexample to C5 as stated: entity 4 is a child of entity 3, not of
entity 1, yet `remove_children(1, [4])` strips entity 4's `RollSafeParent`
marker (the claim says unlisted batch members keep their parent). -/
theorem C5_counterexample :
    OptEx (remove_children_fn 1 [4] Wpair)
      (fun w' => w'.parentComp 4 = none ∧ w'.childrenComp 3 = some [3]) ∧
    Wpair.parentComp 4 = some 2 ∧ Wpair.childrenComp 1 = some [1] := by
  decide

/-- Witness for the amended C5 at a concrete world. -/
theorem C5_witness :
    ∃ w', remove_children_fn 3 [4] Wpair = some w' ∧
      w'.alive = Wpair.alive ∧ w'.idComp = Wpair.idComp ∧ w'.idm = Wpair.idm ∧
      (∀ c ∈ [4], w'.parentComp c = none) ∧
      (∀ e, e ∉ [4] → w'.parentComp e = Wpair.parentComp e) ∧
      (∀ q, q ≠ 3 → w'.childrenComp q = Wpair.childrenComp q) ∧
      w'.childrenComp 3 =
        (if ([3] : List RollSafeId).filter
              (fun x => decide (¬ ∃ c ∈ ([4] : List Entity),
                Wpair.getId c = some x)) = [] then none
         else some (([3] : List RollSafeId).filter
              (fun x => decide (¬ ∃ c ∈ ([4] : List Entity),
                Wpair.getId c = some x)))) :=
  (C5_remove_children_amended 3 [4] Wpair).2.1 [3] (by decide) (by decide)

/-- C6 (amended): when `C` is already a child of `P` (and `P`'s identity
resolves to `P` itself), `add_child(P, C)` moves `C`'s identity to the end of
`P`'s `RollSafeChildren` sequence and changes nothing else; the world is
unchanged exactly when `C` was already the last listed child. -/
theorem C6_add_child_already_child_amended (w : World) (P C : Entity)
    (p c : RollSafeId) (l : List RollSafeId)
    (hPC : C ≠ P) (hP : P ∈ w.alive) (hC : C ∈ w.alive)
    (hidP : w.idComp P = some p) (hidC : w.idComp C = some c)
    (hpar : w.parentComp C = some p)
    (hlook : id_to_entity w p = some P)
    (hl : w.childrenComp P = some l) (hmem : c ∈ l) :
    add_child P C w =
      some (w.setChildrenSome P (l.filter (fun x => x ≠ c) ++ [c])) ∧
    (∀ l', l = l' ++ [c] → c ∉ l' → add_child P C w = some w) := by
  have hw2 : w.setParentSome C p = w := by
    unfold World.setParentSome
    rw [← hpar, Function.update_eq_self]
  have h1 : get_or_assign_new_id w P = some (p, w) := by
    unfold get_or_assign_new_id
    rw [getId_of_mem hP, hidP]
  have h4 : get_or_assign_new_id w C = some (c, w) := by
    unfold get_or_assign_new_id
    rw [getId_of_mem hC, hidC]
  have h2 : update_parent w C P = some (some P, w) := by
    unfold update_parent
    rw [h1]
    dsimp only
    rw [if_pos hC, getParent_of_mem hC, hpar]
    dsimp only
    rw [hw2, hlook]
  have h3 : update_old_parent w C P = some w := by
    unfold update_old_parent
    rw [h2]
    dsimp only
    rw [if_pos rfl]
  have hmain : add_child P C w =
      some (w.setChildrenSome P (l.filter (fun x => x ≠ c) ++ [c])) := by
    unfold add_child
    rw [if_pos hP, if_neg hPC, h3]
    dsimp only
    rw [h4]
    dsimp only
    rw [getChildren_of_mem hP, hl]
  refine ⟨hmain, ?_⟩
  intro l' hle hnot
  rw [hmain, hle]
  have hfilter : (l' ++ [c]).filter (fun x => x ≠ c) = l' := by
    rw [List.filter_append]
    have h5 : l'.filter (fun x => x ≠ c) = l' := by
      rw [List.filter_eq_self]
      intro a ha
      exact decide_eq_true (fun hac => hnot (hac ▸ ha))
    have h6 : [c].filter (fun x => x ≠ c) = [] := by simp
    rw [h5, h6, List.append_nil]
  rw [hfilter]
  have : w.setChildrenSome P (l' ++ [c]) = w := by
    unfold World.setChildrenSome
    rw [← hle, ← hl, Function.update_eq_self]
  rw [this]

/-- Counterexample to C6 as stated: entity 2 (id 5) is already a child of
entity 1 and is listed first; `add_child(1, 2)` reorders the marker from
`[5, 6]` to `[6, 5]`, so the state is not left unchanged. -/
theorem C6_counterexample :
    OptEx (add_child 1 2 Wtwo) (fun w' => w'.childrenComp 1 = some [6, 5]) ∧
    Wtwo.childrenComp 1 = some [5, 6] ∧ Wtwo.parentComp 2 = some 0 ∧
    Wtwo.idComp 2 = some 5 ∧ Wtwo.idComp 1 = some 0 := by
  decide

/-- Witness for the amended C6: entity 3 (id 6) is the last listed child of
entity 1, and `add_child(1, 3)` leaves the world unchanged. -/
theorem C6_witness :
    add_child 1 3 Wtwo =
      some (Wtwo.setChildrenSome 1 ([5, 6].filter (fun x => x ≠ 6) ++ [6])) ∧
    add_child 1 3 Wtwo = some Wtwo := by
  obtain ⟨h1, h2⟩ := C6_add_child_already_child_amended Wtwo 1 3 0 6 [5, 6]
    (by decide) (by decide) (by decide) rfl rfl rfl (by decide) rfl (by decide)
  exact ⟨h1, h2 [5] rfl (by decide)⟩

theorem get_or_assign_spec {w : World} {e : Entity} {i : RollSafeId} {w' : World}
    (h : get_or_assign_new_id w e = some (i, w')) :
    e ∈ w.alive ∧ w'.alive = w.alive ∧ w'.parentComp = w.parentComp ∧
    w'.childrenComp = w.childrenComp ∧ w'.idComp e = some i ∧
    (∀ x, x ≠ e → w'.idComp x = w.idComp x) ∧
    (∀ j, id_to_entity w' j = id_to_entity w j) := by
  unfold get_or_assign_new_id at h
  cases hg : w.getId e with
  | some i0 =>
    rw [hg] at h
    dsimp only at h
    rw [Option.some_inj, Prod.mk.injEq] at h
    obtain ⟨hi, hw⟩ := h
    subst hi
    subst hw
    exact ⟨getId_mem hg, rfl, rfl, rfl, (getId_eq_some_iff.mp hg).2,
      fun x _ => rfl, fun j => rfl⟩
  | none =>
    rw [hg] at h
    dsimp only at h
    by_cases he : e ∈ (alloc_id w).2.alive
    · rw [if_pos he] at h
      rw [Option.some_inj, Prod.mk.injEq] at h
      obtain ⟨hi, hw⟩ := h
      subst hi
      subst hw
      refine ⟨by simpa using he, by simp, by simp, by simp, by simp, ?_, ?_⟩
      · intro x hx
        simp [hx]
      · intro j
        simp
    · rw [if_neg he] at h
      exact absurd h (by simp)

theorem update_parent_spec {w : World} {child par : Entity}
    {prev? : Option Entity} {w' : World}
    (h : update_parent w child par = some (prev?, w')) :
    child ∈ w.alive ∧ par ∈ w.alive ∧ w'.alive = w.alive ∧
    w'.childrenComp = w.childrenComp ∧
    (∃ npid, w'.idComp par = some npid ∧ w'.parentComp child = some npid ∧
      (∀ x, x ≠ child → w'.parentComp x = w.parentComp x) ∧
      (∀ x, x ≠ par → w'.idComp x = w.idComp x)) ∧
    (∀ j, id_to_entity w' j = id_to_entity w j) := by
  unfold update_parent at h
  cases hg : get_or_assign_new_id w par with
  | none => rw [hg] at h; exact absurd h (by simp)
  | some r =>
    obtain ⟨npid, wA⟩ := r
    obtain ⟨hparmem, hAalive, hApar, hAchild, hAid, hAother, hAlook⟩ :=
      get_or_assign_spec hg
    rw [hg] at h
    dsimp only at h
    by_cases hc : child ∈ wA.alive
    swap
    · rw [if_neg hc] at h
      exact absurd h (by simp)
    rw [if_pos hc] at h
    have hcmem : child ∈ w.alive := by rwa [hAalive] at hc
    cases hp : wA.getParent child with
    | some previous =>
      rw [hp] at h
      dsimp only at h
      rw [Option.some_inj, Prod.mk.injEq] at h
      obtain ⟨hprev, hw⟩ := h
      subst hw
      refine ⟨hcmem, hparmem, by simpa using hAalive, by simpa using hAchild,
        ⟨npid, by simpa using hAid, by simp, ?_, ?_⟩, ?_⟩
      · intro x hx
        rw [parentComp_setParentSome]
        rw [if_neg hx]
        exact congrFun hApar x
      · intro x hx
        simpa using hAother x hx
      · intro j
        simpa using hAlook j
    | none =>
      rw [hp] at h
      dsimp only at h
      rw [Option.some_inj, Prod.mk.injEq] at h
      obtain ⟨hprev, hw⟩ := h
      subst hw
      refine ⟨hcmem, hparmem, by simpa using hAalive, by simpa using hAchild,
        ⟨npid, by simpa using hAid, by simp, ?_, ?_⟩, ?_⟩
      · intro x hx
        rw [parentComp_setParentSome]
        rw [if_neg hx]
        exact congrFun hApar x
      · intro x hx
        simpa using hAother x hx
      · intro j
        simpa using hAlook j

theorem remove_from_children_frame (w : World) (parent child : Entity) :
    (remove_from_children w parent child).alive = w.alive ∧
    (remove_from_children w parent child).idComp = w.idComp ∧
    (remove_from_children w parent child).parentComp = w.parentComp ∧
    (remove_from_children w parent child).idm = w.idm ∧
    (∀ q, q ≠ parent →
      (remove_from_children w parent child).childrenComp q = w.childrenComp q) := by
  unfold remove_from_children
  dsimp only
  repeat' split
  all_goals exact ⟨rfl, rfl, rfl, rfl, fun q hq => by simp [hq]⟩

theorem update_old_parent_spec {w : World} {child par : Entity} {w' : World}
    (h : update_old_parent w child par = some w') :
    child ∈ w.alive ∧ par ∈ w.alive ∧ w'.alive = w.alive ∧
    (∃ npid, w'.idComp par = some npid ∧ w'.parentComp child = some npid ∧
      (∀ x, x ≠ child → w'.parentComp x = w.parentComp x) ∧
      (∀ x, x ≠ par → w'.idComp x = w.idComp x)) ∧
    (∀ j, id_to_entity w' j = id_to_entity w j) := by
  unfold update_old_parent at h
  cases hu : update_parent w child par with
  | none => rw [hu] at h; exact absurd h (by simp)
  | some r =>
    obtain ⟨prev?, wA⟩ := r
    obtain ⟨hcmem, hparmem, hAalive, hAchild, ⟨npid, hAidp, hAparc, hApother,
      hAiother⟩, hAlook⟩ := update_parent_spec hu
    rw [hu] at h
    dsimp only at h
    cases hp : prev? with
    | none =>
      rw [hp] at h
      rw [Option.some_inj] at h
      subst h
      exact ⟨hcmem, hparmem, hAalive, ⟨npid, hAidp, hAparc, hApother, hAiother⟩,
        hAlook⟩
    | some previous_parent =>
      rw [hp] at h
      dsimp only at h
      by_cases hpp : previous_parent = par
      · rw [if_pos hpp, Option.some_inj] at h
        subst h
        exact ⟨hcmem, hparmem, hAalive, ⟨npid, hAidp, hAparc, hApother, hAiother⟩,
          hAlook⟩
      · rw [if_neg hpp, Option.some_inj] at h
        subst h
        obtain ⟨hra, hri, hrp, hrm, hrc⟩ :=
          remove_from_children_frame wA previous_parent child
        refine ⟨hcmem, hparmem, by rw [hra, hAalive],
          ⟨npid, by rw [hri]; exact hAidp, by rw [hrp]; exact hAparc, ?_, ?_⟩, ?_⟩
        · intro x hx
          rw [hrp]
          exact hApother x hx
        · intro x hx
          rw [hri]
          exact hAiother x hx
        · intro j
          unfold id_to_entity
          rw [hrm]
          exact hAlook j

theorem add_child_success {P C : Entity} {w w1 : World}
    (h : add_child P C w = some w1) :
    P ∈ w1.alive ∧ C ∈ w1.alive ∧ C ≠ P ∧
    (∃ p1, w1.idComp P = some p1 ∧ w1.parentComp C = some p1) ∧
    (∃ c1 m, w1.idComp C = some c1 ∧ w1.childrenComp P = some (m ++ [c1]) ∧
      ∀ x ∈ m, x ≠ c1) := by
  unfold add_child at h
  by_cases hP : P ∈ w.alive
  swap
  · rw [if_neg hP] at h
    exact absurd h (by simp)
  rw [if_pos hP] at h
  by_cases hCP : C = P
  · rw [if_pos hCP] at h
    exact absurd h (by simp)
  rw [if_neg hCP] at h
  cases h1 : update_old_parent w C P with
  | none => rw [h1] at h; exact absurd h (by simp)
  | some wA =>
    rw [h1] at h
    dsimp only at h
    cases h2 : get_or_assign_new_id wA C with
    | none => rw [h2] at h; exact absurd h (by simp)
    | some r =>
      obtain ⟨c1, wB⟩ := r
      rw [h2] at h
      dsimp only at h
      obtain ⟨hCw, hPw, hAalive, ⟨npid, hAidP, hAparC, _, _⟩, _⟩ :=
        update_old_parent_spec h1
      obtain ⟨hCA, hBalive, hBpar, hBchild, hBidC, hBother, _⟩ :=
        get_or_assign_spec h2
      have hPB : P ∈ wB.alive := by
        rw [hBalive, hAalive]
        exact hP
      have hCB : C ∈ wB.alive := by
        rw [hBalive]
        exact hCA
      have hBidP : wB.idComp P = some npid := by
        rw [hBother P (fun hx => hCP hx.symm)]
        exact hAidP
      have hBparC : wB.parentComp C = some npid := by
        rw [congrFun hBpar C]
        exact hAparC
      cases h3 : wB.getChildren P with
      | some l =>
        rw [h3] at h
        rw [Option.some_inj] at h
        subst h
        refine ⟨by simpa using hPB, by simpa using hCB, hCP,
          ⟨npid, by simpa using hBidP, by simpa using hBparC⟩,
          ⟨c1, l.filter (fun x => x ≠ c1), by simpa using hBidC, by simp, ?_⟩⟩
        intro x hx
        have := List.of_mem_filter hx
        simpa using this
      | none =>
        rw [h3] at h
        rw [Option.some_inj] at h
        subst h
        refine ⟨by simpa using hPB, by simpa using hCB, hCP,
          ⟨npid, by simpa using hBidP, by simpa using hBparC⟩,
          ⟨c1, [], by simpa using hBidC, by simp, by simp⟩⟩

/-- C7 (amended): `add_child(P, C)` run twice from a starting state is the
same as running it once, provided that in the state after the first call the
reverse table does not map `P`'s identity to a live entity other than `P`
(a stale table entry for `P`'s id is exactly what breaks idempotence). -/
theorem C7_add_child_idempotent_amended (w : World) (P C : Entity)
    (hcond : OptAll (add_child P C w) fun w1 =>
      OptAll (w1.idComp P) fun p1 =>
        OptAll (id_to_entity w1 p1) fun q => q = P ∨ q ∉ w1.alive) :
    (add_child P C w).bind (fun w1 => add_child P C w1) = add_child P C w := by
  cases hfirst : add_child P C w with
  | none => rfl
  | some w1 =>
    show add_child P C w1 = some w1
    obtain ⟨hP1, hC1, hCP, ⟨p1, hidP1, hparC1⟩, ⟨c1, m, hidC1, hchP1, hnotm⟩⟩ :=
      add_child_success hfirst
    have hcnd := hcond
    rw [hfirst] at hcnd
    have hc1 : OptAll (w1.idComp P) fun pp =>
        OptAll (id_to_entity w1 pp) fun q => q = P ∨ q ∉ w1.alive := hcnd
    rw [hidP1] at hc1
    have hc2 : OptAll (id_to_entity w1 p1) fun q => q = P ∨ q ∉ w1.alive := hc1
    have h1 : get_or_assign_new_id w1 P = some (p1, w1) := by
      unfold get_or_assign_new_id
      rw [getId_of_mem hP1, hidP1]
    have h4 : get_or_assign_new_id w1 C = some (c1, w1) := by
      unfold get_or_assign_new_id
      rw [getId_of_mem hC1, hidC1]
    have hw2 : w1.setParentSome C p1 = w1 := by
      unfold World.setParentSome
      rw [← hparC1, Function.update_eq_self]
    have h2 : update_parent w1 C P = some (id_to_entity w1 p1, w1) := by
      unfold update_parent
      rw [h1]
      dsimp only
      rw [if_pos hC1, getParent_of_mem hC1, hparC1]
      dsimp only
      rw [hw2]
    have h3 : update_old_parent w1 C P = some w1 := by
      unfold update_old_parent
      rw [h2]
      dsimp only
      cases hq : id_to_entity w1 p1 with
      | none => rfl
      | some q =>
        rw [hq] at hc2
        have hq2 : q = P ∨ q ∉ w1.alive := hc2
        dsimp only
        by_cases hqP : q = P
        · rw [if_pos hqP]
        · rw [if_neg hqP]
          have hdead : q ∉ w1.alive := hq2.resolve_left hqP
          have hrm : remove_from_children w1 q C = w1 := by
            unfold remove_from_children
            rw [getId_of_mem hC1, hidC1]
            dsimp only
            rw [if_neg hdead]
          rw [hrm]
    unfold add_child
    rw [if_pos hP1, if_neg hCP, h3]
    dsimp only
    rw [h4]
    dsimp only
    rw [getChildren_of_mem hP1, hchP1]
    dsimp only
    have hfil : (m ++ [c1]).filter (fun x => x ≠ c1) = m := by
      rw [List.filter_append]
      have h5 : m.filter (fun x => x ≠ c1) = m := by
        rw [List.filter_eq_self]
        intro a ha
        exact decide_eq_true (hnotm a ha)
      have h6 : [c1].filter (fun x => x ≠ c1) = ([] : List RollSafeId) := by simp
      rw [h5, h6, List.append_nil]
    rw [hfil]
    have hset : w1.setChildrenSome P (m ++ [c1]) = w1 := by
      unfold World.setChildrenSome
      rw [← hchP1, Function.update_eq_self]
    rw [hset]

/-- Counterexample to C7 as stated: in `Wstale` the reverse table maps
entity 1's id 10 to entity 3, whose children marker holds entity 2's id.
The first `add_child(1, 2)` leaves entity 3's marker alone, but the second
call resolves the (unchanged) parent id 10 to entity 3 and strips entity 2's
id out of entity 3's marker, so twice differs from once. -/
theorem C7_counterexample :
    OptEx ((add_child 1 2 Wstale).bind (fun w1 => add_child 1 2 w1))
      (fun w2 => w2.childrenComp 3 = none) ∧
    OptEx (add_child 1 2 Wstale) (fun w1 => w1.childrenComp 3 = some [20]) := by
  decide

/-- Witness for the amended C7 at a concrete world whose reverse table is
exact. -/
theorem C7_witness :
    (add_child 1 2 Wtwo).bind (fun w1 => add_child 1 2 w1) = add_child 1 2 Wtwo :=
  C7_add_child_idempotent_amended Wtwo 1 2 (by decide)

theorem add_child_dead_child {p c : Entity} {w : World} (hc : c ∉ w.alive) :
    add_child p c w = none := by
  unfold add_child
  by_cases hp : p ∈ w.alive
  · rw [if_pos hp]
    by_cases hcp : c = p
    · exact absurd hp (hcp ▸ hc)
    · rw [if_neg hcp]
      have huop : update_old_parent w c p = none := by
        unfold update_old_parent
        cases hu : update_parent w c p with
        | none => rfl
        | some r =>
          obtain ⟨prev?, wA⟩ := r
          exact absurd (update_parent_spec hu).1 hc
      rw [huop]
  · rw [if_neg hp]

theorem applyQueued_eq_applyDirect_of_not_push (op : Op) (w : World)
    (h : op.isPush = false) : applyQueued op w = applyDirect op w := by
  cases op with
  | pushChildren p cs => exact absurd h (by simp [Op.isPush])
  | setParent c p =>
    show add_child p c w = set_parent c p w
    unfold set_parent
    by_cases hc : c ∈ w.alive
    · rw [if_pos hc]
    · rw [if_neg hc]
      exact add_child_dead_child hc
  | addChild p c => rfl
  | insertChildren p i cs => rfl
  | removeChildren p cs => rfl
  | clearChildren p => rfl
  | replaceChildren p cs => rfl
  | removeParent c => rfl
  | despawnRecursive t => rfl

theorem applySeqQueued_eq_of_not_push (ops : List Op) :
    ∀ w : World, (∀ op ∈ ops, op.isPush = false) →
      applySeqQueued ops w = applySeqDirect ops w := by
  induction ops with
  | nil => intro w _; rfl
  | cons op rest ih =>
    intro w h
    show (applyQueued op w).bind _ = (applyDirect op w).bind _
    rw [applyQueued_eq_applyDirect_of_not_push op w (h op (by simp))]
    cases hd : applyDirect op w with
    | none => rfl
    | some w1 =>
      show applySeqQueued rest w1 = applySeqDirect rest w1
      exact ih w1 (fun o ho => h o (by simp [ho]))

@[simp] theorem getId_setParentSome {w : World} {e c : Entity} {j : RollSafeId} :
    (w.setParentSome e j).getId c = w.getId c := rfl

theorem alloc_setParentSome_comm (w : World) (e : Entity) (j : RollSafeId) :
    alloc_id (w.setParentSome e j) =
      ((alloc_id w).1, (alloc_id w).2.setParentSome e j) := by
  unfold alloc_id
  rw [show (w.setParentSome e j).idm = w.idm from rfl]
  cases hm : w.idm with
  | none => rfl
  | some m => rfl

theorem setIdSome_setParentSome_comm (w : World) (e c : Entity)
    (j i : RollSafeId) :
    (w.setParentSome e j).setIdSome c i = (w.setIdSome c i).setParentSome e j := rfl

theorem collect_cons_eq (w : World) (c : Entity) (rest : List Entity) :
    collect_child_ids w (c :: rest) =
      match get_or_assign_new_id w c with
      | none => none
      | some (i, w1) =>
        match collect_child_ids w1 rest with
        | none => none
        | some (ids, w2) => some (i :: ids, w2) := rfl

theorem collect_setParentSome_comm (cs : List Entity) :
    ∀ (w : World) (e : Entity) (j : RollSafeId),
      collect_child_ids (w.setParentSome e j) cs =
        (collect_child_ids w cs).map (fun r => (r.1, r.2.setParentSome e j)) := by
  induction cs with
  | nil => intro w e j; rfl
  | cons c rest ih =>
    intro w e j
    rw [collect_cons_eq, collect_cons_eq]
    cases hg : w.getId c with
    | some i0 =>
      have h1 : get_or_assign_new_id (w.setParentSome e j) c =
          some (i0, w.setParentSome e j) := by
        unfold get_or_assign_new_id
        rw [getId_setParentSome, hg]
      have h2 : get_or_assign_new_id w c = some (i0, w) := by
        unfold get_or_assign_new_id
        rw [hg]
      rw [h1, h2]
      dsimp only
      rw [ih w e j]
      cases hrest : collect_child_ids w rest with
      | none => rfl
      | some r => rfl
    | none =>
      have hg' : (w.setParentSome e j).getId c = none := by
        rw [getId_setParentSome]; exact hg
      by_cases hc : c ∈ (alloc_id w).2.alive
      · have h1 : get_or_assign_new_id (w.setParentSome e j) c =
            some ((alloc_id w).1,
              ((alloc_id w).2.setIdSome c (alloc_id w).1).setParentSome e j) := by
          unfold get_or_assign_new_id
          rw [hg']
          dsimp only
          rw [alloc_setParentSome_comm]
          dsimp only
          rw [if_pos (by simpa using hc), setIdSome_setParentSome_comm]
        have h2 : get_or_assign_new_id w c =
            some ((alloc_id w).1, (alloc_id w).2.setIdSome c (alloc_id w).1) := by
          unfold get_or_assign_new_id
          rw [hg]
          dsimp only
          rw [if_pos hc]
        rw [h1, h2]
        dsimp only
        rw [ih ((alloc_id w).2.setIdSome c (alloc_id w).1) e j]
        cases hrest :
            collect_child_ids ((alloc_id w).2.setIdSome c (alloc_id w).1) rest with
        | none => rfl
        | some r => rfl
      · have h1 : get_or_assign_new_id (w.setParentSome e j) c = none := by
          unfold get_or_assign_new_id
          rw [hg']
          dsimp only
          rw [alloc_setParentSome_comm]
          dsimp only
          rw [if_neg (by simpa using hc)]
        have h2 : get_or_assign_new_id w c = none := by
          unfold get_or_assign_new_id
          rw [hg]
          dsimp only
          rw [if_neg hc]
        rw [h1, h2]
        rfl

theorem foldPs_spec (cs : List Entity) (pid : RollSafeId) (w : World) :
    (cs.foldl (fun wa c => wa.setParentSome c pid) w).alive = w.alive ∧
    (cs.foldl (fun wa c => wa.setParentSome c pid) w).idComp = w.idComp ∧
    (cs.foldl (fun wa c => wa.setParentSome c pid) w).childrenComp = w.childrenComp ∧
    (cs.foldl (fun wa c => wa.setParentSome c pid) w).idm = w.idm ∧
    ∀ e, (cs.foldl (fun wa c => wa.setParentSome c pid) w).parentComp e =
      if e ∈ cs then some pid else w.parentComp e := by
  induction cs generalizing w with
  | nil => simp
  | cons c rest ih =>
    obtain ⟨h1, h2, h3, h4, h5⟩ := ih (w.setParentSome c pid)
    refine ⟨by simpa using h1, by simpa using h2, by simpa using h3,
      by simpa using h4, ?_⟩
    intro e
    rw [List.foldl_cons, h5 e]
    by_cases hec : e = c <;> by_cases hecs : e ∈ rest <;>
      simp [hec, hecs]

theorem collect_foldPs_comm (csP : List Entity) (pid : RollSafeId)
    (cs : List Entity) : ∀ w : World,
    collect_child_ids (csP.foldl (fun wa x => wa.setParentSome x pid) w) cs =
      (collect_child_ids w cs).map
        (fun r => (r.1, csP.foldl (fun wa x => wa.setParentSome x pid) r.2)) := by
  induction csP with
  | nil =>
    intro w
    rw [List.foldl_nil]
    cases h : collect_child_ids w cs with
    | none => rfl
    | some r => rfl
  | cons x rest ih =>
    intro w
    rw [List.foldl_cons, ih (w.setParentSome x pid), collect_setParentSome_comm]
    cases h : collect_child_ids w cs with
    | none => rfl
    | some r => rfl

theorem uop_cons_eq (w : World) (p c : Entity) (rest : List Entity) :
    update_old_parents w p (c :: rest) =
      match update_old_parent w c p with
      | none => none
      | some w1 => update_old_parents w1 p rest := rfl

theorem assign_cons_eq (w : World) (c : Entity) (rest : List Entity) :
    assign_fresh_ids w (c :: rest) =
      if c ∈ (alloc_id w).2.alive then
        assign_fresh_ids ((alloc_id w).2.setIdSome c (alloc_id w).1) rest
      else none := rfl

theorem update_old_parents_fresh (p : Entity) (pid : RollSafeId)
    (cs : List Entity) : ∀ w : World, w.getId p = some pid → cs.Nodup →
    (∀ c ∈ cs, c ∈ w.alive ∧ w.parentComp c = none) →
    update_old_parents w p cs =
      some (cs.foldl (fun wa c => wa.setParentSome c pid) w) := by
  induction cs with
  | nil => intro w _ _ _; rfl
  | cons c rest ih =>
    intro w hpid hnd hcs
    obtain ⟨hcal, hcpar⟩ := hcs c (by simp)
    have h1 : get_or_assign_new_id w p = some (pid, w) := by
      unfold get_or_assign_new_id
      rw [hpid]
    have h2 : update_parent w c p = some (none, w.setParentSome c pid) := by
      unfold update_parent
      rw [h1]
      dsimp only
      rw [if_pos hcal, getParent_of_mem hcal, hcpar]
    have h3 : update_old_parent w c p = some (w.setParentSome c pid) := by
      unfold update_old_parent
      rw [h2]
    rw [uop_cons_eq, h3]
    dsimp only
    rw [List.foldl_cons]
    apply ih
    · rw [getId_setParentSome]
      exact hpid
    · exact hnd.of_cons
    · intro x hx
      obtain ⟨hxal, hxpar⟩ := hcs x (by simp [hx])
      have hxc : x ≠ c := by
        rintro rfl
        exact (List.nodup_cons.mp hnd).1 hx
      refine ⟨by simpa using hxal, ?_⟩
      rw [parentComp_setParentSome, if_neg hxc]
      exact hxpar

theorem collect_of_ids (cs : List Entity) : ∀ w : World,
    (∀ c ∈ cs, (w.getId c).isSome = true) →
    ∃ ids, collect_child_ids w cs = some (ids, w) ∧
      List.Forall₂ (fun c i => w.getId c = some i) cs ids := by
  induction cs with
  | nil => intro w _; exact ⟨[], rfl, List.Forall₂.nil⟩
  | cons c rest ih =>
    intro w h
    obtain ⟨i0, hi0⟩ := Option.isSome_iff_exists.mp (h c (by simp))
    have h2 : get_or_assign_new_id w c = some (i0, w) := by
      unfold get_or_assign_new_id
      rw [hi0]
    obtain ⟨ids, hcoll, hf2⟩ := ih w (fun x hx => h x (by simp [hx]))
    refine ⟨i0 :: ids, ?_, List.Forall₂.cons hi0 hf2⟩
    rw [collect_cons_eq, h2]
    dsimp only
    rw [hcoll]

theorem mint_equiv (cs : List Entity) : ∀ w : World, cs.Nodup →
    (∀ c ∈ cs, c ∈ w.alive ∧ w.idComp c = none) →
    ∃ ids wE, collect_child_ids w cs = some (ids, wE) ∧
      assign_fresh_ids w cs = some wE ∧
      wE.alive = w.alive ∧ wE.parentComp = w.parentComp ∧
      wE.childrenComp = w.childrenComp ∧
      (∀ x, x ∉ cs → wE.idComp x = w.idComp x) ∧
      List.Forall₂ (fun c i => wE.getId c = some i) cs ids := by
  induction cs with
  | nil =>
    intro w _ _
    exact ⟨[], w, rfl, rfl, rfl, rfl, rfl, fun x _ => rfl, List.Forall₂.nil⟩
  | cons c rest ih =>
    intro w hnd hcs
    obtain ⟨hcal, hcid⟩ := hcs c (by simp)
    have hg : w.getId c = none := by
      rw [getId_of_mem hcal]
      exact hcid
    have hcal' : c ∈ (alloc_id w).2.alive := by simpa using hcal
    have h2 : get_or_assign_new_id w c =
        some ((alloc_id w).1, (alloc_id w).2.setIdSome c (alloc_id w).1) := by
      unfold get_or_assign_new_id
      rw [hg]
      dsimp only
      rw [if_pos hcal']
    have hrest : ∀ x ∈ rest, x ∈ ((alloc_id w).2.setIdSome c (alloc_id w).1).alive ∧
        ((alloc_id w).2.setIdSome c (alloc_id w).1).idComp x = none := by
      intro x hx
      obtain ⟨hxal, hxid⟩ := hcs x (by simp [hx])
      have hxc : x ≠ c := by
        rintro rfl
        exact (List.nodup_cons.mp hnd).1 hx
      refine ⟨by simpa using hxal, ?_⟩
      rw [idComp_setIdSome, if_neg hxc]
      rw [show (alloc_id w).2.idComp = w.idComp from idComp_alloc_id]
      exact hxid
    obtain ⟨ids, wE, hcoll, hassign, hal, hpar, hch, hidf, hf2⟩ :=
      ih ((alloc_id w).2.setIdSome c (alloc_id w).1) hnd.of_cons hrest
    have hcnr : c ∉ rest := (List.nodup_cons.mp hnd).1
    refine ⟨(alloc_id w).1 :: ids, wE, ?_, ?_, ?_, ?_, ?_, ?_, ?_⟩
    · rw [collect_cons_eq, h2]
      dsimp only
      rw [hcoll]
    · rw [assign_cons_eq, if_pos hcal']
      exact hassign
    · rw [hal]
      simp
    · rw [hpar]
      rw [show ((alloc_id w).2.setIdSome c (alloc_id w).1).parentComp =
        (alloc_id w).2.parentComp from rfl]
      exact parentComp_alloc_id
    · rw [hch]
      rw [show ((alloc_id w).2.setIdSome c (alloc_id w).1).childrenComp =
        (alloc_id w).2.childrenComp from rfl]
      exact childrenComp_alloc_id
    · intro x hx
      have hx2 : ¬(x = c ∨ x ∈ rest) := by simpa using hx
      push_neg at hx2
      rw [hidf x hx2.2, idComp_setIdSome, if_neg hx2.1]
      rw [show (alloc_id w).2.idComp = w.idComp from idComp_alloc_id]
    · refine List.Forall₂.cons ?_ hf2
      rw [getId_eq_some_iff]
      refine ⟨by rw [hal]; simpa using hcal, ?_⟩
      rw [hidf c hcnr, idComp_setIdSome, if_pos rfl]

theorem forall2_isSome {f : Entity → Option RollSafeId} :
    ∀ {cs : List Entity} {ids : List RollSafeId},
    List.Forall₂ (fun c i => f c = some i) cs ids →
    ∀ c ∈ cs, (f c).isSome = true := by
  intro cs ids h
  induction h with
  | nil => intro c hc; exact absurd hc (by simp)
  | cons hh _ ih =>
    intro c hc
    rcases List.mem_cons.mp hc with h1 | h2
    · subst h1
      rw [hh]
      rfl
    · exact ih c h2

theorem forall2_some_unique {f : Entity → Option RollSafeId} :
    ∀ {cs : List Entity} {ids1 ids2 : List RollSafeId},
    List.Forall₂ (fun c i => f c = some i) cs ids1 →
    List.Forall₂ (fun c i => f c = some i) cs ids2 → ids1 = ids2 := by
  intro cs
  induction cs with
  | nil =>
    intro ids1 ids2 h1 h2
    cases h1
    cases h2
    rfl
  | cons c rest ih =>
    intro ids1 ids2 h1 h2
    cases h1 with
    | cons ha1 hb1 =>
      cases h2 with
      | cons ha2 hb2 =>
        rw [ha1] at ha2
        rw [Option.some_inj] at ha2
        rw [ha2, ih hb1 hb2]

theorem getId_foldPs (cs : List Entity) (pid : RollSafeId) (w : World)
    (c : Entity) :
    ((cs.foldl (fun wa x => wa.setParentSome x pid) w)).getId c = w.getId c := by
  obtain ⟨h1, h2, _, _, _⟩ := foldPs_spec cs pid w
  unfold World.getId
  rw [h1, h2]

/-- C1 (amended): every queued variant invokes the same function as the
direct variant — so whole queues flushed in enqueue order coincide — except
`PushChildren`, whose `apply` first reassigns every batch child a freshly
allocated identity.  The queued `PushChildren` coincides with the direct
`push_children` exactly in the freshly-spawned situation: the parent already
carries an identity and every batch child is live with neither a
`RollSafeId` nor a `RollSafeParent` marker (and the batch has no
duplicates). -/
theorem C1_queued_direct_amended :
    (∀ (op : Op) (w : World), op.isPush = false →
      applyQueued op w = applyDirect op w) ∧
    (∀ (ops : List Op) (w : World), (∀ op ∈ ops, op.isPush = false) →
      applySeqQueued ops w = applySeqDirect ops w) ∧
    (∀ (p : Entity) (cs : List Entity) (w : World) (pid : RollSafeId),
      p ∈ w.alive → w.idComp p = some pid → cs.Nodup →
      (∀ c ∈ cs, c ∈ w.alive ∧ w.idComp c = none ∧ w.parentComp c = none) →
      push_children_command p cs w = push_children p cs w) := by
  refine ⟨applyQueued_eq_applyDirect_of_not_push,
    applySeqQueued_eq_of_not_push, ?_⟩
  intro p cs w pid hp hpid hnd hcs
  have hpcs : p ∉ cs := by
    intro hmem
    obtain ⟨_, hid, _⟩ := hcs p hmem
    rw [hpid] at hid
    exact absurd hid (by simp)
  obtain ⟨ids, wE, hcoll, hassign, halE, hparE, hchE, hidfE, hf2E⟩ :=
    mint_equiv cs w hnd (fun c hc => ⟨(hcs c hc).1, (hcs c hc).2.1⟩)
  unfold push_children_command
  rw [hassign]
  dsimp only
  unfold push_children
  have hpE : p ∈ wE.alive := by
    rw [halE]
    exact hp
  rw [if_pos hpE, if_pos hp, if_neg hpcs, if_neg hpcs]
  have hpidw : w.getId p = some pid := by
    rw [getId_of_mem hp]
    exact hpid
  have hpidE : wE.getId p = some pid := by
    rw [getId_eq_some_iff]
    refine ⟨hpE, ?_⟩
    rw [hidfE p hpcs]
    exact hpid
  have hcondW : ∀ c ∈ cs, c ∈ w.alive ∧ w.parentComp c = none :=
    fun c hc => ⟨(hcs c hc).1, (hcs c hc).2.2⟩
  have hcondE : ∀ c ∈ cs, c ∈ wE.alive ∧ wE.parentComp c = none := by
    intro c hc
    refine ⟨by rw [halE]; exact (hcs c hc).1, ?_⟩
    rw [hparE]
    exact (hcs c hc).2.2
  rw [update_old_parents_fresh p pid cs wE hpidE hnd hcondE]
  rw [update_old_parents_fresh p pid cs w hpidw hnd hcondW]
  dsimp only
  have hsomeE : ∀ c ∈ cs,
      (((cs.foldl (fun wa x => wa.setParentSome x pid) wE)).getId c).isSome
        = true := by
    intro c hc
    rw [getId_foldPs]
    exact forall2_isSome hf2E c hc
  obtain ⟨ids2, hcoll2, hf2b⟩ :=
    collect_of_ids cs (cs.foldl (fun wa x => wa.setParentSome x pid) wE) hsomeE
  rw [hcoll2]
  rw [collect_foldPs_comm cs pid cs w, hcoll]
  dsimp only
  have hids : ids2 = ids := by
    have hf2c : List.Forall₂ (fun c i => wE.getId c = some i) cs ids2 := by
      have := hf2b
      apply List.Forall₂.imp ?_ this
      intro a b hab
      rw [getId_foldPs] at hab
      exact hab
    exact forall2_some_unique hf2c hf2E
  rw [hids]
  rfl

/-- Counterexample to C1 as stated: entity 2 already carries id 1 as a child
of entity 1.  The queued `PushChildren` on parent 3 reassigns entity 2 a
fresh id 4, leaving the stale id 1 dangling in entity 1's children marker,
while the direct `push_children` keeps id 1 and empties (drops) entity 1's
marker — different identity assignments and different old-parent Children
lists. -/
theorem C1_counterexample :
    OptEx (applyQueued (.pushChildren 3 [2]) Wpair)
      (fun wq => wq.childrenComp 1 = some [1] ∧ wq.idComp 2 = some 4 ∧
        wq.childrenComp 3 = some [3, 4]) ∧
    OptEx (applyDirect (.pushChildren 3 [2]) Wpair)
      (fun wd => wd.childrenComp 1 = none ∧ wd.idComp 2 = some 1 ∧
        wd.childrenComp 3 = some [3, 1]) := by
  decide

/-- Witness for the amended C1 at a concrete world: parent 1 carries id 0
and entities 2, 3 are live, identity-free and parentless. -/
theorem C1_witness :
    push_children_command 1 [2, 3] Wmint = push_children 1 [2, 3] Wmint :=
  C1_queued_direct_amended.2.2 1 [2, 3] Wmint 0 (by decide) rfl (by decide)
    (by decide)

theorem id_to_entity_congr {w w' : World} (h : w'.idm = w.idm) (j : RollSafeId) :
    id_to_entity w' j = id_to_entity w j := by
  unfold id_to_entity
  rw [h]

theorem childrenList_mem_some {w : World} {x : Entity} {i : RollSafeId}
    (h : i ∈ childrenList w x) : ∃ l, w.childrenComp x = some l ∧ i ∈ l := by
  unfold childrenList at h
  cases hc : w.childrenComp x with
  | none => rw [hc] at h; exact absurd h (by simp)
  | some l => rw [hc] at h; exact ⟨l, rfl, h⟩

/-- One reparenting step (`update_old_parent` of a batch member `c` towards
`p`) preserves the intermediate invariant, described abstractly by how the
step may change the world: `c`'s parent marker now names `pid`, children
lists only shrink, and the only id that may disappear from a list is `c`'s
own id, which afterwards is listed (if at all) only under `p`. -/
theorem midinv_step_generic {p : Entity} {pid : RollSafeId} {S : List Entity}
    {w : World} {c : Entity} {ci : RollSafeId} {w' : World}
    (hm : MidInv p pid S w) (hcal : c ∈ w.alive) (hci : w.idComp c = some ci)
    (hcS : c ∉ S)
    (halive : w'.alive = w.alive) (hid : w'.idComp = w.idComp)
    (hidm : w'.idm = w.idm)
    (hparent : ∀ x, w'.parentComp x = if x = c then some pid else w.parentComp x)
    (hsubl : ∀ x, List.Sublist (childrenList w' x) (childrenList w x))
    (hrem : ∀ x i, i ∈ childrenList w x → i ≠ ci → i ∈ childrenList w' x)
    (hcnot : ∀ x ∈ w.alive, ci ∈ childrenList w' x → x = p)
    (hne : ∀ x, w'.childrenComp x = some [] → w.childrenComp x = some []) :
    MidInv p pid (c :: S) w' ∧ (NE w → NE w') := by
  obtain ⟨huniq, htotal, hmapTo, hpcM, hcp, hnodup, ⟨hpal, hppid⟩, hSf⟩ := hm
  constructor
  · refine ⟨?_, ?_, ?_, ?_, ?_, ?_, ⟨?_, ?_⟩, ?_⟩
    · intro e1 he1 e2 he2
      rw [hid]
      exact huniq e1 (halive ▸ he1) e2 (halive ▸ he2)
    · intro e he
      rw [hid]
      exact htotal e (halive ▸ he)
    · intro e he
      rw [hid]
      have := hmapTo e (halive ▸ he)
      cases hi : w.idComp e with
      | none => trivial
      | some i =>
        rw [hi] at this
        show id_to_entity w' i = some e
        rw [id_to_entity_congr hidm]
        exact this
    · intro x hx
      rw [hparent x]
      by_cases hxc : x = c
      · rw [if_pos hxc]
        show _ ∨ _
        right
        exact ⟨by simp [hxc], rfl⟩
      · rw [if_neg hxc]
        have hx2 : x ∈ w.alive := halive ▸ hx
        have := hpcM x hx2
        cases hq : w.parentComp x with
        | none => trivial
        | some q =>
          rw [hq] at this
          show (∃ P ∈ w'.alive, _) ∨ _
          rcases this with ⟨P, hPal, hPid, hPmem⟩ | ⟨hxS, hqpid⟩
          · left
            refine ⟨P, halive ▸ hPal, by rw [hid]; exact hPid, ?_⟩
            rw [hid]
            cases hxi : w.idComp x with
            | none => trivial
            | some ix =>
              rw [hxi] at hPmem
              show ix ∈ childrenList w' P
              have hixci : ix ≠ ci := by
                intro hh
                subst hh
                have hu := huniq x hx2 c hcal
                rw [hxi, hci] at hu
                exact hxc (hu rfl)
              exact hrem P ix hPmem hixci
          · right
            exact ⟨by simp [hxS], hqpid⟩
    · intro P hPal i hiP
      have hPal2 : P ∈ w.alive := halive ▸ hPal
      have hiPold : i ∈ childrenList w P := (hsubl P).subset hiP
      by_cases hic : i = ci
      · subst hic
        have hPp : P = p := hcnot P hPal2 hiP
        subst hPp
        refine ⟨c, halive ▸ hcal, by rw [hid]; exact hci, ?_⟩
        rw [hid, hppid]
        show w'.parentComp c = some pid
        rw [hparent c, if_pos rfl]
      · obtain ⟨c', hc'al, hc'id, hc'par⟩ := hcp P hPal2 i hiPold
        have hc'c : c' ≠ c := by
          intro hh
          subst hh
          rw [hci] at hc'id
          exact hic (Option.some_inj.mp hc'id).symm
        refine ⟨c', halive ▸ hc'al, by rw [hid]; exact hc'id, ?_⟩
        rw [hid]
        cases hPpi : w.idComp P with
        | none => rw [hPpi] at hc'par; exact hc'par
        | some pi =>
          rw [hPpi] at hc'par
          show w'.parentComp c' = some pi
          rw [hparent c', if_neg hc'c]
          exact hc'par
    · intro P hPal
      exact ((hsubl P).nodup (hnodup P (halive ▸ hPal)))
    · exact halive ▸ hpal
    · rw [hid]
      exact hppid
    · intro x hx
      rcases List.mem_cons.mp hx with h1 | h2
      · subst h1
        exact ⟨halive ▸ hcal, by rw [hparent x, if_pos rfl]⟩
      · obtain ⟨hxal, hxpar⟩ := hSf x h2
        have hxc : x ≠ c := by
          rintro rfl
          exact hcS h2
        exact ⟨halive ▸ hxal, by rw [hparent x, if_neg hxc]; exact hxpar⟩
  · intro hNE x hx hempty
    exact hNE x (halive ▸ hx) (hne x hempty)

theorem uop_step_midinv {p : Entity} {pid : RollSafeId} {S : List Entity}
    {w : World} {c : Entity} {w' : World}
    (hm : MidInv p pid S w) (hcS : c ∉ S)
    (h : update_old_parent w c p = some w') :
    (MidInv p pid (c :: S) w' ∧ (NE w → NE w')) ∧ w'.alive = w.alive ∧
    w'.idComp = w.idComp ∧ w'.idm = w.idm ∧
    w'.childrenComp p = w.childrenComp p ∧ c ∈ w.alive := by
  obtain ⟨huniq, htotal, hmapTo, hpcM, hcp, hnodup, ⟨hpal, hppid⟩, hSf⟩ := hm
  have hm2 : MidInv p pid S w :=
    ⟨huniq, htotal, hmapTo, hpcM, hcp, hnodup, ⟨hpal, hppid⟩, hSf⟩
  have hgp : w.getId p = some pid := by
    rw [getId_of_mem hpal]
    exact hppid
  have h1 : get_or_assign_new_id w p = some (pid, w) := by
    unfold get_or_assign_new_id
    rw [hgp]
  unfold update_old_parent update_parent at h
  rw [h1] at h
  dsimp only at h
  by_cases hcal : c ∈ w.alive
  swap
  · rw [if_neg hcal] at h
    exact absurd h (by simp)
  rw [if_pos hcal] at h
  obtain ⟨ci, hci⟩ := Option.isSome_iff_exists.mp (htotal c hcal)
  cases hq : w.getParent c with
  | none =>
    rw [hq] at h
    dsimp only at h
    rw [Option.some_inj] at h
    subst h
    have hpar0 : w.parentComp c = none := by
      rw [getParent_of_mem hcal] at hq
      exact hq
    refine ⟨midinv_step_generic hm2 hcal hci hcS
      (show (w.setParentSome c pid).alive = w.alive from rfl)
      (show (w.setParentSome c pid).idComp = w.idComp from rfl)
      (show (w.setParentSome c pid).idm = w.idm from rfl)
      (fun x => parentComp_setParentSome) (fun x => List.Sublist.refl _)
      (fun x i hi _ => hi) ?_
      (fun x hx => hx), rfl, rfl, rfl, rfl, hcal⟩
    intro x hx hcix
    obtain ⟨c2, hc2al, hc2id, hc2par⟩ := hcp x hx ci hcix
    have hc2c : c2 = c := by
      have hu := huniq c2 hc2al c hcal
      rw [hc2id, hci] at hu
      exact hu rfl
    subst hc2c
    cases hxi : w.idComp x with
    | none =>
      rw [hxi] at hc2par
      exact hc2par.elim
    | some pi =>
      rw [hxi] at hc2par
      rw [hpar0] at hc2par
      exact absurd hc2par (by simp [OptEx])
  | some q =>
    rw [hq] at h
    dsimp only at h
    have hpar : w.parentComp c = some q := by
      rw [getParent_of_mem hcal] at hq
      exact hq
    have hdis := hpcM c hcal
    rw [hpar] at hdis
    have hdis2 : (∃ P ∈ w.alive, w.idComp P = some q ∧
        OptAll (w.idComp c) fun x => x ∈ childrenList w P) ∨
        (c ∈ S ∧ q = pid) := hdis
    rcases hdis2 with ⟨P0, hP0al, hP0id, hciP0o⟩ | ⟨hcS2, _⟩
    swap
    · exact absurd hcS2 hcS
    have hciP0 : ci ∈ childrenList w P0 := by
      rw [hci] at hciP0o
      exact hciP0o
    have hlook : id_to_entity w q = some P0 := by
      have h2 := hmapTo P0 hP0al
      rw [hP0id] at h2
      exact h2
    rw [id_to_entity_setParentSome, hlook] at h
    dsimp only at h
    by_cases hP0p : P0 = p
    · rw [if_pos hP0p] at h
      rw [Option.some_inj] at h
      subst h
      have hqpid : pid = q := by
        rw [hP0p, hppid] at hP0id
        exact Option.some_inj.mp hP0id
      subst hqpid
      refine ⟨midinv_step_generic hm2 hcal hci hcS
        (show (w.setParentSome c pid).alive = w.alive from rfl)
        (show (w.setParentSome c pid).idComp = w.idComp from rfl)
        (show (w.setParentSome c pid).idm = w.idm from rfl)
        (fun x => parentComp_setParentSome) (fun x => List.Sublist.refl _)
        (fun x i hi _ => hi) ?_
        (fun x hx => hx), rfl, rfl, rfl, rfl, hcal⟩
      intro x hx hcix
      obtain ⟨c2, hc2al, hc2id, hc2par⟩ := hcp x hx ci hcix
      have hc2c : c2 = c := by
        have hu := huniq c2 hc2al c hcal
        rw [hc2id, hci] at hu
        exact hu rfl
      subst hc2c
      cases hxi : w.idComp x with
      | none =>
        rw [hxi] at hc2par
        exact hc2par.elim
      | some pi =>
        rw [hxi] at hc2par
        rw [hpar] at hc2par
        have hpix : pi = pid := (Option.some_inj.mp hc2par).symm
        subst hpix
        have hu := huniq x hx p hpal
        rw [hxi, hppid] at hu
        exact hu rfl
    · rw [if_neg hP0p] at h
      rw [Option.some_inj] at h
      subst h
      have hqnpid : q ≠ pid := by
        intro hh
        subst hh
        refine hP0p ?_
        have hu := huniq P0 hP0al p hpal
        rw [hP0id, hppid] at hu
        exact hu rfl
      obtain ⟨l, hl, hcil⟩ := childrenList_mem_some hciP0
      have hclw : childrenList w P0 = l := by
        unfold childrenList
        rw [hl]
        rfl
      have hrfc : remove_from_children (w.setParentSome c pid) P0 c =
          (if l.filter (fun x => x ≠ ci) = [] then
            (w.setParentSome c pid).setChildrenNone P0
           else (w.setParentSome c pid).setChildrenSome P0
            (l.filter (fun x => x ≠ ci))) := by
        unfold remove_from_children
        rw [show (w.setParentSome c pid).getId c = w.getId c from rfl,
          getId_of_mem hcal, hci]
        dsimp only
        rw [if_pos (show P0 ∈ (w.setParentSome c pid).alive from hP0al)]
        rw [show (w.setParentSome c pid).getChildren P0 = w.getChildren P0 from rfl,
          getChildren_of_mem hP0al, hl]
      have hcnotB : ∀ x ∈ w.alive,
          ci ∈ childrenList (remove_from_children (w.setParentSome c pid) P0 c) x →
            x = p := by
        intro x hx hcix
        by_cases hxP0 : x = P0
        · subst hxP0
          rw [hrfc] at hcix
          by_cases hemp : l.filter (fun y => y ≠ ci) = []
          · rw [if_pos hemp] at hcix
            unfold childrenList at hcix
            rw [childrenComp_setChildrenNone, if_pos rfl] at hcix
            exact absurd hcix (by simp)
          · rw [if_neg hemp] at hcix
            unfold childrenList at hcix
            rw [childrenComp_setChildrenSome, if_pos rfl] at hcix
            have := List.of_mem_filter (show ci ∈ l.filter (fun y => y ≠ ci) from hcix)
            exact absurd this (by simp)
        · rw [hrfc] at hcix
          have hcix2 : ci ∈ childrenList w x := by
            by_cases hemp : l.filter (fun y => y ≠ ci) = []
            · rw [if_pos hemp] at hcix
              unfold childrenList at hcix ⊢
              rw [childrenComp_setChildrenNone, if_neg hxP0] at hcix
              exact hcix
            · rw [if_neg hemp] at hcix
              unfold childrenList at hcix ⊢
              rw [childrenComp_setChildrenSome, if_neg hxP0] at hcix
              exact hcix
          obtain ⟨c2, hc2al, hc2id, hc2par⟩ := hcp x hx ci hcix2
          have hc2c : c2 = c := by
            have hu := huniq c2 hc2al c hcal
            rw [hc2id, hci] at hu
            exact hu rfl
          subst hc2c
          cases hxi : w.idComp x with
          | none =>
            rw [hxi] at hc2par
            exact hc2par.elim
          | some pi =>
            rw [hxi] at hc2par
            rw [hpar] at hc2par
            have hpix : pi = q := (Option.some_inj.mp hc2par).symm
            subst hpix
            have hu := huniq x hx P0 hP0al
            rw [hxi, hP0id] at hu
            exact absurd (hu rfl) hxP0
      have hsublB : ∀ x, List.Sublist
          (childrenList (remove_from_children (w.setParentSome c pid) P0 c) x)
          (childrenList w x) := by
        intro x
        rw [hrfc]
        by_cases hxP0 : x = P0
        · subst hxP0
          by_cases hemp : l.filter (fun y => y ≠ ci) = []
          · rw [if_pos hemp]
            unfold childrenList
            rw [childrenComp_setChildrenNone, if_pos rfl]
            exact List.nil_sublist _
          · rw [if_neg hemp]
            unfold childrenList
            rw [childrenComp_setChildrenSome, if_pos rfl, hl]
            exact List.filter_sublist _
        · by_cases hemp : l.filter (fun y => y ≠ ci) = []
          · rw [if_pos hemp]
            unfold childrenList
            rw [childrenComp_setChildrenNone, if_neg hxP0]
            exact List.Sublist.refl _
          · rw [if_neg hemp]
            unfold childrenList
            rw [childrenComp_setChildrenSome, if_neg hxP0]
            exact List.Sublist.refl _
      have hremB : ∀ x, ∀ i ∈ childrenList w x, i ≠ ci →
          i ∈ childrenList (remove_from_children (w.setParentSome c pid) P0 c) x := by
        intro x i hi hic
        rw [hrfc]
        by_cases hxP0 : x = P0
        · subst hxP0
          rw [hclw] at hi
          by_cases hemp : l.filter (fun y => y ≠ ci) = []
          · exfalso
            rw [List.filter_eq_nil_iff] at hemp
            exact hemp i hi (by simpa using hic)
          · rw [if_neg hemp]
            unfold childrenList
            rw [childrenComp_setChildrenSome, if_pos rfl]
            exact List.mem_filter.mpr ⟨hi, by simpa using hic⟩
        · by_cases hemp : l.filter (fun y => y ≠ ci) = []
          · rw [if_pos hemp]
            unfold childrenList
            rw [childrenComp_setChildrenNone, if_neg hxP0]
            exact hi
          · rw [if_neg hemp]
            unfold childrenList
            rw [childrenComp_setChildrenSome, if_neg hxP0]
            exact hi
      have hpcB : (remove_from_children (w.setParentSome c pid) P0 c).childrenComp p
          = w.childrenComp p := by
        rw [hrfc]
        have hppP0 : p ≠ P0 := fun hh => hP0p hh.symm
        by_cases hemp : l.filter (fun y => y ≠ ci) = []
        · rw [if_pos hemp, childrenComp_setChildrenNone, if_neg hppP0]
          rfl
        · rw [if_neg hemp, childrenComp_setChildrenSome, if_neg hppP0]
          rfl
      have hneB : ∀ x,
          (remove_from_children (w.setParentSome c pid) P0 c).childrenComp x
            = some [] → w.childrenComp x = some [] := by
        intro x hx
        rw [hrfc] at hx
        by_cases hxP0 : x = P0
        · subst hxP0
          by_cases hemp : l.filter (fun y => y ≠ ci) = []
          · rw [if_pos hemp, childrenComp_setChildrenNone, if_pos rfl] at hx
            exact absurd hx (by simp)
          · rw [if_neg hemp, childrenComp_setChildrenSome, if_pos rfl] at hx
            rw [Option.some_inj] at hx
            exact absurd hx hemp
        · by_cases hemp : l.filter (fun y => y ≠ ci) = []
          · rw [if_pos hemp, childrenComp_setChildrenNone, if_neg hxP0] at hx
            exact hx
          · rw [if_neg hemp, childrenComp_setChildrenSome, if_neg hxP0] at hx
            exact hx
      have halB : (remove_from_children (w.setParentSome c pid) P0 c).alive
          = w.alive := by
        rw [hrfc]
        by_cases hemp : l.filter (fun y => y ≠ ci) = []
        · rw [if_pos hemp]
          rfl
        · rw [if_neg hemp]
          rfl
      have hidB : (remove_from_children (w.setParentSome c pid) P0 c).idComp
          = w.idComp := by
        rw [hrfc]
        by_cases hemp : l.filter (fun y => y ≠ ci) = []
        · rw [if_pos hemp]
          rfl
        · rw [if_neg hemp]
          rfl
      have hidmB : (remove_from_children (w.setParentSome c pid) P0 c).idm
          = w.idm := by
        rw [hrfc]
        by_cases hemp : l.filter (fun y => y ≠ ci) = []
        · rw [if_pos hemp]
          rfl
        · rw [if_neg hemp]
          rfl
      have hparB : ∀ x,
          (remove_from_children (w.setParentSome c pid) P0 c).parentComp x =
            if x = c then some pid else w.parentComp x := by
        intro x
        rw [hrfc]
        by_cases hemp : l.filter (fun y => y ≠ ci) = []
        · rw [if_pos hemp]
          rw [show ((w.setParentSome c pid).setChildrenNone P0).parentComp x =
            (w.setParentSome c pid).parentComp x from rfl]
          exact parentComp_setParentSome
        · rw [if_neg hemp]
          rw [show ((w.setParentSome c pid).setChildrenSome P0
            (l.filter (fun y => y ≠ ci))).parentComp x =
            (w.setParentSome c pid).parentComp x from rfl]
          exact parentComp_setParentSome
      exact ⟨midinv_step_generic hm2 hcal hci hcS halB hidB hidmB hparB
        hsublB hremB hcnotB hneB, halB, hidB, hidmB, hpcB, hcal⟩

/-- A well-formed world satisfies the intermediate invariant with an empty
processed set. -/
theorem invB_to_midinv {p : Entity} {pid : RollSafeId} {w : World}
    (hI : InvB w) (hpal : p ∈ w.alive) (hppid : w.idComp p = some pid) :
    MidInv p pid [] w := by
  obtain ⟨huniq, htotal, hmapTo, hpc, hcp, hnodup⟩ := hI
  refine ⟨huniq, htotal, hmapTo, ?_, hcp, hnodup, ⟨hpal, hppid⟩, by simp⟩
  intro c hc
  have hd := hpc c hc
  cases hq : w.parentComp c with
  | none => trivial
  | some q =>
    rw [hq] at hd
    exact Or.inl hd

/-- The whole reparenting loop preserves the intermediate invariant,
accumulating the processed batch in front of `S`; it changes neither the
live set, the id components, the `IdManager`, nor `p`'s own children marker,
and every batch member must be live for it to succeed. -/
theorem uops_midinv {p : Entity} {pid : RollSafeId} :
    ∀ (cs : List Entity) (S : List Entity) (w w' : World),
    MidInv p pid S w → (∀ c ∈ cs, c ∉ S) → cs.Nodup →
    update_old_parents w p cs = some w' →
    MidInv p pid (cs.reverse ++ S) w' ∧ (NE w → NE w') ∧ w'.alive = w.alive ∧
    w'.idComp = w.idComp ∧ w'.idm = w.idm ∧
    w'.childrenComp p = w.childrenComp p ∧ ∀ c ∈ cs, c ∈ w.alive := by
  intro cs
  induction cs with
  | nil =>
    intro S w w' hm _ _ h
    unfold update_old_parents at h
    rw [Option.some_inj] at h
    subst h
    exact ⟨hm, fun hne => hne, rfl, rfl, rfl, rfl, by simp⟩
  | cons c rest ih =>
    intro S w w' hm hdisj hnd h
    unfold update_old_parents at h
    cases huop : update_old_parent w c p with
    | none =>
      rw [huop] at h
      exact absurd h (by simp)
    | some w1 =>
      rw [huop] at h
      dsimp only at h
      obtain ⟨⟨hm1, hne1⟩, hal1, hid1, hidm1, hpc1, hcal⟩ :=
        uop_step_midinv hm (hdisj c (by simp)) huop
      have hdisj2 : ∀ x ∈ rest, x ∉ c :: S := by
        intro x hx
        rw [List.mem_cons]
        rintro (hxc | hxS)
        · subst hxc
          exact (List.nodup_cons.mp hnd).1 hx
        · exact hdisj x (by simp [hx]) hxS
      obtain ⟨hm2, hne2, hal2, hid2, hidm2, hpc2, hliv2⟩ :=
        ih (c :: S) w1 w' hm1 hdisj2 (List.nodup_cons.mp hnd).2 h
      refine ⟨?_, fun hne => hne2 (hne1 hne), hal2.trans hal1,
        hid2.trans hid1, hidm2.trans hidm1, hpc2.trans hpc1, ?_⟩
      · have hre : rest.reverse ++ (c :: S) = (c :: rest).reverse ++ S := by
          simp
        rw [← hre]
        exact hm2
      · intro x hx
        rcases List.mem_cons.mp hx with h1 | h2
        · subst h1
          exact hcal
        · have hx2 := hliv2 x h2
          rw [hal1] at hx2
          exact hx2

theorem childrenList_setChildrenSome {w : World} {p x : Entity}
    {L : List RollSafeId} :
    childrenList (w.setChildrenSome p L) x = if x = p then L else childrenList w x := by
  unfold childrenList
  rw [childrenComp_setChildrenSome]
  by_cases hx : x = p
  · rw [if_pos hx, if_pos hx]
    rfl
  · rw [if_neg hx, if_neg hx]

theorem forall2_mem_left {R : Entity → RollSafeId → Prop} :
    ∀ {cs : List Entity} {ids : List RollSafeId},
    List.Forall₂ R cs ids → ∀ c ∈ cs, ∃ i ∈ ids, R c i := by
  intro cs ids h
  induction h with
  | nil =>
    intro c hc
    exact absurd hc (by simp)
  | cons hh _ ih =>
    intro c hc
    rcases List.mem_cons.mp hc with h1 | h2
    · subst h1
      exact ⟨_, by simp, hh⟩
    · obtain ⟨i, hi, hR⟩ := ih c h2
      exact ⟨i, by simp [hi], hR⟩

theorem forall2_mem_right {R : Entity → RollSafeId → Prop} :
    ∀ {cs : List Entity} {ids : List RollSafeId},
    List.Forall₂ R cs ids → ∀ i ∈ ids, ∃ c ∈ cs, R c i := by
  intro cs ids h
  induction h with
  | nil =>
    intro i hi
    exact absurd hi (by simp)
  | cons hh _ ih =>
    intro i hi
    rcases List.mem_cons.mp hi with h1 | h2
    · subst h1
      exact ⟨_, by simp, hh⟩
    · obtain ⟨c, hc, hR⟩ := ih i h2
      exact ⟨c, by simp [hc], hR⟩

/-- Ids collected from pairwise-distinct live entities are pairwise
distinct. -/
theorem forall2_ids_nodup {w : World}
    (huniq : ∀ e1 ∈ w.alive, ∀ e2 ∈ w.alive,
      OptAll (w.idComp e1) fun i => OptAll (w.idComp e2) fun j => i = j → e1 = e2) :
    ∀ (cs : List Entity) (ids : List RollSafeId),
    List.Forall₂ (fun c i => w.idComp c = some i) cs ids →
    (∀ c ∈ cs, c ∈ w.alive) → cs.Nodup → ids.Nodup := by
  intro cs
  induction cs with
  | nil =>
    intro ids h _ _
    cases h
    exact List.nodup_nil
  | cons a rest ih =>
    intro ids h hliv hnd
    cases h with
    | cons hh ht =>
      rw [List.nodup_cons]
      refine ⟨?_, ih _ ht (fun x hx => hliv x (by simp [hx])) (List.nodup_cons.mp hnd).2⟩
      intro hmem
      obtain ⟨c2, hc2, hR⟩ := forall2_mem_right ht _ hmem
      have hu := huniq a (hliv a (by simp)) c2 (hliv c2 (by simp [hc2]))
      rw [hh, hR] at hu
      have hac := hu rfl
      rw [← hac] at hc2
      exact (List.nodup_cons.mp hnd).1 hc2

/-- Writing the final children marker of `p` restores the full invariant:
the new list must be duplicate-free, keep every previously listed id, and
consist only of previously listed ids and ids of processed batch members,
all of which it lists. -/
theorem midinv_finish {p : Entity} {pid : RollSafeId} {S : List Entity}
    {w : World} {L : List RollSafeId}
    (hm : MidInv p pid S w) (hnd : L.Nodup)
    (hsup : ∀ i ∈ childrenList w p, i ∈ L)
    (hmemL : ∀ i ∈ L, i ∈ childrenList w p ∨ ∃ c ∈ S, w.idComp c = some i)
    (hSin : ∀ c ∈ S, OptAll (w.idComp c) fun i => i ∈ L) :
    InvB (w.setChildrenSome p L) ∧
    (NE w → L ≠ [] → NE (w.setChildrenSome p L)) := by
  obtain ⟨huniq, htotal, hmapTo, hpcM, hcp, hnodup, ⟨hpal, hppid⟩, hSf⟩ := hm
  constructor
  · refine ⟨huniq, htotal, hmapTo, ?_, ?_, ?_⟩
    · intro c hc
      cases hq : w.parentComp c with
      | none =>
        have hq2 : (w.setChildrenSome p L).parentComp c = none := hq
        rw [hq2]
        trivial
      | some q =>
        have hq2 : (w.setChildrenSome p L).parentComp c = some q := hq
        rw [hq2]
        have hd := hpcM c hc
        rw [hq] at hd
        show ∃ P ∈ (w.setChildrenSome p L).alive,
          (w.setChildrenSome p L).idComp P = some q ∧
          OptAll ((w.setChildrenSome p L).idComp c) fun ci =>
            ci ∈ childrenList (w.setChildrenSome p L) P
        rcases (show (∃ P ∈ w.alive, w.idComp P = some q ∧
            OptAll (w.idComp c) fun ci => ci ∈ childrenList w P) ∨
            (c ∈ S ∧ q = pid) from hd) with ⟨P, hPal, hPid, hciP⟩ | ⟨hcS, hqpid⟩
        · refine ⟨P, hPal, hPid, ?_⟩
          have hgoal : OptAll (w.idComp c) fun ci =>
              ci ∈ childrenList (w.setChildrenSome p L) P := by
            cases hci : w.idComp c with
            | none => trivial
            | some ci =>
              rw [hci] at hciP
              show ci ∈ childrenList (w.setChildrenSome p L) P
              rw [childrenList_setChildrenSome]
              by_cases hPp : P = p
              · rw [if_pos hPp]
                rw [hPp] at hciP
                exact hsup ci hciP
              · rw [if_neg hPp]
                exact hciP
          exact hgoal
        · refine ⟨p, hpal, by rw [hqpid]; exact hppid, ?_⟩
          have hin := hSin c hcS
          have hgoal : OptAll (w.idComp c) fun ci =>
              ci ∈ childrenList (w.setChildrenSome p L) p := by
            cases hci : w.idComp c with
            | none => trivial
            | some ci =>
              rw [hci] at hin
              show ci ∈ childrenList (w.setChildrenSome p L) p
              rw [childrenList_setChildrenSome, if_pos rfl]
              exact hin
          exact hgoal
    · intro P hP i hi
      rw [show childrenList (w.setChildrenSome p L) P =
        (if P = p then L else childrenList w P) from childrenList_setChildrenSome] at hi
      by_cases hPp : P = p
      · rw [if_pos hPp] at hi
        subst hPp
        rcases hmemL i hi with hiold | ⟨c, hcS, hcid⟩
        · obtain ⟨c, hcal, hcid, hcpar⟩ := hcp P hpal i hiold
          refine ⟨c, hcal, hcid, ?_⟩
          show OptEx (w.idComp P) fun pi => (w.setChildrenSome P L).parentComp c = some pi
          rw [hppid]
          rw [hppid] at hcpar
          exact hcpar
        · obtain ⟨hcal, hcpar⟩ := hSf c hcS
          refine ⟨c, hcal, hcid, ?_⟩
          show OptEx (w.idComp P) fun pi => (w.setChildrenSome P L).parentComp c = some pi
          rw [hppid]
          show (w.setChildrenSome P L).parentComp c = some pid
          exact hcpar
      · rw [if_neg hPp] at hi
        obtain ⟨c, hcal, hcid, hcpar⟩ := hcp P hP i hi
        refine ⟨c, hcal, hcid, ?_⟩
        show OptEx (w.idComp P) fun pi => (w.setChildrenSome p L).parentComp c = some pi
        cases hPi : w.idComp P with
        | none =>
          rw [hPi] at hcpar
          exact hcpar.elim
        | some pi =>
          rw [hPi] at hcpar
          exact hcpar
    · intro P hP
      rw [show childrenList (w.setChildrenSome p L) P =
        (if P = p then L else childrenList w P) from childrenList_setChildrenSome]
      by_cases hPp : P = p
      · rw [if_pos hPp]
        exact hnd
      · rw [if_neg hPp]
        exact hnodup P hP
  · intro hne hL x hx hxe
    rw [show (w.setChildrenSome p L).childrenComp x =
      (if x = p then some L else w.childrenComp x) from childrenComp_setChildrenSome] at hxe
    by_cases hxp : x = p
    · rw [if_pos hxp] at hxe
      rw [Option.some_inj] at hxe
      exact hL hxe
    · rw [if_neg hxp] at hxe
      exact hne x hx hxe

/-- When the parent already carries an id and the child is live, one
reparenting step cannot fail. -/
theorem uop_some {w : World} {p c : Entity} {pid : RollSafeId}
    (hgp : w.getId p = some pid) (hcal : c ∈ w.alive) :
    ∃ w', update_old_parent w c p = some w' := by
  unfold update_old_parent update_parent
  rw [show get_or_assign_new_id w p = some (pid, w) by
    unfold get_or_assign_new_id; rw [hgp]]
  dsimp only
  rw [if_pos hcal]
  cases hq : w.getParent c with
  | none => exact ⟨_, rfl⟩
  | some q =>
    dsimp only
    cases hl : id_to_entity (w.setParentSome c pid) q with
    | none => exact ⟨_, rfl⟩
    | some pe =>
      dsimp only
      by_cases hpe : pe = p
      · rw [if_pos hpe]
        exact ⟨_, rfl⟩
      · rw [if_neg hpe]
        exact ⟨_, rfl⟩

/-- A successful reparenting step keeps the live set, ids and allocator
unchanged whenever the parent already carried an id. -/
theorem uop_frame {w : World} {p c : Entity} {pid : RollSafeId} {w' : World}
    (hgp : w.getId p = some pid) (h : update_old_parent w c p = some w') :
    w'.alive = w.alive ∧ w'.idComp = w.idComp ∧ w'.idm = w.idm := by
  unfold update_old_parent update_parent at h
  rw [show get_or_assign_new_id w p = some (pid, w) by
    unfold get_or_assign_new_id; rw [hgp]] at h
  dsimp only at h
  by_cases hcal : c ∈ w.alive
  swap
  · rw [if_neg hcal] at h
    exact absurd h (by simp)
  rw [if_pos hcal] at h
  cases hq : w.getParent c with
  | none =>
    rw [hq] at h
    dsimp only at h
    rw [Option.some_inj] at h
    subst h
    exact ⟨rfl, rfl, rfl⟩
  | some q =>
    rw [hq] at h
    dsimp only at h
    cases hl : id_to_entity (w.setParentSome c pid) q with
    | none =>
      rw [hl] at h
      dsimp only at h
      rw [Option.some_inj] at h
      subst h
      exact ⟨rfl, rfl, rfl⟩
    | some pe =>
      rw [hl] at h
      dsimp only at h
      by_cases hpe : pe = p
      · rw [if_pos hpe, Option.some_inj] at h
        subst h
        exact ⟨rfl, rfl, rfl⟩
      · rw [if_neg hpe, Option.some_inj] at h
        subst h
        unfold remove_from_children
        cases hgi : (w.setParentSome c pid).getId c with
        | none => exact ⟨rfl, rfl, rfl⟩
        | some ci =>
          dsimp only
          by_cases hpal2 : pe ∈ (w.setParentSome c pid).alive
          · rw [if_pos hpal2]
            cases hgc : (w.setParentSome c pid).getChildren pe with
            | none => exact ⟨rfl, rfl, rfl⟩
            | some l =>
              dsimp only
              by_cases hemp : l.filter (fun x => x ≠ ci) = []
              · rw [if_pos hemp]
                exact ⟨rfl, rfl, rfl⟩
              · rw [if_neg hemp]
                exact ⟨rfl, rfl, rfl⟩
          · rw [if_neg hpal2]
            exact ⟨rfl, rfl, rfl⟩

/-- When the parent carries an id and the whole batch is live, the
reparenting loop cannot fail. -/
theorem uops_some {p : Entity} {pid : RollSafeId} :
    ∀ (cs : List Entity) (w : World), w.getId p = some pid →
    (∀ c ∈ cs, c ∈ w.alive) →
    ∃ w', update_old_parents w p cs = some w' := by
  intro cs
  induction cs with
  | nil =>
    intro w _ _
    exact ⟨w, rfl⟩
  | cons c rest ih =>
    intro w hgp hliv
    obtain ⟨w1, hw1⟩ := uop_some hgp (hliv c (by simp))
    obtain ⟨hal, hid, _⟩ := uop_frame hgp hw1
    have hgp1 : w1.getId p = some pid := by
      unfold World.getId at hgp ⊢
      rw [hal, hid]
      exact hgp
    obtain ⟨w2, hw2⟩ := ih w1 hgp1 (fun x hx => by
      rw [hal]
      exact hliv x (by simp [hx]))
    refine ⟨w2, ?_⟩
    unfold update_old_parents
    rw [hw1]
    dsimp only
    exact hw2

/-- `push_children` under the invariant: on success the parent is live and
identified, the batch is live and keeps its ids, the invariant still holds,
no empty marker appears for a nonempty batch, and the new marker of the
parent is the previous list purged of the batch ids followed by the batch
ids; live set, ids and allocator are unchanged. -/
theorem push_children_invB {p : Entity} {cs : List Entity} {w w' : World}
    (hI : InvB w) (hnd : cs.Nodup)
    (h : push_children p cs w = some w') :
    InvB w' ∧ (NE w → cs ≠ [] → NE w') ∧
    w'.alive = w.alive ∧ w'.idComp = w.idComp ∧ w'.idm = w.idm ∧
    p ∈ w.alive ∧ p ∉ cs ∧ (∀ c ∈ cs, c ∈ w.alive) ∧
    ∃ ids, List.Forall₂ (fun c i => w.idComp c = some i) cs ids ∧
      w'.childrenComp p =
        some ((childrenList w p).filter (fun x => ¬ ids.contains x) ++ ids) := by
  have huniq := hI.1
  have htotal := hI.2.1
  unfold push_children at h
  by_cases hpal : p ∈ w.alive
  swap
  · rw [if_neg hpal] at h
    exact absurd h (by simp)
  rw [if_pos hpal] at h
  by_cases hpcs : p ∈ cs
  · rw [if_pos hpcs] at h
    exact absurd h (by simp)
  rw [if_neg hpcs] at h
  obtain ⟨pid, hppid⟩ := Option.isSome_iff_exists.mp (htotal p hpal)
  cases hup : update_old_parents w p cs with
  | none =>
    rw [hup] at h
    exact absurd h (by simp)
  | some w1 =>
    rw [hup] at h
    dsimp only at h
    obtain ⟨hm1, hne1, hal1, hid1, hidm1, hpc1, hliv⟩ :=
      uops_midinv cs [] w w1 (invB_to_midinv hI hpal hppid) (by simp) hnd hup
    rw [List.append_nil] at hm1
    have htot1 : ∀ c ∈ cs, (w1.getId c).isSome = true := by
      intro c hc
      rw [getId_of_mem (by rw [hal1]; exact hliv c hc), hid1]
      exact htotal c (hliv c hc)
    obtain ⟨ids, hcoll, hf2⟩ := collect_of_ids cs w1 htot1
    rw [hcoll] at h
    dsimp only at h
    have hf2w : List.Forall₂ (fun c i => w.idComp c = some i) cs ids := by
      refine List.Forall₂.imp ?_ hf2
      intro c i hci
      rw [getId_eq_some_iff, hid1] at hci
      exact hci.2
    have hidsnd : ids.Nodup := forall2_ids_nodup huniq cs ids hf2w hliv hnd
    have hmemS : ∀ i ∈ ids, ∃ c ∈ cs.reverse, w1.idComp c = some i := by
      intro i hi
      obtain ⟨c, hc, hci⟩ := forall2_mem_right hf2w i hi
      refine ⟨c, by rw [List.mem_reverse]; exact hc, ?_⟩
      rw [hid1]
      exact hci
    have hSin : ∀ c ∈ cs.reverse, OptAll (w1.idComp c) fun i => i ∈ ids := by
      intro c hc
      rw [List.mem_reverse] at hc
      obtain ⟨i, hi, hci⟩ := forall2_mem_left hf2w c hc
      rw [hid1, hci]
      exact hi
    have hclw1 : childrenList w1 p = childrenList w p := by
      unfold childrenList
      rw [hpc1]
    have hidsne : cs ≠ [] → ids ≠ [] := by
      intro hcs hh
      subst hh
      cases hf2w with
      | nil => exact hcs rfl
    cases hgc : w1.getChildren p with
    | some l =>
      rw [hgc] at h
      dsimp only at h
      rw [Option.some_inj] at h
      subst h
      have hl : w.childrenComp p = some l := by
        rw [← hpc1, ← getChildren_of_mem (by rw [hal1]; exact hpal)]
        exact hgc
      have hclwl : childrenList w p = l := by
        unfold childrenList
        rw [hl]
        rfl
      have hfin := midinv_finish (L := l.filter (fun x => ¬ ids.contains x) ++ ids) hm1
        (by
          rw [List.nodup_append]
          refine ⟨List.Nodup.filter _ (by rw [← hclwl]; exact hI.2.2.2.2.2 p hpal),
            hidsnd, ?_⟩
          intro a ha hb
          have hfa := List.of_mem_filter ha
          simp at hfa
          exact hfa hb)
        (by
          intro i hi
          rw [hclw1, hclwl] at hi
          rw [List.mem_append]
          by_cases hic : i ∈ ids
          · exact Or.inr hic
          · refine Or.inl (List.mem_filter.mpr ⟨hi, ?_⟩)
            simpa using hic)
        (by
          intro i hi
          rcases List.mem_append.mp hi with h1 | h2
          · left
            rw [hclw1, hclwl]
            exact List.mem_of_mem_filter h1
          · right
            exact hmemS i h2)
        (by
          intro c hc
          have hin := hSin c hc
          cases hci : w1.idComp c with
          | none => trivial
          | some i =>
            rw [hci] at hin
            show i ∈ _ ++ ids
            rw [List.mem_append]
            exact Or.inr hin)
      refine ⟨hfin.1, ?_, hal1, hid1, hidm1, hpal, hpcs, hliv, ids, hf2w, ?_⟩
      · intro hne hcs
        exact hfin.2 (hne1 hne) (by
          intro hh
          exact hidsne hcs (List.append_eq_nil.mp hh).2)
      · rw [show (w1.setChildrenSome p (l.filter (fun x => ¬ ids.contains x) ++
            ids)).childrenComp p =
          (if p = p then some (l.filter (fun x => ¬ ids.contains x) ++ ids)
            else w1.childrenComp p) from childrenComp_setChildrenSome,
          if_pos rfl, hclwl]
    | none =>
      rw [hgc] at h
      dsimp only at h
      rw [Option.some_inj] at h
      subst h
      have hl : w.childrenComp p = none := by
        rw [← hpc1, ← getChildren_of_mem (by rw [hal1]; exact hpal)]
        exact hgc
      have hclwn : childrenList w p = [] := by
        unfold childrenList
        rw [hl]
        rfl
      have hfin := midinv_finish (L := ids) hm1 hidsnd
        (by
          intro i hi
          rw [hclw1, hclwn] at hi
          exact absurd hi (by simp))
        (by
          intro i hi
          exact Or.inr (hmemS i hi))
        (by
          intro c hc
          have hin := hSin c hc
          cases hci : w1.idComp c with
          | none => trivial
          | some i =>
            rw [hci] at hin
            exact hin)
      refine ⟨hfin.1, ?_, hal1, hid1, hidm1, hpal, hpcs, hliv, ids, hf2w, ?_⟩
      · intro hne hcs
        exact hfin.2 (hne1 hne) (hidsne hcs)
      · rw [show (w1.setChildrenSome p ids).childrenComp p =
          (if p = p then some ids else w1.childrenComp p) from
            childrenComp_setChildrenSome, if_pos rfl, hclwn]
        rfl

/-- `insert_children` under the invariant: like `push_children`, except the
batch ids are spliced at `index` into the purged previous list, and the
index must not exceed the purged list's length when a marker was present. -/
theorem insert_children_invB {p : Entity} {idx : Nat} {cs : List Entity}
    {w w' : World}
    (hI : InvB w) (hnd : cs.Nodup)
    (h : insert_children p idx cs w = some w') :
    InvB w' ∧ (NE w → cs ≠ [] → NE w') ∧
    w'.alive = w.alive ∧ w'.idComp = w.idComp ∧ w'.idm = w.idm ∧
    p ∈ w.alive ∧ p ∉ cs ∧ (∀ c ∈ cs, c ∈ w.alive) ∧
    ∃ ids, List.Forall₂ (fun c i => w.idComp c = some i) cs ids ∧
      w'.childrenComp p =
        some (((childrenList w p).filter (fun x => ¬ ids.contains x)).take idx ++
          ids ++
          ((childrenList w p).filter (fun x => ¬ ids.contains x)).drop idx) := by
  have huniq := hI.1
  have htotal := hI.2.1
  unfold insert_children at h
  by_cases hpal : p ∈ w.alive
  swap
  · rw [if_neg hpal] at h
    exact absurd h (by simp)
  rw [if_pos hpal] at h
  by_cases hpcs : p ∈ cs
  · rw [if_pos hpcs] at h
    exact absurd h (by simp)
  rw [if_neg hpcs] at h
  obtain ⟨pid, hppid⟩ := Option.isSome_iff_exists.mp (htotal p hpal)
  cases hup : update_old_parents w p cs with
  | none =>
    rw [hup] at h
    exact absurd h (by simp)
  | some w1 =>
    rw [hup] at h
    dsimp only at h
    obtain ⟨hm1, hne1, hal1, hid1, hidm1, hpc1, hliv⟩ :=
      uops_midinv cs [] w w1 (invB_to_midinv hI hpal hppid) (by simp) hnd hup
    rw [List.append_nil] at hm1
    have htot1 : ∀ c ∈ cs, (w1.getId c).isSome = true := by
      intro c hc
      rw [getId_of_mem (by rw [hal1]; exact hliv c hc), hid1]
      exact htotal c (hliv c hc)
    obtain ⟨ids, hcoll, hf2⟩ := collect_of_ids cs w1 htot1
    rw [hcoll] at h
    dsimp only at h
    have hf2w : List.Forall₂ (fun c i => w.idComp c = some i) cs ids := by
      refine List.Forall₂.imp ?_ hf2
      intro c i hci
      rw [getId_eq_some_iff, hid1] at hci
      exact hci.2
    have hidsnd : ids.Nodup := forall2_ids_nodup huniq cs ids hf2w hliv hnd
    have hmemS : ∀ i ∈ ids, ∃ c ∈ cs.reverse, w1.idComp c = some i := by
      intro i hi
      obtain ⟨c, hc, hci⟩ := forall2_mem_right hf2w i hi
      refine ⟨c, by rw [List.mem_reverse]; exact hc, ?_⟩
      rw [hid1]
      exact hci
    have hSin : ∀ c ∈ cs.reverse, OptAll (w1.idComp c) fun i => i ∈ ids := by
      intro c hc
      rw [List.mem_reverse] at hc
      obtain ⟨i, hi, hci⟩ := forall2_mem_left hf2w c hc
      rw [hid1, hci]
      exact hi
    have hclw1 : childrenList w1 p = childrenList w p := by
      unfold childrenList
      rw [hpc1]
    have hidsne : cs ≠ [] → ids ≠ [] := by
      intro hcs hh
      subst hh
      cases hf2w with
      | nil => exact hcs rfl
    cases hgc : w1.getChildren p with
    | some l =>
      rw [hgc] at h
      dsimp only at h
      by_cases hix : idx ≤ (l.filter (fun x => ¬ ids.contains x)).length
      swap
      · rw [if_neg hix] at h
        exact absurd h (by simp)
      rw [if_pos hix, Option.some_inj] at h
      subst h
      have hl : w.childrenComp p = some l := by
        rw [← hpc1, ← getChildren_of_mem (by rw [hal1]; exact hpal)]
        exact hgc
      have hclwl : childrenList w p = l := by
        unfold childrenList
        rw [hl]
        rfl
      have hperm : ((l.filter (fun x => ¬ ids.contains x)).take idx ++ ids ++
          (l.filter (fun x => ¬ ids.contains x)).drop idx).Perm
          (l.filter (fun x => ¬ ids.contains x) ++ ids) := by
        rw [show l.filter (fun x => ¬ ids.contains x) ++ ids =
          ((l.filter (fun x => ¬ ids.contains x)).take idx ++
            (l.filter (fun x => ¬ ids.contains x)).drop idx) ++ ids from by
          rw [List.take_append_drop]]
        rw [List.append_assoc, List.append_assoc]
        exact List.Perm.append_left _ List.perm_append_comm
      have hndfi : (l.filter (fun x => ¬ ids.contains x) ++ ids).Nodup := by
        rw [List.nodup_append]
        refine ⟨List.Nodup.filter _ (by rw [← hclwl]; exact hI.2.2.2.2.2 p hpal),
          hidsnd, ?_⟩
        intro a ha hb
        have hfa := List.of_mem_filter ha
        simp at hfa
        exact hfa hb
      have hfin := midinv_finish
        (L := (l.filter (fun x => ¬ ids.contains x)).take idx ++ ids ++
          (l.filter (fun x => ¬ ids.contains x)).drop idx) hm1
        (hperm.nodup_iff.mpr hndfi)
        (by
          intro i hi
          rw [hclw1, hclwl] at hi
          rw [hperm.mem_iff, List.mem_append]
          by_cases hic : i ∈ ids
          · exact Or.inr hic
          · refine Or.inl (List.mem_filter.mpr ⟨hi, ?_⟩)
            simpa using hic)
        (by
          intro i hi
          rw [hperm.mem_iff] at hi
          rcases List.mem_append.mp hi with h1 | h2
          · left
            rw [hclw1, hclwl]
            exact List.mem_of_mem_filter h1
          · right
            exact hmemS i h2)
        (by
          intro c hc
          have hin := hSin c hc
          cases hci : w1.idComp c with
          | none => trivial
          | some i =>
            rw [hci] at hin
            show i ∈ _
            rw [hperm.mem_iff, List.mem_append]
            exact Or.inr hin)
      refine ⟨hfin.1, ?_, hal1, hid1, hidm1, hpal, hpcs, hliv, ids, hf2w, ?_⟩
      · intro hne hcs
        refine hfin.2 (hne1 hne) ?_
        intro hh
        have h1 := (List.append_eq_nil.mp hh).1
        exact hidsne hcs (List.append_eq_nil.mp h1).2
      · rw [show (w1.setChildrenSome p
            ((l.filter (fun x => ¬ ids.contains x)).take idx ++ ids ++
              (l.filter (fun x => ¬ ids.contains x)).drop idx)).childrenComp p =
          (if p = p then some ((l.filter (fun x => ¬ ids.contains x)).take idx ++
            ids ++ (l.filter (fun x => ¬ ids.contains x)).drop idx)
            else w1.childrenComp p) from childrenComp_setChildrenSome,
          if_pos rfl, hclwl]
    | none =>
      rw [hgc] at h
      dsimp only at h
      rw [Option.some_inj] at h
      subst h
      have hl : w.childrenComp p = none := by
        rw [← hpc1, ← getChildren_of_mem (by rw [hal1]; exact hpal)]
        exact hgc
      have hclwn : childrenList w p = [] := by
        unfold childrenList
        rw [hl]
        rfl
      have hfin := midinv_finish (L := ids) hm1 hidsnd
        (by
          intro i hi
          rw [hclw1, hclwn] at hi
          exact absurd hi (by simp))
        (by
          intro i hi
          exact Or.inr (hmemS i hi))
        (by
          intro c hc
          have hin := hSin c hc
          cases hci : w1.idComp c with
          | none => trivial
          | some i =>
            rw [hci] at hin
            exact hin)
      refine ⟨hfin.1, ?_, hal1, hid1, hidm1, hpal, hpcs, hliv, ids, hf2w, ?_⟩
      · intro hne hcs
        exact hfin.2 (hne1 hne) (hidsne hcs)
      · rw [show (w1.setChildrenSome p ids).childrenComp p =
          (if p = p then some ids else w1.childrenComp p) from
            childrenComp_setChildrenSome, if_pos rfl, hclwn]
        simp

/-- `add_child` under the invariant: on success the invariant and the
no-empty-marker property are preserved and the live set, ids and allocator
are unchanged. -/
theorem add_child_invB {p c : Entity} {w w' : World}
    (hI : InvB w) (h : add_child p c w = some w') :
    InvB w' ∧ (NE w → NE w') ∧
    w'.alive = w.alive ∧ w'.idComp = w.idComp ∧ w'.idm = w.idm := by
  have htotal := hI.2.1
  unfold add_child at h
  by_cases hpal : p ∈ w.alive
  swap
  · rw [if_neg hpal] at h
    exact absurd h (by simp)
  rw [if_pos hpal] at h
  by_cases hcp2 : c = p
  · rw [if_pos hcp2] at h
    exact absurd h (by simp)
  rw [if_neg hcp2] at h
  obtain ⟨pid, hppid⟩ := Option.isSome_iff_exists.mp (htotal p hpal)
  cases h1 : update_old_parent w c p with
  | none =>
    rw [h1] at h
    exact absurd h (by simp)
  | some w1 =>
    rw [h1] at h
    dsimp only at h
    obtain ⟨⟨hm1, hne1⟩, hal1, hid1, hidm1, hpc1, hcal⟩ :=
      uop_step_midinv (invB_to_midinv hI hpal hppid) (by simp) h1
    obtain ⟨c1, hc1⟩ := Option.isSome_iff_exists.mp (htotal c hcal)
    have hg : get_or_assign_new_id w1 c = some (c1, w1) := by
      unfold get_or_assign_new_id
      rw [getId_of_mem (by rw [hal1]; exact hcal), hid1, hc1]
    rw [hg] at h
    dsimp only at h
    have hclw1 : childrenList w1 p = childrenList w p := by
      unfold childrenList
      rw [hpc1]
    have hc1w1 : w1.idComp c = some c1 := by
      rw [hid1]
      exact hc1
    cases hgc : w1.getChildren p with
    | some l =>
      rw [hgc] at h
      dsimp only at h
      rw [Option.some_inj] at h
      subst h
      have hl : w.childrenComp p = some l := by
        rw [← hpc1, ← getChildren_of_mem (by rw [hal1]; exact hpal)]
        exact hgc
      have hclwl : childrenList w p = l := by
        unfold childrenList
        rw [hl]
        rfl
      have hfin := midinv_finish (L := l.filter (fun x => x ≠ c1) ++ [c1]) hm1
        (by
          rw [List.nodup_append]
          refine ⟨List.Nodup.filter _ (by rw [← hclwl]; exact hI.2.2.2.2.2 p hpal),
            List.nodup_singleton c1, ?_⟩
          intro a ha hb
          have hfa := List.of_mem_filter ha
          rw [List.mem_singleton] at hb
          simp at hfa
          exact hfa hb)
        (by
          intro i hi
          rw [hclw1, hclwl] at hi
          rw [List.mem_append]
          by_cases hic : i = c1
          · right
            rw [hic]
            exact List.mem_singleton.mpr rfl
          · refine Or.inl (List.mem_filter.mpr ⟨hi, ?_⟩)
            simpa using hic)
        (by
          intro i hi
          rcases List.mem_append.mp hi with h1 | h2
          · left
            rw [hclw1, hclwl]
            exact List.mem_of_mem_filter h1
          · right
            rw [List.mem_singleton] at h2
            subst h2
            exact ⟨c, by simp, hc1w1⟩)
        (by
          intro x hx
          rw [List.mem_singleton] at hx
          subst hx
          rw [hc1w1]
          show c1 ∈ _ ++ [c1]
          rw [List.mem_append]
          exact Or.inr (List.mem_singleton.mpr rfl))
      refine ⟨hfin.1, ?_, hal1, hid1, hidm1⟩
      intro hne
      refine hfin.2 (hne1 hne) ?_
      intro hh
      have h2 := (List.append_eq_nil.mp hh).2
      exact absurd h2 (by simp)
    | none =>
      rw [hgc] at h
      dsimp only at h
      rw [Option.some_inj] at h
      subst h
      have hl : w.childrenComp p = none := by
        rw [← hpc1, ← getChildren_of_mem (by rw [hal1]; exact hpal)]
        exact hgc
      have hclwn : childrenList w p = [] := by
        unfold childrenList
        rw [hl]
        rfl
      have hfin := midinv_finish (L := [c1]) hm1 (List.nodup_singleton c1)
        (by
          intro i hi
          rw [hclw1, hclwn] at hi
          exact absurd hi (by simp))
        (by
          intro i hi
          rw [List.mem_singleton] at hi
          subst hi
          exact Or.inr ⟨c, by simp, hc1w1⟩)
        (by
          intro x hx
          rw [List.mem_singleton] at hx
          subst hx
          rw [hc1w1]
          exact List.mem_singleton.mpr rfl)
      refine ⟨hfin.1, ?_, hal1, hid1, hidm1⟩
      intro hne
      exact hfin.2 (hne1 hne) (by simp)

/-- Invariant preservation for the detaching operations: they only clear
parent markers and drop ids from children lists, never touching the live
set, the ids or the allocator; a surviving parent pointer must keep its
listing, and a surviving listing must keep its owner's pointer. -/
theorem detach_invB {w w' : World}
    (hI : InvB w)
    (halive : w'.alive = w.alive) (hid : w'.idComp = w.idComp)
    (hidm : w'.idm = w.idm)
    (hpar : ∀ x, w'.parentComp x = w.parentComp x ∨ w'.parentComp x = none)
    (hsubl : ∀ x, List.Sublist (childrenList w' x) (childrenList w x))
    (hkeep : ∀ cx ∈ w.alive, ∀ q, w'.parentComp cx = some q →
      ∀ i, w.idComp cx = some i → ∀ P ∈ w.alive,
        i ∈ childrenList w P → i ∈ childrenList w' P)
    (hown : ∀ P ∈ w.alive, ∀ i ∈ childrenList w' P, ∀ cx ∈ w.alive,
      w.idComp cx = some i → w'.parentComp cx = w.parentComp cx) :
    InvB w' := by
  obtain ⟨huniq, htotal, hmapTo, hpc, hcp, hnodup⟩ := hI
  refine ⟨?_, ?_, ?_, ?_, ?_, ?_⟩
  · intro e1 he1 e2 he2
    rw [hid]
    exact huniq e1 (halive ▸ he1) e2 (halive ▸ he2)
  · intro e he
    rw [hid]
    exact htotal e (halive ▸ he)
  · intro e he
    rw [hid]
    have hm := hmapTo e (halive ▸ he)
    cases hi : w.idComp e with
    | none => trivial
    | some i =>
      rw [hi] at hm
      show id_to_entity w' i = some e
      rw [id_to_entity_congr hidm]
      exact hm
  · intro c hc
    have hcal : c ∈ w.alive := halive ▸ hc
    cases hq : w'.parentComp c with
    | none => trivial
    | some q =>
      have hq2 : w.parentComp c = some q := by
        rcases hpar c with h1 | h1
        · rw [← h1]
          exact hq
        · rw [h1] at hq
          exact absurd hq (by simp)
      have hd := hpc c hcal
      rw [hq2] at hd
      obtain ⟨P, hPal, hPid, hciP⟩ := hd
      refine ⟨P, halive ▸ hPal, by rw [hid]; exact hPid, ?_⟩
      rw [hid]
      cases hci : w.idComp c with
      | none => trivial
      | some ci =>
        rw [hci] at hciP
        show ci ∈ childrenList w' P
        exact hkeep c hcal q hq ci hci P hPal hciP
  · intro P hP i hi
    have hPal : P ∈ w.alive := halive ▸ hP
    have hiw : i ∈ childrenList w P := (hsubl P).mem hi
    obtain ⟨cx, hcxal, hcxid, hcxpar⟩ := hcp P hPal i hiw
    refine ⟨cx, halive ▸ hcxal, by rw [hid]; exact hcxid, ?_⟩
    rw [hid]
    cases hPi : w.idComp P with
    | none =>
      rw [hPi] at hcxpar
      exact hcxpar.elim
    | some pi =>
      rw [hPi] at hcxpar
      show w'.parentComp cx = some pi
      rw [hown P hPal i hi cx hcxal hcxid]
      exact hcxpar
  · intro P hP
    exact List.Sublist.nodup (hsubl P) (hnodup P (halive ▸ hP))

/-- `remove_parent` under the invariant. -/
theorem remove_parent_invB {c : Entity} {w w' : World}
    (hI : InvB w) (h : remove_parent c w = some w') :
    InvB w' ∧ (NE w → NE w') ∧
    w'.alive = w.alive ∧ w'.idComp = w.idComp ∧ w'.idm = w.idm := by
  have huniq := hI.1
  have htotal := hI.2.1
  have hmapTo := hI.2.2.1
  have hpc := hI.2.2.2.1
  unfold remove_parent at h
  by_cases hcal : c ∈ w.alive
  swap
  · rw [if_neg hcal] at h
    exact absurd h (by simp)
  rw [if_pos hcal] at h
  cases hq : w.getParent c with
  | none =>
    rw [hq] at h
    dsimp only at h
    rw [Option.some_inj] at h
    subst h
    exact ⟨⟨huniq, htotal, hmapTo, hpc, hI.2.2.2.2.1, hI.2.2.2.2.2⟩,
      fun hne => hne, rfl, rfl, rfl⟩
  | some q =>
    rw [hq] at h
    dsimp only at h
    rw [getParent_of_mem hcal] at hq
    have hd := hpc c hcal
    rw [hq] at hd
    obtain ⟨P, hPal, hPid, hciP⟩ := hd
    obtain ⟨ci, hci⟩ := Option.isSome_iff_exists.mp (htotal c hcal)
    rw [hci] at hciP
    have hres : id_to_entity (w.setParentNone c) q = some P := by
      rw [id_to_entity_setParentNone]
      have hm := hmapTo P hPal
      rw [hPid] at hm
      exact hm
    rw [hres] at h
    dsimp only at h
    rw [Option.some_inj] at h
    subst h
    obtain ⟨l, hl, hcil⟩ := childrenList_mem_some hciP
    have hrfc : remove_from_children (w.setParentNone c) P c =
        (if l.filter (fun x => x ≠ ci) = [] then
          (w.setParentNone c).setChildrenNone P
         else (w.setParentNone c).setChildrenSome P (l.filter (fun x => x ≠ ci))) := by
      unfold remove_from_children
      rw [show (w.setParentNone c).getId c = w.getId c from rfl,
        getId_of_mem hcal, hci]
      dsimp only
      rw [if_pos (show P ∈ (w.setParentNone c).alive from hPal)]
      rw [show (w.setParentNone c).getChildren P = w.getChildren P from rfl,
        getChildren_of_mem hPal, hl]
    have hchl : ∀ x, (remove_from_children (w.setParentNone c) P c).childrenComp x =
        if x = P then
          (if l.filter (fun y => y ≠ ci) = [] then none
           else some (l.filter (fun y => y ≠ ci)))
        else w.childrenComp x := by
      intro x
      rw [hrfc]
      by_cases hemp : l.filter (fun y => y ≠ ci) = []
      · rw [if_pos hemp, childrenComp_setChildrenNone]
        by_cases hx : x = P
        · rw [if_pos hx, if_pos hx, if_pos hemp]
        · rw [if_neg hx, if_neg hx]
          rfl
      · rw [if_neg hemp, childrenComp_setChildrenSome]
        by_cases hx : x = P
        · rw [if_pos hx, if_pos hx, if_neg hemp]
        · rw [if_neg hx, if_neg hx]
          rfl
    have hcll : ∀ x, childrenList (remove_from_children (w.setParentNone c) P c) x =
        if x = P then l.filter (fun y => y ≠ ci) else childrenList w x := by
      intro x
      unfold childrenList
      rw [hchl]
      by_cases hx : x = P
      · rw [if_pos hx, if_pos hx]
        by_cases hemp : l.filter (fun y => y ≠ ci) = []
        · rw [if_pos hemp, hemp]
          rfl
        · rw [if_neg hemp]
          rfl
      · rw [if_neg hx, if_neg hx]
    have hparx : ∀ x, (remove_from_children (w.setParentNone c) P c).parentComp x =
        if x = c then none else w.parentComp x := by
      intro x
      rw [hrfc]
      by_cases hemp : l.filter (fun y => y ≠ ci) = []
      · rw [if_pos hemp]
        exact parentComp_setParentNone
      · rw [if_neg hemp]
        exact parentComp_setParentNone
    have halx : (remove_from_children (w.setParentNone c) P c).alive = w.alive := by
      rw [hrfc]
      by_cases hemp : l.filter (fun y => y ≠ ci) = []
      · rw [if_pos hemp]
        rfl
      · rw [if_neg hemp]
        rfl
    have hidx : (remove_from_children (w.setParentNone c) P c).idComp = w.idComp := by
      rw [hrfc]
      by_cases hemp : l.filter (fun y => y ≠ ci) = []
      · rw [if_pos hemp]
        rfl
      · rw [if_neg hemp]
        rfl
    have hidmx : (remove_from_children (w.setParentNone c) P c).idm = w.idm := by
      rw [hrfc]
      by_cases hemp : l.filter (fun y => y ≠ ci) = []
      · rw [if_pos hemp]
        rfl
      · rw [if_neg hemp]
        rfl
    have hclwl : childrenList w P = l := by
      unfold childrenList
      rw [hl]
      rfl
    refine ⟨detach_invB ⟨huniq, htotal, hmapTo, hpc, hI.2.2.2.2.1, hI.2.2.2.2.2⟩
      halx hidx hidmx ?_ ?_ ?_ ?_, ?_, halx, hidx, hidmx⟩
    · intro x
      rw [hparx]
      by_cases hx : x = c
      · rw [if_pos hx]
        exact Or.inr rfl
      · rw [if_neg hx]
        exact Or.inl rfl
    · intro x
      rw [hcll]
      by_cases hx : x = P
      · rw [if_pos hx, hx, hclwl]
        exact List.filter_sublist _
      · rw [if_neg hx]
    · intro cx hcxal q2 hq2 i hi P2 hP2al hiP2
      rw [hparx] at hq2
      by_cases hxc : cx = c
      · rw [if_pos hxc] at hq2
        exact absurd hq2 (by simp)
      · rw [if_neg hxc] at hq2
        rw [hcll]
        by_cases hP2P : P2 = P
        · rw [if_pos hP2P]
          rw [hP2P, hclwl] at hiP2
          refine List.mem_filter.mpr ⟨hiP2, ?_⟩
          have hine : i ≠ ci := by
            intro hh
            subst hh
            have hu := huniq cx hcxal c hcal
            rw [hi, hci] at hu
            exact hxc (hu rfl)
          simpa using hine
        · rw [if_neg hP2P]
          exact hiP2
    · intro P2 hP2al i hi cx hcxal hcxid
      rw [hparx]
      by_cases hxc : cx = c
      swap
      · rw [if_neg hxc]
      · exfalso
        subst hxc
        rw [hci] at hcxid
        rw [Option.some_inj] at hcxid
        subst hcxid
        rw [hcll] at hi
        by_cases hP2P : P2 = P
        · rw [if_pos hP2P] at hi
          have := List.of_mem_filter hi
          simp at this
        · rw [if_neg hP2P] at hi
          obtain ⟨cy, hcyal, hcyid, hcypar⟩ := hI.2.2.2.2.1 P2 hP2al ci hi
          have hu := huniq cy hcyal cx hcxal
          rw [hcyid, hci] at hu
          have hcyc := hu rfl
          subst hcyc
          cases hP2i : w.idComp P2 with
          | none =>
            rw [hP2i] at hcypar
            exact hcypar.elim
          | some p2i =>
            rw [hP2i] at hcypar
            have hcypar2 : w.parentComp cy = some p2i := hcypar
            rw [hq] at hcypar2
            rw [Option.some_inj] at hcypar2
            rw [← hcypar2] at hP2i
            have hu2 := huniq P2 hP2al P hPal
            rw [hP2i, hPid] at hu2
            exact hP2P (hu2 rfl)
    · intro hne x hx hxe
      rw [halx] at hx
      rw [hchl] at hxe
      by_cases hxP : x = P
      · rw [if_pos hxP] at hxe
        by_cases hemp : l.filter (fun y => y ≠ ci) = []
        · rw [if_pos hemp] at hxe
          exact absurd hxe (by simp)
        · rw [if_neg hemp] at hxe
          rw [Option.some_inj] at hxe
          exact hemp hxe
      · rw [if_neg hxP] at hxe
        exact hne x hx hxe

/-- Folding `setParentNone` over a batch clears exactly the batch members'
parent markers and changes nothing else. -/
theorem foldPSN_spec :
    ∀ (cs : List Entity) (w : World),
    (cs.foldl (fun wacc c => wacc.setParentNone c) w).alive = w.alive ∧
    (cs.foldl (fun wacc c => wacc.setParentNone c) w).idComp = w.idComp ∧
    (cs.foldl (fun wacc c => wacc.setParentNone c) w).idm = w.idm ∧
    (cs.foldl (fun wacc c => wacc.setParentNone c) w).childrenComp = w.childrenComp ∧
    ∀ x, (cs.foldl (fun wacc c => wacc.setParentNone c) w).parentComp x =
      if x ∈ cs then none else w.parentComp x := by
  intro cs
  induction cs with
  | nil =>
    intro w
    refine ⟨rfl, rfl, rfl, rfl, ?_⟩
    intro x
    rw [if_neg (by simp)]
    rfl
  | cons c rest ih =>
    intro w
    obtain ⟨hal, hid, hidm, hch, hpar⟩ := ih (w.setParentNone c)
    refine ⟨hal, hid, hidm, hch, ?_⟩
    intro x
    rw [List.foldl_cons, hpar x]
    by_cases hx : x ∈ rest
    · rw [if_pos hx, if_pos (by simp [hx])]
    · rw [if_neg hx, parentComp_setParentNone]
      by_cases hxc : x = c
      · rw [if_pos hxc, if_pos (by simp [hxc])]
      · rw [if_neg hxc, if_neg (by
          rw [List.mem_cons]
          rintro (h1 | h2)
          · exact hxc h1
          · exact hx h2)]

/-- `remove_children` under the invariant, assuming every batch member is
parentless or a current child of the target parent. -/
theorem remove_children_invB {p : Entity} {cs : List Entity} {w w' : World}
    (hI : InvB w)
    (hok : ∀ c ∈ cs, OptAll (w.getParent c) fun q => w.getId p = some q)
    (h : remove_children_fn p cs w = some w') :
    InvB w' ∧ (NE w → NE w') ∧
    w'.alive = w.alive ∧ w'.idComp = w.idComp ∧ w'.idm = w.idm := by
  have huniq := hI.1
  unfold remove_children_fn at h
  cases hgc : w.getChildren p with
  | none =>
    rw [hgc] at h
    dsimp only at h
    rw [Option.some_inj] at h
    subst h
    exact ⟨hI, fun hne => hne, rfl, rfl, rfl⟩
  | some pcs =>
    rw [hgc] at h
    dsimp only at h
    have hpal : p ∈ w.alive := by
      by_cases hp : p ∈ w.alive
      · exact hp
      · unfold World.getChildren at hgc
        rw [if_neg hp] at hgc
        exact absurd hgc (by simp)
    have hpc2 : w.childrenComp p = some pcs := by
      rw [← getChildren_of_mem hpal]
      exact hgc
    by_cases hliv : cs.all (fun c => c ∈ w.alive)
    swap
    · rw [if_neg hliv] at h
      exact absurd h (by simp)
    rw [if_pos hliv] at h
    have hlivp : ∀ c ∈ cs, c ∈ w.alive := by
      intro c hc
      have := List.all_eq_true.mp hliv c hc
      simpa using this
    obtain ⟨hal1, hid1, hidm1, hch1, hpar1⟩ :=
      foldPSN_spec cs w
    set w1 := cs.foldl (fun wacc c => wacc.setParentNone c) w with hw1
    have hmem2 : ∀ i, i ∈ cs.filterMap (fun child =>
        match w.getId child with
        | none => none
        | some cid => if cid ∈ pcs then some cid else none) ↔
        ∃ b ∈ cs, w.getId b = some i ∧ i ∈ pcs := by
      intro i
      rw [List.mem_filterMap]
      constructor
      · rintro ⟨b, hb, hfb⟩
        cases hgi : w.getId b with
        | none =>
          rw [hgi] at hfb
          exact absurd hfb (by simp)
        | some cid =>
          rw [hgi] at hfb
          dsimp only at hfb
          by_cases hcid : cid ∈ pcs
          · rw [if_pos hcid, Option.some_inj] at hfb
            subst hfb
            exact ⟨b, hb, hgi, hcid⟩
          · rw [if_neg hcid] at hfb
            exact absurd hfb (by simp)
      · rintro ⟨b, hb, hgi, hipcs⟩
        refine ⟨b, hb, ?_⟩
        rw [hgi]
        dsimp only
        rw [if_pos hipcs]
    cases hgc1 : w1.getChildren p with
    | none =>
      exfalso
      unfold World.getChildren at hgc1
      rw [hal1, if_pos hpal, hch1, hpc2] at hgc1
      exact absurd hgc1 (by simp)
    | some l =>
      rw [hgc1] at h
      dsimp only at h
      have hlpcs : pcs = l := by
        unfold World.getChildren at hgc1
        rw [hal1, if_pos hpal, hch1, hpc2, Option.some_inj] at hgc1
        exact hgc1
      subst hlpcs
      have hdet : ∀ w2 : World,
          w2.alive = w1.alive → w2.idComp = w1.idComp → w2.idm = w1.idm →
          w2.parentComp = w1.parentComp →
          (∀ x, childrenList w2 x =
            if x = p then pcs.filter (fun y =>
              ¬ (cs.filterMap (fun child =>
                match w.getId child with
                | none => none
                | some cid => if cid ∈ pcs then some cid else none)).contains y)
            else childrenList w x) →
          (∀ x ∈ w.alive, w2.childrenComp x = some [] → w.childrenComp x = some []) →
          InvB w2 ∧ (NE w → NE w2) ∧
          w2.alive = w.alive ∧ w2.idComp = w.idComp ∧ w2.idm = w.idm := by
        intro w2 hal2 hid2 hidm2 hpar2 hcll2 hne2
        have hal3 : w2.alive = w.alive := by rw [hal2, hal1]
        have hid3 : w2.idComp = w.idComp := by rw [hid2, hid1]
        have hidm3 : w2.idm = w.idm := by rw [hidm2, hidm1]
        refine ⟨detach_invB hI hal3 hid3 hidm3 ?_ ?_ ?_ ?_, ?_, hal3, hid3, hidm3⟩
        · intro x
          rw [hpar2, hpar1 x]
          by_cases hx : x ∈ cs
          · rw [if_pos hx]
            exact Or.inr rfl
          · rw [if_neg hx]
            exact Or.inl rfl
        · intro x
          rw [hcll2]
          by_cases hx : x = p
          · rw [if_pos hx, hx]
            rw [show childrenList w p = pcs from by
              unfold childrenList; rw [hpc2]; rfl]
            exact List.filter_sublist _
          · rw [if_neg hx]
        · intro cx hcxal q2 hq2 i hi P2 hP2al hiP2
          rw [hpar2, hpar1 cx] at hq2
          by_cases hxc : cx ∈ cs
          · rw [if_pos hxc] at hq2
            exact absurd hq2 (by simp)
          · rw [if_neg hxc] at hq2
            rw [hcll2]
            by_cases hP2P : P2 = p
            · rw [if_pos hP2P]
              rw [hP2P] at hiP2
              rw [show childrenList w p = pcs from by
                unfold childrenList; rw [hpc2]; rfl] at hiP2
              refine List.mem_filter.mpr ⟨hiP2, ?_⟩
              have hnotin : ¬ i ∈ cs.filterMap (fun child =>
                  match w.getId child with
                  | none => none
                  | some cid => if cid ∈ pcs then some cid else none) := by
                rw [hmem2]
                rintro ⟨b, hb, hgi, _⟩
                rw [getId_eq_some_iff] at hgi
                have hu := huniq b hgi.1 cx hcxal
                rw [hgi.2, hi] at hu
                have hbc := hu rfl
                subst hbc
                exact hxc hb
              simpa using hnotin
            · rw [if_neg hP2P]
              exact hiP2
        · intro P2 hP2al i hi cx hcxal hcxid
          rw [hpar2, hpar1 cx]
          by_cases hxc : cx ∈ cs
          swap
          · rw [if_neg hxc]
          · exfalso
            rw [hcll2] at hi
            by_cases hP2P : P2 = p
            · rw [if_pos hP2P] at hi
              have hfi := List.of_mem_filter hi
              have hil : i ∈ pcs := List.mem_of_mem_filter hi
              simp only [decide_eq_true_eq] at hfi
              refine hfi ?_
              simp only [List.elem_iff]
              rw [hmem2]
              refine ⟨cx, hxc, ?_, hil⟩
              rw [getId_eq_some_iff]
              exact ⟨hcxal, hcxid⟩
            · rw [if_neg hP2P] at hi
              obtain ⟨cy, hcyal, hcyid, hcypar⟩ := hI.2.2.2.2.1 P2 hP2al i hi
              have hu := huniq cy hcyal cx hcxal
              rw [hcyid, hcxid] at hu
              have hcyc := hu rfl
              subst hcyc
              cases hP2i : w.idComp P2 with
              | none =>
                rw [hP2i] at hcypar
                exact hcypar.elim
              | some p2i =>
                rw [hP2i] at hcypar
                have hcypar2 : w.parentComp cy = some p2i := hcypar
                have hokc := hok cy hxc
                rw [getParent_of_mem hcyal, hcypar2] at hokc
                have hgp : w.getId p = some p2i := hokc
                rw [getId_eq_some_iff] at hgp
                have hu2 := huniq P2 hP2al p hpal
                rw [hP2i, hgp.2] at hu2
                exact hP2P (hu2 rfl)
        · intro hne x hx hxe
          rw [hal3] at hx
          exact hne x hx (hne2 x hx hxe)
      by_cases hemp : pcs.filter (fun x =>
          ¬ (cs.filterMap (fun child =>
            match w.getId child with
            | none => none
            | some cid => if cid ∈ pcs then some cid else none)).contains x) = []
      · rw [if_pos hemp, Option.some_inj] at h
        subst h
        refine hdet _ rfl rfl rfl rfl ?_ ?_
        · intro x
          unfold childrenList
          rw [childrenComp_setChildrenNone]
          by_cases hx : x = p
          · rw [if_pos hx, if_pos hx, hemp]
            rfl
          · rw [if_neg hx, if_neg hx, hch1]
        · intro x hx hxe
          rw [childrenComp_setChildrenNone] at hxe
          by_cases hxp : x = p
          · rw [if_pos hxp] at hxe
            exact absurd hxe (by simp)
          · rw [if_neg hxp, hch1] at hxe
            exact hxe
      · rw [if_neg hemp, Option.some_inj] at h
        subst h
        refine hdet _ rfl rfl rfl rfl ?_ ?_
        · intro x
          unfold childrenList
          rw [childrenComp_setChildrenSome]
          by_cases hx : x = p
          · rw [if_pos hx, if_pos hx]
            rfl
          · rw [if_neg hx, if_neg hx, hch1]
        · intro x hx hxe
          rw [childrenComp_setChildrenSome] at hxe
          by_cases hxp : x = p
          · rw [if_pos hxp, Option.some_inj] at hxe
            exact absurd hxe hemp
          · rw [if_neg hxp, hch1] at hxe
            exact hxe

/-- The stripping loop of `clear_children`: on success it clears exactly the
parent markers of the entities the listed ids resolve to, and changes
nothing else. -/
theorem strip_spec :
    ∀ (ids : List RollSafeId) (w w' : World),
    clear_children_strip w ids = some w' →
    w'.alive = w.alive ∧ w'.idComp = w.idComp ∧ w'.idm = w.idm ∧
    w'.childrenComp = w.childrenComp ∧
    ∀ x, w'.parentComp x =
      if ∃ cid ∈ ids, id_to_entity w cid = some x then none
      else w.parentComp x := by
  intro ids
  induction ids with
  | nil =>
    intro w w' h
    unfold clear_children_strip at h
    rw [Option.some_inj] at h
    subst h
    refine ⟨rfl, rfl, rfl, rfl, ?_⟩
    intro x
    rw [if_neg (by simp)]
  | cons cid rest ih =>
    intro w w' h
    unfold clear_children_strip at h
    cases hres : id_to_entity w cid with
    | none =>
      rw [hres] at h
      dsimp only at h
      obtain ⟨hal, hid, hidm, hch, hpar⟩ := ih w w' h
      refine ⟨hal, hid, hidm, hch, ?_⟩
      intro x
      rw [hpar x]
      by_cases hx : ∃ c ∈ rest, id_to_entity w c = some x
      · rw [if_pos hx, if_pos (by
          obtain ⟨c, hc, hcx⟩ := hx
          exact ⟨c, by simp [hc], hcx⟩)]
      · rw [if_neg hx, if_neg (by
          rintro ⟨c, hc, hcx⟩
          rcases List.mem_cons.mp hc with h1 | h2
          · subst h1
            rw [hres] at hcx
            exact absurd hcx (by simp)
          · exact hx ⟨c, h2, hcx⟩)]
    | some ce =>
      rw [hres] at h
      dsimp only at h
      by_cases hceal : ce ∈ w.alive
      swap
      · rw [if_neg hceal] at h
        exact absurd h (by simp)
      rw [if_pos hceal] at h
      obtain ⟨hal, hid, hidm, hch, hpar⟩ := ih (w.setParentNone ce) w' h
      refine ⟨hal, hid, hidm, hch, ?_⟩
      intro x
      rw [hpar x]
      by_cases hxce : x = ce
      · subst hxce
        by_cases hx : ∃ c ∈ rest, id_to_entity (w.setParentNone x) c = some x
        · rw [if_pos hx, if_pos (by
            obtain ⟨c, hc, hcx⟩ := hx
            rw [id_to_entity_setParentNone] at hcx
            exact ⟨c, by simp [hc], hcx⟩)]
        · rw [if_neg hx, if_pos ⟨cid, by simp, hres⟩, parentComp_setParentNone,
            if_pos rfl]
      · by_cases hx : ∃ c ∈ rest, id_to_entity (w.setParentNone ce) c = some x
        · rw [if_pos hx, if_pos (by
            obtain ⟨c, hc, hcx⟩ := hx
            rw [id_to_entity_setParentNone] at hcx
            exact ⟨c, by simp [hc], hcx⟩)]
        · rw [if_neg hx, parentComp_setParentNone, if_neg hxce, if_neg (by
            rintro ⟨c, hc, hcx⟩
            rcases List.mem_cons.mp hc with h1 | h2
            · subst h1
              rw [hres, Option.some_inj] at hcx
              exact hxce hcx.symm
            · refine hx ⟨c, h2, ?_⟩
              rw [id_to_entity_setParentNone]
              exact hcx)]

/-- `clear_children` under the invariant. -/
theorem clear_children_invB {p : Entity} {w w' : World}
    (hI : InvB w) (h : clear_children_fn p w = some w') :
    InvB w' ∧ (NE w → NE w') ∧
    w'.alive = w.alive ∧ w'.idComp = w.idComp ∧ w'.idm = w.idm := by
  have huniq := hI.1
  have hmapTo := hI.2.2.1
  have hcp := hI.2.2.2.2.1
  unfold clear_children_fn at h
  by_cases hpal : p ∈ w.alive
  swap
  · rw [if_neg hpal] at h
    exact absurd h (by simp)
  rw [if_pos hpal] at h
  cases hgc : w.getChildren p with
  | none =>
    rw [hgc] at h
    dsimp only at h
    rw [Option.some_inj] at h
    subst h
    exact ⟨hI, fun hne => hne, rfl, rfl, rfl⟩
  | some l =>
    rw [hgc] at h
    dsimp only at h
    have hpc2 : w.childrenComp p = some l := by
      rw [← getChildren_of_mem hpal]
      exact hgc
    have hclwl : childrenList w p = l := by
      unfold childrenList
      rw [hpc2]
      rfl
    obtain ⟨hal, hid, hidm, hch, hpar⟩ := strip_spec l (w.setChildrenNone p) w' h
    have hal2 : w'.alive = w.alive := hal
    have hid2 : w'.idComp = w.idComp := hid
    have hidm2 : w'.idm = w.idm := hidm
    have hres2 : ∀ cid, id_to_entity (w.setChildrenNone p) cid = id_to_entity w cid :=
      fun cid => id_to_entity_setChildrenNone cid
    have hcll : ∀ x, childrenList w' x = if x = p then [] else childrenList w x := by
      intro x
      unfold childrenList
      rw [hch, childrenComp_setChildrenNone]
      by_cases hx : x = p
      · rw [if_pos hx, if_pos hx]
        rfl
      · rw [if_neg hx, if_neg hx]
    have htarget : ∀ x, (∃ cid ∈ l, id_to_entity (w.setChildrenNone p) cid = some x) →
        x ∈ w.alive ∧ ∃ cid ∈ l, w.idComp x = some cid := by
      rintro x ⟨cid, hcid, hcx⟩
      rw [hres2] at hcx
      obtain ⟨cz, hczal, hczid, _⟩ := hcp p hpal cid (by rw [hclwl]; exact hcid)
      have hmz := hmapTo cz hczal
      rw [hczid] at hmz
      rw [hmz, Option.some_inj] at hcx
      subst hcx
      exact ⟨hczal, cid, hcid, hczid⟩
    refine ⟨detach_invB hI hal2 hid2 hidm2 ?_ ?_ ?_ ?_, ?_, hal2, hid2, hidm2⟩
    · intro x
      rw [hpar x]
      by_cases hx : ∃ cid ∈ l, id_to_entity (w.setChildrenNone p) cid = some x
      · rw [if_pos hx]
        exact Or.inr rfl
      · rw [if_neg hx]
        exact Or.inl rfl
    · intro x
      rw [hcll]
      by_cases hx : x = p
      · rw [if_pos hx]
        exact List.nil_sublist _
      · rw [if_neg hx]
    · intro cx hcxal q2 hq2 i hi P2 hP2al hiP2
      rw [hpar cx] at hq2
      by_cases hxt : ∃ cid ∈ l, id_to_entity (w.setChildrenNone p) cid = some cx
      · rw [if_pos hxt] at hq2
        exact absurd hq2 (by simp)
      · rw [if_neg hxt] at hq2
        rw [hcll]
        by_cases hP2P : P2 = p
        · exfalso
          rw [hP2P, hclwl] at hiP2
          refine hxt ⟨i, hiP2, ?_⟩
          rw [hres2]
          have hm := hmapTo cx hcxal
          rw [hi] at hm
          exact hm
        · rw [if_neg hP2P]
          exact hiP2
    · intro P2 hP2al i hi cx hcxal hcxid
      rw [hpar cx]
      by_cases hxt : ∃ cid ∈ l, id_to_entity (w.setChildrenNone p) cid = some cx
      swap
      · rw [if_neg hxt]
        rfl
      · exfalso
        obtain ⟨_, cid, hcid, hcid2⟩ := htarget cx hxt
        rw [hcxid, Option.some_inj] at hcid2
        subst hcid2
        rw [hcll] at hi
        by_cases hP2P : P2 = p
        · rw [if_pos hP2P] at hi
          exact absurd hi (by simp)
        · rw [if_neg hP2P] at hi
          obtain ⟨cy, hcyal, hcyid, hcypar⟩ := hcp P2 hP2al i hi
          have hu := huniq cy hcyal cx hcxal
          rw [hcyid, hcxid] at hu
          have hcyc := hu rfl
          subst hcyc
          obtain ⟨cz, hczal, hczid, hczpar⟩ := hcp p hpal i (by rw [hclwl]; exact hcid)
          have hu2 := huniq cz hczal cy hcyal
          rw [hczid, hcxid] at hu2
          have hczc := hu2 rfl
          subst hczc
          cases hP2i : w.idComp P2 with
          | none =>
            rw [hP2i] at hcypar
            exact hcypar.elim
          | some p2i =>
            cases hpi : w.idComp p with
            | none =>
              rw [hpi] at hczpar
              exact hczpar.elim
            | some ppi =>
              rw [hP2i] at hcypar
              rw [hpi] at hczpar
              have hcypar2 : w.parentComp cz = some p2i := hcypar
              have hczpar2 : w.parentComp cz = some ppi := hczpar
              rw [hcypar2, Option.some_inj] at hczpar2
              rw [← hczpar2] at hpi
              have hu3 := huniq P2 hP2al p hpal
              rw [hP2i, hpi] at hu3
              exact hP2P (hu3 rfl)
    · intro hne x hx hxe
      rw [hal2] at hx
      rw [show w'.childrenComp x = (w.setChildrenNone p).childrenComp x from by
        rw [hch], childrenComp_setChildrenNone] at hxe
      by_cases hxp : x = p
      · rw [if_pos hxp] at hxe
        exact absurd hxe (by simp)
      · rw [if_neg hxp] at hxe
        exact hne x hx hxe

/-- `replace_children` under the invariant. -/
theorem replace_children_invB {p : Entity} {cs : List Entity} {w w' : World}
    (hI : InvB w) (hnd : cs.Nodup)
    (h : replace_children p cs w = some w') :
    InvB w' ∧ (NE w → cs ≠ [] → NE w') ∧
    w'.alive = w.alive ∧ w'.idComp = w.idComp ∧ w'.idm = w.idm := by
  unfold replace_children at h
  cases hc : clear_children_fn p w with
  | none =>
    rw [hc] at h
    exact absurd h (by simp)
  | some w1 =>
    rw [hc] at h
    dsimp only at h
    obtain ⟨hI1, hne1, hal1, hid1, hidm1⟩ := clear_children_invB hI hc
    obtain ⟨hI2, hne2, hal2, hid2, hidm2, _⟩ := push_children_invB hI1 hnd h
    exact ⟨hI2, fun hne hcs => hne2 (hne1 hne) hcs, hal2.trans hal1,
      hid2.trans hid1, hidm2.trans hidm1⟩

theorem unusedIds_congr {w w' : World} (h : w'.idm = w.idm) :
    unusedIds w' = unusedIds w := by
  unfold unusedIds
  rw [h]

theorem unusedIds_free_id {w : World} {m : IdManager} (hm : w.idm = some m)
    (i : RollSafeId) :
    unusedIds (free_id w i) = unusedIds w ++ [i] := by
  unfold unusedIds free_id
  rw [hm]
  rfl

theorem idm_some_of_lookup {w : World} {i : RollSafeId} {e : Entity}
    (h : id_to_entity w i = some e) : ∃ m, w.idm = some m := by
  unfold id_to_entity at h
  cases hm : w.idm with
  | none =>
    rw [hm] at h
    exact absurd h (by simp)
  | some m => exact ⟨m, rfl⟩

theorem getChildren_getD {w : World} {e : Entity} (he : e ∈ w.alive) :
    (w.getChildren e).getD [] = childrenList w e := by
  unfold World.getChildren childrenList
  rw [if_pos he]

/-- The children-marker clear before a despawn is absorbed by the despawn. -/
theorem despawnBody_despawn_eq (w1 : World) (atE : Entity) (at_id : RollSafeId) :
    free_id ((match w1.getChildren atE with
      | none => w1
      | some _ => w1.setChildrenSome atE ([] : List RollSafeId)).despawn atE) at_id =
    free_id (w1.despawn atE) at_id := by
  cases h : w1.getChildren atE with
  | none => rfl
  | some l =>
    have heq : (w1.setChildrenSome atE ([] : List RollSafeId)).despawn atE =
        w1.despawn atE := by
      unfold World.despawn
      refine World.ext rfl rfl rfl ?_ rfl
      show Function.update (w1.setChildrenSome atE ([] : List RollSafeId)).childrenComp
        atE none = Function.update w1.childrenComp atE none
      rw [show (w1.setChildrenSome atE ([] : List RollSafeId)).childrenComp =
        Function.update w1.childrenComp atE (some ([] : List RollSafeId)) from rfl,
        Function.update_idem]
    rw [heq]

/-- Core of the despawn step: despawning a detached `atE` and freeing its id
preserves the loop invariant, with `atE`'s resolved children pushed onto the
stack; the id lands in the free pool and surviving child edges persist. -/
theorem despawn_step_core {w : World} {stack : List Entity} {atE : Entity}
    {at_id : RollSafeId} {w1 : World}
    (hJ : DespawnInv w (atE :: stack)) (hal : atE ∈ w.alive)
    (hid : w.idComp atE = some at_id)
    (hb1 : w1.alive = w.alive) (hb2 : w1.idComp = w.idComp)
    (hb3 : w1.idm = w.idm) (hb4 : w1.parentComp = w.parentComp)
    (hsubl : ∀ x, List.Sublist (childrenList w1 x) (childrenList w x))
    (hkeep : ∀ x i, i ∈ childrenList w x → i ≠ at_id → i ∈ childrenList w1 x)
    (hnoat : ∀ x ∈ w.alive, x ≠ atE → at_id ∉ childrenList w1 x)
    (hne5 : ∀ x ∈ w.alive, w1.childrenComp x = some [] → w.childrenComp x = some []) :
    DespawnInv (free_id (w1.despawn atE) at_id)
      (((childrenList w atE).filterMap (fun cid => id_to_entity w cid)).reverse
        ++ stack) ∧
    (free_id (w1.despawn atE) at_id).alive = w.alive.erase atE ∧
    (∀ x, (free_id (w1.despawn atE) at_id).idComp x =
      if x = atE then none else w.idComp x) ∧
    (∀ j, id_to_entity (free_id (w1.despawn atE) at_id) j = id_to_entity w j) ∧
    unusedIds (free_id (w1.despawn atE) at_id) = unusedIds w ++ [at_id] ∧
    (NE w → NE (free_id (w1.despawn atE) at_id)) ∧
    (∀ x y, x ≠ atE → y ≠ atE → childEdge w x y →
      childEdge (free_id (w1.despawn atE) at_id) x y) := by
  obtain ⟨huniq, htotal, hmapTo, hpc, hcp, hnodup⟩ := hJ
  have hFal : (free_id (w1.despawn atE) at_id).alive = w.alive.erase atE := by
    rw [alive_free_id, alive_despawn, hb1]
  have hFid : ∀ x, (free_id (w1.despawn atE) at_id).idComp x =
      if x = atE then none else w.idComp x := by
    intro x
    rw [show (free_id (w1.despawn atE) at_id).idComp = (w1.despawn atE).idComp from
      idComp_free_id _, idComp_despawn, hb2]
  have hFpar : ∀ x, (free_id (w1.despawn atE) at_id).parentComp x =
      if x = atE then none else w.parentComp x := by
    intro x
    rw [show (free_id (w1.despawn atE) at_id).parentComp = (w1.despawn atE).parentComp
      from parentComp_free_id _, parentComp_despawn, hb4]
  have hFch : ∀ x, (free_id (w1.despawn atE) at_id).childrenComp x =
      if x = atE then none else w1.childrenComp x := by
    intro x
    rw [show (free_id (w1.despawn atE) at_id).childrenComp =
      (w1.despawn atE).childrenComp from childrenComp_free_id _, childrenComp_despawn]
  have hFcl : ∀ x, childrenList (free_id (w1.despawn atE) at_id) x =
      if x = atE then [] else childrenList w1 x := by
    intro x
    unfold childrenList
    rw [hFch x]
    by_cases hx : x = atE
    · rw [if_pos hx, if_pos hx]
      rfl
    · rw [if_neg hx, if_neg hx]
  have hFmap : ∀ j, id_to_entity (free_id (w1.despawn atE) at_id) j =
      id_to_entity w j := by
    intro j
    rw [id_to_entity_free_id, id_to_entity_despawn, id_to_entity_congr hb3]
  have hmA := hmapTo atE hal
  rw [hid] at hmA
  obtain ⟨m, hmm⟩ := idm_some_of_lookup hmA
  have hFunused : unusedIds (free_id (w1.despawn atE) at_id) =
      unusedIds w ++ [at_id] := by
    rw [unusedIds_free_id (show (w1.despawn atE).idm = some m from by
      rw [idm_despawn, hb3]; exact hmm) at_id,
      unusedIds_congr (show (w1.despawn atE).idm = w.idm from by
        rw [idm_despawn, hb3])]
  refine ⟨⟨?_, ?_, ?_, ?_, ?_, ?_⟩, hFal, hFid, hFmap, hFunused, ?_, ?_⟩
  · intro e1 he1 e2 he2
    rw [hFal] at he1 he2
    rw [hFid e1, if_neg (Finset.ne_of_mem_erase he1),
      hFid e2, if_neg (Finset.ne_of_mem_erase he2)]
    exact huniq e1 (Finset.mem_of_mem_erase he1) e2 (Finset.mem_of_mem_erase he2)
  · intro e he
    rw [hFal] at he
    rw [hFid e, if_neg (Finset.ne_of_mem_erase he)]
    exact htotal e (Finset.mem_of_mem_erase he)
  · intro e he
    rw [hFal] at he
    rw [hFid e, if_neg (Finset.ne_of_mem_erase he)]
    have hm2 := hmapTo e (Finset.mem_of_mem_erase he)
    cases hi : w.idComp e with
    | none => trivial
    | some i =>
      rw [hi] at hm2
      show id_to_entity (free_id (w1.despawn atE) at_id) i = some e
      rw [hFmap i]
      exact hm2
  · intro c hc
    have hcne : c ≠ atE := by
      rw [hFal] at hc
      exact Finset.ne_of_mem_erase hc
    have hcal : c ∈ w.alive := by
      rw [hFal] at hc
      exact Finset.mem_of_mem_erase hc
    cases hq : w.parentComp c with
    | none =>
      rw [show (free_id (w1.despawn atE) at_id).parentComp c = none from by
        rw [hFpar c, if_neg hcne, hq]]
      trivial
    | some q =>
      rw [show (free_id (w1.despawn atE) at_id).parentComp c = some q from by
        rw [hFpar c, if_neg hcne, hq]]
      have hd := hpc c hcal
      rw [hq] at hd
      show (∃ P ∈ (free_id (w1.despawn atE) at_id).alive,
          (free_id (w1.despawn atE) at_id).idComp P = some q ∧
          OptAll ((free_id (w1.despawn atE) at_id).idComp c) fun ci =>
            ci ∈ childrenList (free_id (w1.despawn atE) at_id) P) ∨
        (c ∈ ((childrenList w atE).filterMap
            (fun cid => id_to_entity w cid)).reverse ++ stack ∧
          OptAll (id_to_entity (free_id (w1.despawn atE) at_id) q) fun P =>
            P ∉ (free_id (w1.despawn atE) at_id).alive)
      rcases hd with ⟨P, hPal, hPid, hciP⟩ | ⟨hcstk, hdead⟩
      · by_cases hPa : P = atE
        · right
          rw [hPa] at hPid
        
          have hqid : q = at_id := by
            rw [hid, Option.some_inj] at hPid
            exact hPid.symm
          constructor
          · rw [List.mem_append, List.mem_reverse]
            left
            rw [List.mem_filterMap]
            obtain ⟨ci, hci⟩ := Option.isSome_iff_exists.mp (htotal c hcal)
            rw [hci] at hciP
            rw [hPa] at hciP
            refine ⟨ci, hciP, ?_⟩
            have hmc := hmapTo c hcal
            rw [hci] at hmc
            exact hmc
          · rw [hFmap q, hqid, hmA]
            show atE ∉ (free_id (w1.despawn atE) at_id).alive
            rw [hFal]
            simp
        · left
          refine ⟨P, by rw [hFal]; exact Finset.mem_erase.mpr ⟨hPa, hPal⟩,
            by rw [hFid P, if_neg hPa]; exact hPid, ?_⟩
          rw [hFid c, if_neg hcne]
          cases hci : w.idComp c with
          | none => trivial
          | some ci =>
            rw [hci] at hciP
            show ci ∈ childrenList (free_id (w1.despawn atE) at_id) P
            rw [hFcl P, if_neg hPa]
            refine hkeep P ci hciP ?_
            intro hh
            rw [hh] at hci
            have hu := huniq c hcal atE hal
            rw [hci, hid] at hu
            exact hcne (hu rfl)
      · right
        constructor
        · rcases List.mem_cons.mp hcstk with h1 | h2
          · exact absurd h1 hcne
          · rw [List.mem_append]
            exact Or.inr h2
        · rw [hFmap q]
          cases hres : id_to_entity w q with
          | none => trivial
          | some pe =>
            rw [hres] at hdead
            show pe ∉ (free_id (w1.despawn atE) at_id).alive
            rw [hFal]
            intro hmem
            exact hdead (Finset.mem_of_mem_erase hmem)
  · intro P hP i hi
    have hPne : P ≠ atE := by
      rw [hFal] at hP
      exact Finset.ne_of_mem_erase hP
    have hPal : P ∈ w.alive := by
      rw [hFal] at hP
      exact Finset.mem_of_mem_erase hP
    rw [hFcl P, if_neg hPne] at hi
    have hiw : i ∈ childrenList w P := (hsubl P).mem hi
    obtain ⟨c, hcal, hcid, hcpar⟩ := hcp P hPal i hiw
    have hcne : c ≠ atE := by
      intro hh
      rw [hh, hid, Option.some_inj] at hcid
      rw [← hcid] at hi
      exact hnoat P hPal hPne hi
    refine ⟨c, by rw [hFal]; exact Finset.mem_erase.mpr ⟨hcne, hcal⟩,
      by rw [hFid c, if_neg hcne]; exact hcid, ?_⟩
    rw [hFid P, if_neg hPne]
    cases hPi : w.idComp P with
    | none =>
      rw [hPi] at hcpar
      exact hcpar.elim
    | some pi =>
      rw [hPi] at hcpar
      show (free_id (w1.despawn atE) at_id).parentComp c = some pi
      rw [hFpar c, if_neg hcne]
      exact hcpar
  · intro P hP
    rw [hFcl P]
    by_cases hPa : P = atE
    · rw [if_pos hPa]
      exact List.nodup_nil
    · rw [if_neg hPa]
      refine List.Sublist.nodup (hsubl P) (hnodup P ?_)
      rw [hFal] at hP
      exact Finset.mem_of_mem_erase hP
  · intro hne x hx hxe
    rw [hFal] at hx
    rw [hFch x] at hxe
    by_cases hxa : x = atE
    · rw [if_pos hxa] at hxe
      exact absurd hxe (by simp)
    · rw [if_neg hxa] at hxe
      exact hne x (Finset.mem_of_mem_erase hx)
        (hne5 x (Finset.mem_of_mem_erase hx) hxe)
  · intro x y hxa hya hedge
    obtain ⟨hxal, hyal, i, hi, hyi⟩ := hedge
    refine ⟨by rw [hFal]; exact Finset.mem_erase.mpr ⟨hxa, hxal⟩,
      by rw [hFal]; exact Finset.mem_erase.mpr ⟨hya, hyal⟩, i, ?_, ?_⟩
    · rw [hFcl x, if_neg hxa]
      refine hkeep x i hi ?_
      intro hh
      rw [hh] at hyi
      have hu := huniq y hyal atE hal
      rw [hyi, hid] at hu
      exact hya (hu rfl)
    · rw [hFid y, if_neg hya]
      exact hyi

/-- One full iteration of the despawn loop body preserves the loop
invariant. -/
theorem despawn_step {w : World} {stack : List Entity} {atE : Entity}
    {at_id : RollSafeId}
    (hJ : DespawnInv w (atE :: stack)) (hal : atE ∈ w.alive)
    (hid : w.idComp atE = some at_id) :
    DespawnInv (despawnBody w atE at_id)
      (((childrenList w atE).filterMap (fun cid => id_to_entity w cid)).reverse
        ++ stack) ∧
    (despawnBody w atE at_id).alive = w.alive.erase atE ∧
    (∀ x, (despawnBody w atE at_id).idComp x = if x = atE then none else w.idComp x) ∧
    (∀ j, id_to_entity (despawnBody w atE at_id) j = id_to_entity w j) ∧
    unusedIds (despawnBody w atE at_id) = unusedIds w ++ [at_id] ∧
    (NE w → NE (despawnBody w atE at_id)) ∧
    (∀ x y, x ≠ atE → y ≠ atE → childEdge w x y →
      childEdge (despawnBody w atE at_id) x y) := by
  obtain ⟨huniq, htotal, hmapTo, hpc, hcp, hnodup⟩ := hJ
  have hJ2 : DespawnInv w (atE :: stack) :=
    ⟨huniq, htotal, hmapTo, hpc, hcp, hnodup⟩
  have hlister : ∀ x ∈ w.alive, at_id ∈ childrenList w x →
      ∃ xi, w.idComp x = some xi ∧ w.parentComp atE = some xi := by
    intro x hx hmem
    obtain ⟨c, hcal, hcid, hcpar⟩ := hcp x hx at_id hmem
    have hu := huniq c hcal atE hal
    rw [hcid, hid] at hu
    have hca := hu rfl
    rw [hca] at hcpar
    cases hxi : w.idComp x with
    | none =>
      rw [hxi] at hcpar
      exact hcpar.elim
    | some xi =>
      rw [hxi] at hcpar
      exact ⟨xi, rfl, hcpar⟩
  cases hq : w.parentComp atE with
  | none =>
    have hnoat : ∀ x ∈ w.alive, at_id ∉ childrenList w x := by
      intro x hx hmem
      obtain ⟨xi, _, hpar2⟩ := hlister x hx hmem
      rw [hq] at hpar2
      exact absurd hpar2 (by simp)
    have hbody : despawnBody w atE at_id = free_id (w.despawn atE) at_id := by
      unfold despawnBody
      rw [getParent_of_mem hal, hq]
      dsimp only
      exact despawnBody_despawn_eq w atE at_id
    rw [hbody]
    exact despawn_step_core hJ2 hal hid rfl rfl rfl rfl
      (fun x => List.Sublist.refl _) (fun x i hi _ => hi)
      (fun x hx _ => hnoat x hx) (fun x _ hxe => hxe)
  | some q =>
    have hgq : w.getParent atE = some q := by
      rw [getParent_of_mem hal]
      exact hq
    have hd := hpc atE hal
    rw [hq] at hd
    rcases hd with ⟨P, hPal, hPid, hciP⟩ | ⟨_, hdead⟩
    · have hres : id_to_entity w q = some P := by
        have hmP := hmapTo P hPal
        rw [hPid] at hmP
        exact hmP
      have hatP : at_id ∈ childrenList w P := by
        rw [hid] at hciP
        exact hciP
      obtain ⟨lp, hlp, hatlp⟩ := childrenList_mem_some hatP
      have hgcP : w.getChildren P = some lp := by
        rw [getChildren_of_mem hPal]
        exact hlp
      have hclwlp : childrenList w P = lp := by
        unfold childrenList
        rw [hlp]
        rfl
      have hbody : despawnBody w atE at_id =
          free_id ((if lp.filter (fun y => y ≠ at_id) = [] then w.setChildrenNone P
            else w.setChildrenSome P (lp.filter (fun y => y ≠ at_id))).despawn atE)
            at_id := by
        unfold despawnBody
        rw [hgq]
        dsimp only
        rw [hres]
        dsimp only
        rw [hgcP]
        dsimp only
        exact despawnBody_despawn_eq _ atE at_id
      have hchx : ∀ x, (if lp.filter (fun y => y ≠ at_id) = [] then
            w.setChildrenNone P
          else w.setChildrenSome P (lp.filter (fun y => y ≠ at_id))).childrenComp x =
          if x = P then
            (if lp.filter (fun y => y ≠ at_id) = [] then none
             else some (lp.filter (fun y => y ≠ at_id)))
          else w.childrenComp x := by
        intro x
        by_cases hemp : lp.filter (fun y => y ≠ at_id) = []
        · rw [if_pos hemp, childrenComp_setChildrenNone]
          by_cases hx : x = P
          · rw [if_pos hx, if_pos hx, if_pos hemp]
          · rw [if_neg hx, if_neg hx]
        · rw [if_neg hemp, childrenComp_setChildrenSome]
          by_cases hx : x = P
          · rw [if_pos hx, if_pos hx, if_neg hemp]
          · rw [if_neg hx, if_neg hx]
      have hclx : ∀ x, childrenList (if lp.filter (fun y => y ≠ at_id) = [] then
            w.setChildrenNone P
          else w.setChildrenSome P (lp.filter (fun y => y ≠ at_id))) x =
          if x = P then lp.filter (fun y => y ≠ at_id) else childrenList w x := by
        intro x
        unfold childrenList
        rw [hchx x]
        by_cases hx : x = P
        · rw [if_pos hx, if_pos hx]
          by_cases hemp : lp.filter (fun y => y ≠ at_id) = []
          · rw [if_pos hemp, hemp]
            rfl
          · rw [if_neg hemp]
            rfl
        · rw [if_neg hx, if_neg hx]
      have halx : (if lp.filter (fun y => y ≠ at_id) = [] then w.setChildrenNone P
          else w.setChildrenSome P (lp.filter (fun y => y ≠ at_id))).alive
          = w.alive := by
        by_cases hemp : lp.filter (fun y => y ≠ at_id) = []
        · rw [if_pos hemp]
          rfl
        · rw [if_neg hemp]
          rfl
      have hidx : (if lp.filter (fun y => y ≠ at_id) = [] then w.setChildrenNone P
          else w.setChildrenSome P (lp.filter (fun y => y ≠ at_id))).idComp
          = w.idComp := by
        by_cases hemp : lp.filter (fun y => y ≠ at_id) = []
        · rw [if_pos hemp]
          rfl
        · rw [if_neg hemp]
          rfl
      have hidmx : (if lp.filter (fun y => y ≠ at_id) = [] then w.setChildrenNone P
          else w.setChildrenSome P (lp.filter (fun y => y ≠ at_id))).idm
          = w.idm := by
        by_cases hemp : lp.filter (fun y => y ≠ at_id) = []
        · rw [if_pos hemp]
          rfl
        · rw [if_neg hemp]
          rfl
      have hparx : (if lp.filter (fun y => y ≠ at_id) = [] then w.setChildrenNone P
          else w.setChildrenSome P (lp.filter (fun y => y ≠ at_id))).parentComp
          = w.parentComp := by
        by_cases hemp : lp.filter (fun y => y ≠ at_id) = []
        · rw [if_pos hemp]
          rfl
        · rw [if_neg hemp]
          rfl
      rw [hbody]
      refine despawn_step_core hJ2 hal hid halx hidx hidmx hparx ?_ ?_ ?_ ?_
      · intro x
        rw [hclx x]
        by_cases hx : x = P
        · rw [if_pos hx, hx, hclwlp]
          exact List.filter_sublist _
        · rw [if_neg hx]
      · intro x i hi hine
        rw [hclx x]
        by_cases hx : x = P
        · rw [if_pos hx]
          rw [hx, hclwlp] at hi
          refine List.mem_filter.mpr ⟨hi, ?_⟩
          simpa using hine
        · rw [if_neg hx]
          exact hi
      · intro x hx hxne hmem
        rw [hclx x] at hmem
        by_cases hxP : x = P
        · rw [if_pos hxP] at hmem
          have := List.of_mem_filter hmem
          simp at this
        · rw [if_neg hxP] at hmem
          obtain ⟨xi, hxi, hpar2⟩ := hlister x hx hmem
          rw [hq, Option.some_inj] at hpar2
          rw [← hpar2] at hxi
          have hu := huniq x hx P hPal
          rw [hxi, hPid] at hu
          exact hxP (hu rfl)
      · intro x hx hxe
        rw [hchx x] at hxe
        by_cases hxP : x = P
        · rw [if_pos hxP] at hxe
          by_cases hemp : lp.filter (fun y => y ≠ at_id) = []
          · rw [if_pos hemp] at hxe
            exact absurd hxe (by simp)
          · rw [if_neg hemp] at hxe
            rw [Option.some_inj] at hxe
            exact absurd hxe hemp
        · rw [if_neg hxP] at hxe
          exact hxe
    · have hnoat : ∀ x ∈ w.alive, at_id ∉ childrenList w x := by
        intro x hx hmem
        obtain ⟨xi, hxi, hpar2⟩ := hlister x hx hmem
        rw [hq, Option.some_inj] at hpar2
        rw [← hpar2] at hxi
        have hmx := hmapTo x hx
        rw [hxi] at hmx
        rw [hmx] at hdead
        exact hdead hx
      cases hres : id_to_entity w q with
      | none =>
        have hbody : despawnBody w atE at_id = free_id (w.despawn atE) at_id := by
          unfold despawnBody
          rw [hgq]
          dsimp only
          rw [hres]
          dsimp only
          exact despawnBody_despawn_eq w atE at_id
        rw [hbody]
        exact despawn_step_core hJ2 hal hid rfl rfl rfl rfl
          (fun x => List.Sublist.refl _) (fun x i hi _ => hi)
          (fun x hx _ => hnoat x hx) (fun x _ hxe => hxe)
      | some pe =>
        rw [hres] at hdead
        have hpedead : pe ∉ w.alive := hdead
        have hgcpe : w.getChildren pe = none := by
          unfold World.getChildren
          rw [if_neg hpedead]
        have hbody : despawnBody w atE at_id = free_id (w.despawn atE) at_id := by
          unfold despawnBody
          rw [hgq]
          dsimp only
          rw [hres]
          dsimp only
          rw [hgcpe]
          dsimp only
          exact despawnBody_despawn_eq w atE at_id
        rw [hbody]
        exact despawn_step_core hJ2 hal hid rfl rfl rfl rfl
          (fun x => List.Sublist.refl _) (fun x i hi _ => hi)
          (fun x hx _ => hnoat x hx) (fun x _ hxe => hxe)

/-- Any path either avoids `z` after its start or has a suffix that starts
at `z` and then avoids it. -/
theorem reachN_decompose {w : World} {z : Entity} :
    ∀ (n : Nat) (a e : Entity), ReachN w n a e →
    AvoidTail w z n a e ∨ ∃ m, m < n ∧ AvoidTail w z m z e := by
  intro n
  induction n with
  | zero =>
    intro a e h
    exact Or.inl h
  | succ n ih =>
    intro a e h
    obtain ⟨b, hab, hbe⟩ := h
    rcases ih b e hbe with havoid | ⟨m, hm, havoid⟩
    · by_cases hbz : b = z
      · right
        refine ⟨n, Nat.lt_succ_self n, ?_⟩
        rw [hbz] at havoid
        exact havoid
      · exact Or.inl ⟨b, hab, hbz, havoid⟩
    · exact Or.inr ⟨m, Nat.lt_trans hm (Nat.lt_succ_self n), havoid⟩

/-- A path avoiding `z` transfers along preserved edges. -/
theorem avoidTail_transfer {w w' : World} {z : Entity}
    (hedge : ∀ x y, x ≠ z → y ≠ z → childEdge w x y → childEdge w' x y) :
    ∀ (n : Nat) (a e : Entity), a ≠ z → AvoidTail w z n a e → ReachN w' n a e := by
  intro n
  induction n with
  | zero =>
    intro a e _ h
    exact h
  | succ n ih =>
    intro a e haz h
    obtain ⟨b, hab, hbz, hbe⟩ := h
    exact ⟨b, hedge a b haz hbz hab, ih b e hbz hbe⟩

/-- Appending one edge to an `n`-step path. -/
theorem reachN_snoc {w : World} :
    ∀ (n : Nat) (a b c : Entity), ReachN w n a b → childEdge w b c →
    ReachN w (n + 1) a c := by
  intro n
  induction n with
  | zero =>
    intro a b c hab hbc
    have hab2 : a = b := hab
    rw [hab2]
    exact ⟨c, hbc, rfl⟩
  | succ n ih =>
    intro a b c hab hbc
    obtain ⟨d, had, hdb⟩ := hab
    exact ⟨d, had, ih d b c hdb hbc⟩

theorem reach_iff_reachN {w : World} {a e : Entity} :
    Reach w a e ↔ ∃ n, ReachN w n a e := by
  constructor
  · intro h
    induction h with
    | refl => exact ⟨0, rfl⟩
    | tail _ hbc ih =>
      obtain ⟨n, hn⟩ := ih
      exact ⟨n + 1, reachN_snoc n _ _ _ hn hbc⟩
  · rintro ⟨n, hn⟩
    induction n generalizing a with
    | zero =>
      have h0 : a = e := hn
      rw [h0]
      exact Relation.ReflTransGen.refl
    | succ n ih =>
      obtain ⟨b, hab, hbe⟩ := hn
      exact Relation.ReflTransGen.head hab (ih hbe)

theorem despawnLoop_nil (w : World) : despawnLoop w [] = w := by
  unfold despawnLoop
  rfl

theorem despawnLoop_cons (w : World) (atE : Entity) (rest : List Entity) :
    despawnLoop w (atE :: rest) =
      match w.getId atE with
      | none => despawnLoop w rest
      | some at_id =>
        despawnLoop (despawnBody w atE at_id)
          ((((w.getChildren atE).getD []).filterMap
            (fun cid => id_to_entity w cid)).reverse ++ rest) := by
  conv_lhs => unfold despawnLoop
  split
  · next heq => rw [heq]
  · next at_id heq => rw [heq]

/-- A well-formed world satisfies the despawn loop invariant for any
stack. -/
theorem invB_despawnInv {w : World} (hI : InvB w) (stack : List Entity) :
    DespawnInv w stack := by
  obtain ⟨huniq, htotal, hmapTo, hpc, hcp, hnodup⟩ := hI
  refine ⟨huniq, htotal, hmapTo, ?_, hcp, hnodup⟩
  intro c hc
  have hd := hpc c hc
  cases hq : w.parentComp c with
  | none => trivial
  | some q =>
    rw [hq] at hd
    exact Or.inl hd

/-- With an exhausted stack the despawn loop invariant is plain
well-formedness. -/
theorem despawnInv_nil_invB {w : World} (hJ : DespawnInv w []) : InvB w := by
  obtain ⟨huniq, htotal, hmapTo, hpc, hcp, hnodup⟩ := hJ
  refine ⟨huniq, htotal, hmapTo, ?_, hcp, hnodup⟩
  intro c hc
  have hd := hpc c hc
  cases hq : w.parentComp c with
  | none => trivial
  | some q =>
    rw [hq] at hd
    rcases hd with h1 | ⟨h2, _⟩
    · exact h1
    · exact absurd h2 (by simp)

theorem despawnConcl_nil {w : World} (hJ : DespawnInv w []) :
    DespawnConcl w [] := by
  unfold DespawnConcl
  rw [despawnLoop_nil]
  refine ⟨despawnInv_nil_invB hJ, fun h => h, fun x hx => hx, fun e _ => rfl,
    fun i hi => hi, ?_, ?_, fun i => rfl⟩
  · intro e he hne
    exact absurd he hne
  · intro s hs
    exact absurd hs (by simp)

theorem despawnConcl_skip {w : World} {atE : Entity} {rest : List Entity}
    (hJ : DespawnInv w (atE :: rest)) (hgid : w.getId atE = none)
    (hrest : DespawnInv w rest → DespawnConcl w rest) :
    DespawnConcl w (atE :: rest) := by
  have hdead : atE ∉ w.alive := by
    intro hal
    have htot := hJ.2.1 atE hal
    rw [getId_of_mem hal] at hgid
    rw [hgid] at htot
    exact absurd htot (by simp)
  have hJr : DespawnInv w rest := by
    obtain ⟨huniq, htotal, hmapTo, hpc, hcp, hnodup⟩ := hJ
    refine ⟨huniq, htotal, hmapTo, ?_, hcp, hnodup⟩
    intro c hc
    have hd := hpc c hc
    cases hq : w.parentComp c with
    | none => trivial
    | some q =>
      rw [hq] at hd
      rcases hd with h1 | ⟨h2, h3⟩
      · exact Or.inl h1
      · rcases List.mem_cons.mp h2 with h4 | h5
        · exfalso
          rw [h4] at hc
          exact hdead hc
        · exact Or.inr ⟨h5, h3⟩
  have hCr := hrest hJr
  have heq : despawnLoop w (atE :: rest) = despawnLoop w rest := by
    rw [despawnLoop_cons, hgid]
  unfold DespawnConcl
  rw [heq]
  obtain ⟨c1, c2, c3, c4, c5, c6, c7, c8⟩ := hCr
  refine ⟨c1, c2, c3, c4, c5, c6, ?_, c8⟩
  intro s hs n e hreach
  rcases List.mem_cons.mp hs with h1 | h2
  · cases n with
    | zero =>
      have h0 : s = e := hreach
      rw [← h0, h1]
      intro hmem
      exact hdead (c3 hmem)
    | succ n =>
      obtain ⟨b, hab, _⟩ := hreach
      rw [h1] at hab
      exact absurd hab.1 hdead
  · exact c7 s h2 n e hreach

theorem despawnConcl_body {w : World} {atE : Entity} {rest : List Entity}
    {at_id : RollSafeId}
    (hJ : DespawnInv w (atE :: rest)) (hgid : w.getId atE = some at_id)
    (hnext : ∀ stack2, DespawnInv (despawnBody w atE at_id) stack2 →
      DespawnConcl (despawnBody w atE at_id) stack2) :
    DespawnConcl w (atE :: rest) := by
  have hal : atE ∈ w.alive := by
    unfold World.getId at hgid
    by_cases h : atE ∈ w.alive
    · exact h
    · rw [if_neg h] at hgid
      exact absurd hgid (by simp)
  have hid : w.idComp atE = some at_id := by
    rw [getId_of_mem hal] at hgid
    exact hgid
  obtain ⟨hJ2, hal2, hid2, hmap2, hunused2, hne2, hedge2⟩ := despawn_step hJ hal hid
  have heq : despawnLoop w (atE :: rest) = despawnLoop (despawnBody w atE at_id)
      (((childrenList w atE).filterMap (fun cid => id_to_entity w cid)).reverse
        ++ rest) := by
    rw [despawnLoop_cons, hgid]
    dsimp only
    rw [getChildren_getD hal]
  obtain ⟨c1, c2, c3, c4, c5, c6, c7, c8⟩ := hnext
    (((childrenList w atE).filterMap (fun cid => id_to_entity w cid)).reverse ++ rest)
    hJ2
  unfold DespawnConcl
  rw [heq]
  refine ⟨c1, fun hne => c2 (hne2 hne), ?_, ?_, ?_, ?_, ?_,
    fun i => (c8 i).trans (hmap2 i)⟩
  · intro x hx
    have hx2 := c3 hx
    rw [hal2] at hx2
    exact Finset.mem_of_mem_erase hx2
  · intro e he
    have he2 := c3 he
    rw [hal2] at he2
    rw [c4 e he, hid2 e, if_neg (Finset.ne_of_mem_erase he2)]
  · intro i hi
    refine c5 i ?_
    rw [hunused2, List.mem_append]
    exact Or.inl hi
  · intro e he hnm
    by_cases heE : e = atE
    · rw [heE, hid]
      show at_id ∈ unusedIds (despawnLoop (despawnBody w atE at_id) _)
      refine c5 at_id ?_
      rw [hunused2, List.mem_append]
      right
      simp
    · have he2 : e ∈ (despawnBody w atE at_id).alive := by
        rw [hal2]
        exact Finset.mem_erase.mpr ⟨heE, he⟩
      have hfr := c6 e he2 hnm
      rw [hid2 e, if_neg heE] at hfr
      exact hfr
  · intro s hs n e hreach
    have hkillAvoid : ∀ (n2 : Nat) (a e2 : Entity), (a = atE ∨ a ∈ rest) →
        AvoidTail w atE n2 a e2 →
        e2 ∉ (despawnLoop (despawnBody w atE at_id)
          (((childrenList w atE).filterMap
            (fun cid => id_to_entity w cid)).reverse ++ rest)).alive := by
      intro n2
      cases n2 with
      | zero =>
        intro a e2 hmem h0
        have he2 : a = e2 := h0
        rw [← he2]
        by_cases haE : a = atE
        · rw [haE]
          intro hmm
          have hc3 := c3 hmm
          rw [hal2] at hc3
          exact absurd hc3 (by simp)
        · rcases hmem with h1 | h2
          · exact absurd h1 haE
          · exact c7 a (by rw [List.mem_append]; exact Or.inr h2) 0 a rfl
      | succ n2 =>
        intro a e2 hmem h0
        obtain ⟨b, hab, hbz, htail⟩ := h0
        have hreach2 : ReachN (despawnBody w atE at_id) n2 b e2 :=
          avoidTail_transfer hedge2 n2 b e2 hbz htail
        by_cases haE : a = atE
        · rw [haE] at hab
          obtain ⟨_, hbal, i, hi, hbi⟩ := hab
          have hbstk : b ∈ ((childrenList w atE).filterMap
              (fun cid => id_to_entity w cid)).reverse ++ rest := by
            rw [List.mem_append, List.mem_reverse]
            left
            rw [List.mem_filterMap]
            have hmb := hJ.2.2.1 b hbal
            rw [hbi] at hmb
            exact ⟨i, hi, hmb⟩
          exact c7 b hbstk n2 e2 hreach2
        · have hteach : ReachN (despawnBody w atE at_id) (n2 + 1) a e2 :=
            avoidTail_transfer hedge2 (n2 + 1) a e2 haE ⟨b, hab, hbz, htail⟩
          rcases hmem with h1 | h2
          · exact absurd h1 haE
          · exact c7 a (by rw [List.mem_append]; exact Or.inr h2) (n2 + 1) e2 hteach
    rcases reachN_decompose n s e hreach with havoid | ⟨m, _, havoid⟩
    · exact hkillAvoid n s e (List.mem_cons.mp hs) havoid
    · exact hkillAvoid m atE e (Or.inl rfl) havoid

theorem despawnLoop_spec :
    ∀ (N : Nat) (stack : List Entity) (w : World),
    w.alive.card ≤ N → DespawnInv w stack → DespawnConcl w stack := by
  intro N
  induction N with
  | zero =>
    intro stack
    induction stack with
    | nil =>
      intro w _ hJ
      exact despawnConcl_nil hJ
    | cons atE rest ihS =>
      intro w hcard hJ
      have hempty : w.alive = ∅ := Finset.card_eq_zero.mp (Nat.le_zero.mp hcard)
      have hgid : w.getId atE = none := by
        unfold World.getId
        rw [if_neg (by rw [hempty]; simp)]
      exact despawnConcl_skip hJ hgid (fun hJr => ihS w hcard hJr)
  | succ N ihN =>
    intro stack
    induction stack with
    | nil =>
      intro w _ hJ
      exact despawnConcl_nil hJ
    | cons atE rest ihS =>
      intro w hcard hJ
      cases hgid : w.getId atE with
      | none => exact despawnConcl_skip hJ hgid (fun hJr => ihS w hcard hJr)
      | some at_id =>
        have hal : atE ∈ w.alive := by
          unfold World.getId at hgid
          by_cases h : atE ∈ w.alive
          · exact h
          · rw [if_neg h] at hgid
            exact absurd hgid (by simp)
        have hid : w.idComp atE = some at_id := by
          rw [getId_of_mem hal] at hgid
          exact hgid
        refine despawnConcl_body hJ hgid ?_
        intro stack2 hJ2
        refine ihN stack2 (despawnBody w atE at_id) ?_ hJ2
        have halB := (despawn_step hJ hal hid).2.1
        have hlt : (despawnBody w atE at_id).alive.card < w.alive.card := by
          rw [halB]
          exact Finset.card_erase_lt_of_mem hal
        omega

/-- The reparenting loop never changes the live set, the ids or the
allocator when the parent already carries an id. -/
theorem uops_frame {p : Entity} {pid : RollSafeId} :
    ∀ (cs : List Entity) (w w1 : World), w.getId p = some pid →
    update_old_parents w p cs = some w1 →
    w1.alive = w.alive ∧ w1.idComp = w.idComp ∧ w1.idm = w.idm := by
  intro cs
  induction cs with
  | nil =>
    intro w w1 _ h
    unfold update_old_parents at h
    rw [Option.some_inj] at h
    subst h
    exact ⟨rfl, rfl, rfl⟩
  | cons c rest ih =>
    intro w w1 hgp h
    unfold update_old_parents at h
    cases huop : update_old_parent w c p with
    | none =>
      rw [huop] at h
      exact absurd h (by simp)
    | some wA =>
      rw [huop] at h
      dsimp only at h
      obtain ⟨hal, hid, hidm⟩ := uop_frame hgp huop
      have hgp2 : wA.getId p = some pid := by
        unfold World.getId at hgp ⊢
        rw [hal, hid]
        exact hgp
      obtain ⟨hal2, hid2, hidm2⟩ := ih wA w1 hgp2 h
      exact ⟨hal2.trans hal, hid2.trans hid, hidm2.trans hidm⟩

/-- `push_children` succeeds on a live, identified parent and a live,
identified batch not containing the parent. -/
theorem push_children_some {p : Entity} {cs : List Entity} {w : World}
    {pid : RollSafeId}
    (hgp : w.getId p = some pid) (hpcs : p ∉ cs)
    (hliv : ∀ c ∈ cs, c ∈ w.alive)
    (htot : ∀ c ∈ cs, (w.idComp c).isSome = true) :
    ∃ w', push_children p cs w = some w' := by
  have hpal : p ∈ w.alive := (getId_eq_some_iff.mp hgp).1
  unfold push_children
  rw [if_pos hpal, if_neg hpcs]
  obtain ⟨w1, hw1⟩ := uops_some cs w hgp hliv
  rw [hw1]
  dsimp only
  obtain ⟨hal, hid, _⟩ := uops_frame cs w w1 hgp hw1
  have htot1 : ∀ c ∈ cs, (w1.getId c).isSome = true := by
    intro c hc
    rw [getId_of_mem (by rw [hal]; exact hliv c hc), hid]
    exact htot c hc
  obtain ⟨ids, hcoll, _⟩ := collect_of_ids cs w1 htot1
  rw [hcoll]
  dsimp only
  cases hgc : w1.getChildren p with
  | some l =>
    dsimp only
    exact ⟨_, rfl⟩
  | none =>
    dsimp only
    exact ⟨_, rfl⟩

/-- `rollsafe_despawn_recursive` under the invariant: the invariant and the
no-empty-marker property survive, only reachable slots can die and all of
them do, survivors keep their ids, the free pool only grows and absorbs the
ids of everything that died, and the reverse table is untouched. -/
theorem despawn_invB {w : World} (t : Entity) (hI : InvB w) :
    InvB (rollsafe_despawn_recursive w t) ∧
    (NE w → NE (rollsafe_despawn_recursive w t)) ∧
    (rollsafe_despawn_recursive w t).alive ⊆ w.alive ∧
    (∀ e ∈ (rollsafe_despawn_recursive w t).alive,
      (rollsafe_despawn_recursive w t).idComp e = w.idComp e) ∧
    (∀ i ∈ unusedIds w, i ∈ unusedIds (rollsafe_despawn_recursive w t)) ∧
    (∀ e ∈ w.alive, e ∉ (rollsafe_despawn_recursive w t).alive →
      OptAll (w.idComp e) fun i => i ∈ unusedIds (rollsafe_despawn_recursive w t)) ∧
    (∀ e, Reach w t e → e ∉ (rollsafe_despawn_recursive w t).alive) ∧
    (∀ i, id_to_entity (rollsafe_despawn_recursive w t) i = id_to_entity w i) := by
  obtain ⟨c1, c2, c3, c4, c5, c6, c7, c8⟩ :=
    despawnLoop_spec w.alive.card [t] w (Nat.le_refl _) (invB_despawnInv hI [t])
  refine ⟨c1, c2, c3, c4, c5, c6, ?_, c8⟩
  intro e hre
  obtain ⟨n, hn⟩ := reach_iff_reachN.mp hre
  exact c7 t (by simp) n e hn

/-- Along child edges only live entities are reachable from a live root. -/
theorem reach_alive {w : World} {root e : Entity} (hroot : root ∈ w.alive)
    (h : Reach w root e) : e ∈ w.alive := by
  induction h with
  | refl => exact hroot
  | tail _ hbc _ => exact hbc.2.1

/-- Well-formedness implies the specification's bidirectional consistency
property. -/
theorem invB_bidir {w : World} (hI : InvB w) : Bidir w := by
  obtain ⟨huniq, htotal, hmapTo, hpc, hcp, hnodup⟩ := hI
  constructor
  · intro c hc
    cases hq : w.parentComp c with
    | none => trivial
    | some q =>
      have hd := hpc c hc
      rw [hq] at hd
      obtain ⟨P, hPal, hPid, hciP⟩ := hd
      have hmP := hmapTo P hPal
      rw [hPid] at hmP
      show OptAll (id_to_entity w q) fun P2 => P2 ∈ w.alive →
        OptAll (w.idComp c) fun ci => (childrenList w P2).count ci = 1
      rw [hmP]
      intro _
      cases hci : w.idComp c with
      | none => trivial
      | some ci =>
        rw [hci] at hciP
        show (childrenList w P).count ci = 1
        exact List.count_eq_one_of_mem (hnodup P hPal) hciP
  · intro P hP i hi
    obtain ⟨c, hcal, hcid, hcpar⟩ := hcp P hP i hi
    have hmc := hmapTo c hcal
    rw [hcid] at hmc
    rw [hmc]
    intro _
    exact hcpar

/-- After the per-cycle rebuild of the reverse table, an id carried by no
live entity resolves to nothing. -/
theorem lookup_after_rebuild {w : World} {i : RollSafeId}
    (h : ∀ e ∈ w.alive, w.getId e ≠ some i) :
    id_to_entity (update_id_entity_map w) i = none := by
  unfold id_to_entity update_id_entity_map
  cases hm : w.idm with
  | none =>
    dsimp only
    rw [hm]
  | some m =>
    dsimp only
    unfold IdManager.lookup_entity
    rw [Option.map_eq_none']
    rw [List.find?_eq_none]
    intro x hx
    rw [List.mem_filterMap] at hx
    obtain ⟨e, he, hfe⟩ := hx
    rw [Finset.mem_sort] at he
    cases hgi : w.getId e with
    | none =>
      rw [hgi] at hfe
      exact absurd hfe (by simp)
    | some j =>
      rw [hgi] at hfe
      simp only [Option.map_some'] at hfe
      rw [Option.some_inj] at hfe
      rw [← hfe]
      simp only [decide_eq_true_eq]
      intro hji
      rw [hji] at hgi
      exact h e he hgi

/-- Every direct operation preserves well-formedness under its side
condition. -/
theorem op_invB {op : Op} {w w' : World}
    (hI : InvB w) (hok : OpOK op w) (h : applyDirect op w = some w') :
    InvB w' := by
  cases op with
  | addChild p c => exact (add_child_invB hI h).1
  | pushChildren p cs => exact (push_children_invB hI hok h).1
  | insertChildren p i cs => exact (insert_children_invB hI hok h).1
  | removeChildren p cs => exact (remove_children_invB hI hok h).1
  | clearChildren p => exact (clear_children_invB hI h).1
  | replaceChildren p cs => exact (replace_children_invB hI hok h).1
  | setParent c p =>
    have h2 : set_parent c p w = some w' := h
    unfold set_parent at h2
    by_cases hc : c ∈ w.alive
    · rw [if_pos hc] at h2
      exact (add_child_invB hI h2).1
    · rw [if_neg hc] at h2
      exact absurd h2 (by simp)
  | removeParent c => exact (remove_parent_invB hI h).1
  | despawnRecursive t =>
    have h2 : some (rollsafe_despawn_recursive w t) = some w' := h
    rw [Option.some_inj] at h2
    rw [← h2]
    exact (despawn_invB t hI).1

/-- Every direct operation with a nonempty batch also preserves the
absence of empty children markers. -/
theorem op_ne {op : Op} {w w' : World}
    (hI : InvB w) (hok : OpOK op w) (hone : OpNE op)
    (h : applyDirect op w = some w') : NE w → NE w' := by
  cases op with
  | addChild p c => exact (add_child_invB hI h).2.1
  | pushChildren p cs =>
    intro hne
    exact (push_children_invB hI hok h).2.1 hne hone
  | insertChildren p i cs =>
    intro hne
    exact (insert_children_invB hI hok h).2.1 hne hone
  | removeChildren p cs => exact (remove_children_invB hI hok h).2.1
  | clearChildren p => exact (clear_children_invB hI h).2.1
  | replaceChildren p cs =>
    intro hne
    exact (replace_children_invB hI hok h).2.1 hne hone
  | setParent c p =>
    have h2 : set_parent c p w = some w' := h
    unfold set_parent at h2
    by_cases hc : c ∈ w.alive
    · rw [if_pos hc] at h2
      exact (add_child_invB hI h2).2.1
    · rw [if_neg hc] at h2
      exact absurd h2 (by simp)
  | removeParent c => exact (remove_parent_invB hI h).2.1
  | despawnRecursive t =>
    have h2 : some (rollsafe_despawn_recursive w t) = some w' := h
    rw [Option.some_inj] at h2
    rw [← h2]
    exact (despawn_invB t hI).2.1

/-- Well-formedness is preserved along any successful direct-variant
queue whose operations satisfy their side conditions. -/
theorem seq_invB {ops : List Op} :
    ∀ {w w' : World}, InvB w → SeqOK ops w →
    applySeqDirect ops w = some w' → InvB w' := by
  induction ops with
  | nil =>
    intro w w' hI _ h
    have h2 : some w = some w' := h
    rw [Option.some_inj] at h2
    rw [← h2]
    exact hI
  | cons op rest ih =>
    intro w w' hI hok h
    have h2 : (applyDirect op w).bind (applySeqDirect rest) = some w' := h
    cases hop : applyDirect op w with
    | none =>
      rw [hop] at h2
      exact absurd h2 (by simp)
    | some w1 =>
      rw [hop] at h2
      have hok1 : OpOK op w := hok.1
      have hok2 : OptAll (applyDirect op w) (fun w2 => SeqOK rest w2) := hok.2
      rw [hop] at hok2
      exact ih (op_invB hI hok1 hop) hok2 h2

/-- Along the same queues, with nonempty batches everywhere, no empty
children marker ever appears. -/
theorem seq_invB_ne {ops : List Op} :
    ∀ {w w' : World}, InvB w → NE w → SeqOK ops w → (∀ op ∈ ops, OpNE op) →
    applySeqDirect ops w = some w' → InvB w' ∧ NE w' := by
  induction ops with
  | nil =>
    intro w w' hI hne _ _ h
    have h2 : some w = some w' := h
    rw [Option.some_inj] at h2
    rw [← h2]
    exact ⟨hI, hne⟩
  | cons op rest ih =>
    intro w w' hI hne hok hone h
    have h2 : (applyDirect op w).bind (applySeqDirect rest) = some w' := h
    cases hop : applyDirect op w with
    | none =>
      rw [hop] at h2
      exact absurd h2 (by simp)
    | some w1 =>
      rw [hop] at h2
      have hok1 : OpOK op w := hok.1
      have hok2 : OptAll (applyDirect op w) (fun w2 => SeqOK rest w2) := hok.2
      rw [hop] at hok2
      exact ih (op_invB hI hok1 hop)
        (op_ne hI hok1 (hone op (by simp)) hop hne) hok2
        (fun o ho => hone o (by simp [ho])) h2

/-- C2: as stated, the bidirectional consistency property can be broken by a
legal operation sequence (see `C2_counterexample`); amended: starting from a
well-formed world (ids pairwise distinct, total and exactly registered in
the reverse table, parent and children markers mutually consistent), every
successful direct-variant operation sequence whose reparenting batches are
duplicate-free and whose `remove_children` batches only name children of the
target parent preserves well-formedness, and hence the bidirectional
consistency property: a `RollSafeParent` marker resolving to a live entity
is matched by exactly one occurrence in that entity's `RollSafeChildren`
marker, and every listed id that resolves to a live entity points back. -/
theorem C2_invariant_sequences_amended {ops : List Op} {w w' : World}
    (hI : InvB w) (hok : SeqOK ops w)
    (h : applySeqDirect ops w = some w') : InvB w' ∧ Bidir w' := by
  have hI2 := seq_invB hI hok h
  exact ⟨hI2, invB_bidir hI2⟩

/-- C2 counterexample: from a state satisfying the bidirectional property
(two freshly spawned, identity-free entities), two `add_child` calls leave
entity 1's identity listed under both entity 2 and entity 3 while its parent
marker names only entity 3's identity: the stale reverse table hides the
first listing from the second call, and the property fails. -/
theorem C2_counterexample :
    Bidir Wmint ∧
    OptEx (applySeqDirect [Op.addChild 2 1, Op.addChild 3 1] Wmint)
      (fun w' => ¬ Bidir w') := by decide

theorem C2_witness :
    InvB Wfive ∧
    SeqOK [Op.pushChildren 1 [2, 3], Op.removeParent 2,
      Op.replaceChildren 1 [4]] Wfive ∧
    ∃ w', applySeqDirect [Op.pushChildren 1 [2, 3], Op.removeParent 2,
      Op.replaceChildren 1 [4]] Wfive = some w' ∧ InvB w' ∧ Bidir w' := by
  refine ⟨by decide, by decide, ?_⟩
  cases hcase : applySeqDirect [Op.pushChildren 1 [2, 3], Op.removeParent 2,
      Op.replaceChildren 1 [4]] Wfive with
  | none =>
    exfalso
    have hs : (applySeqDirect [Op.pushChildren 1 [2, 3], Op.removeParent 2,
        Op.replaceChildren 1 [4]] Wfive).isSome = true := by decide
    rw [hcase] at hs
    exact absurd hs (by decide)
  | some w' =>
    exact ⟨w', rfl, C2_invariant_sequences_amended (by decide) (by decide) hcase⟩

/-- C3: as stated the claim is wrong about `lookup_entity` (see
`C3_counterexample`: `free_id` only pushes the id into the pool and never
touches the reverse table, so resolving a destroyed id still answers the
dead slot until the next per-cycle rebuild); amended: from a well-formed
world, recursive destroy kills every slot reachable from the root through
`RollSafeChildren` links, pushes each of their ids into the allocator's free
pool, leaves the reverse table bitwise unchanged, resolves each destroyed id
to `None` only after `update_id_entity_map` rebuilds the table, and leaves
no destroyed id listed in any surviving `RollSafeChildren` marker (in
particular the root is detached from its parent's list). -/
theorem C3_despawn_recursive_amended {w : World} {root : Entity}
    (hI : InvB w) (hroot : root ∈ w.alive) :
    (∀ e, Reach w root e → e ∉ (rollsafe_despawn_recursive w root).alive) ∧
    (∀ e, Reach w root e → OptAll (w.idComp e) fun i =>
      i ∈ unusedIds (rollsafe_despawn_recursive w root)) ∧
    (∀ i, id_to_entity (rollsafe_despawn_recursive w root) i = id_to_entity w i) ∧
    (∀ e, Reach w root e → OptAll (w.idComp e) fun i =>
      id_to_entity (update_id_entity_map (rollsafe_despawn_recursive w root)) i
        = none) ∧
    (∀ P ∈ (rollsafe_despawn_recursive w root).alive, ∀ e, Reach w root e →
      OptAll (w.idComp e) fun i =>
        i ∉ childrenList (rollsafe_despawn_recursive w root) P) := by
  obtain ⟨c1, c2, c3, c4, c5, c6, c7, c8⟩ := despawn_invB root hI
  have huniq := hI.1
  refine ⟨c7, ?_, c8, ?_, ?_⟩
  · intro e hre
    exact c6 e (reach_alive hroot hre) (c7 e hre)
  · intro e hre
    have heal := reach_alive hroot hre
    cases hi : w.idComp e with
    | none => trivial
    | some i =>
      show id_to_entity (update_id_entity_map (rollsafe_despawn_recursive w root)) i
        = none
      refine lookup_after_rebuild ?_
      intro x hx hgx
      rw [getId_of_mem hx, c4 x hx] at hgx
      have hxal : x ∈ w.alive := c3 hx
      have hu := huniq x hxal e heal
      rw [hgx, hi] at hu
      have hxe := hu rfl
      rw [hxe] at hx
      exact c7 e hre hx
  · intro P hP e hre
    have heal := reach_alive hroot hre
    cases hi : w.idComp e with
    | none => trivial
    | some i =>
      show i ∉ childrenList (rollsafe_despawn_recursive w root) P
      intro hmem
      obtain ⟨c, hcal, hcid, _⟩ := c1.2.2.2.2.1 P hP i hmem
      rw [c4 c hcal] at hcid
      have hu := huniq c (c3 hcal) e heal
      rw [hcid, hi] at hu
      have hce := hu rfl
      rw [hce] at hcal
      exact c7 e hre hcal

/-- C3 counterexample: despawning the only entity of `Wone` frees its slot,
yet `lookup_entity` on its id 0 still answers the dead slot 1, because
`free_id` never removes reverse-table entries. -/
theorem C3_counterexample :
    1 ∈ Wone.alive ∧ Wone.idComp 1 = some 0 ∧
    1 ∉ (rollsafe_despawn_recursive Wone 1).alive ∧
    id_to_entity (rollsafe_despawn_recursive Wone 1) 0 = some 1 := by
  obtain ⟨_, _, _, _, _, _, c7, c8⟩ := despawn_invB 1 (show InvB Wone by decide)
  refine ⟨by decide, by decide, ?_, ?_⟩
  · exact c7 1 Relation.ReflTransGen.refl
  · rw [c8 0]
    decide

theorem C3_witness :
    InvB Wchain ∧ 1 ∈ Wchain.alive ∧
    (∀ e, Reach Wchain 1 e → e ∉ (rollsafe_despawn_recursive Wchain 1).alive) :=
  ⟨by decide, by decide, (C3_despawn_recursive_amended (by decide) (by decide)).1⟩

/-- C4: as stated the claim fails for empty and duplicate-carrying batches
(see `C4_counterexample`); amended: from a well-formed world with no empty
`RollSafeChildren` marker, every successful direct-variant sequence whose
reparenting batches are duplicate-free and nonempty and whose
`remove_children` batches name only children of the target parent leaves no
live entity with an empty `RollSafeChildren` marker and no marker listing
the same identity twice. -/
theorem C4_no_empty_no_dup_amended {ops : List Op} {w w' : World}
    (hI : InvB w) (hne : NE w) (hok : SeqOK ops w)
    (hone : ∀ op ∈ ops, OpNE op)
    (h : applySeqDirect ops w = some w') :
    (∀ e ∈ w'.alive, ¬ w'.childrenComp e = some ([] : List RollSafeId)) ∧
    (∀ P ∈ w'.alive, (childrenList w' P).Nodup) := by
  obtain ⟨hI2, hne2⟩ := seq_invB_ne hI hne hok hone h
  exact ⟨hne2, hI2.2.2.2.2.2⟩

/-- C4 counterexample: `push_children` with an empty batch installs an empty
`RollSafeChildren` marker, and a batch naming the same entity twice installs
a marker listing its identity twice. -/
theorem C4_counterexample :
    OptEx (push_children 1 [] Wfive) (fun w1 =>
      1 ∈ w1.alive ∧ w1.childrenComp 1 = some ([] : List RollSafeId)) ∧
    OptEx (push_children 1 [2, 2] Wfive) (fun w2 =>
      ¬ (childrenList w2 1).Nodup) := by decide

theorem C4_witness :
    InvB Wfive ∧ NE Wfive ∧
    SeqOK [Op.pushChildren 1 [2, 3], Op.addChild 1 4] Wfive ∧
    (∀ op ∈ [Op.pushChildren 1 [2, 3], Op.addChild 1 4], OpNE op) ∧
    ∃ w', applySeqDirect [Op.pushChildren 1 [2, 3], Op.addChild 1 4] Wfive
        = some w' ∧
      (∀ e ∈ w'.alive, ¬ w'.childrenComp e = some ([] : List RollSafeId)) ∧
      (∀ P ∈ w'.alive, (childrenList w' P).Nodup) := by
  refine ⟨by decide, by decide, by decide, by decide, ?_⟩
  cases hcase : applySeqDirect [Op.pushChildren 1 [2, 3], Op.addChild 1 4] Wfive with
  | none =>
    exfalso
    have hs : (applySeqDirect [Op.pushChildren 1 [2, 3], Op.addChild 1 4]
        Wfive).isSome = true := by decide
    rw [hcase] at hs
    exact absurd hs (by decide)
  | some w' =>
    exact ⟨w', rfl,
      C4_no_empty_no_dup_amended (by decide) (by decide) (by decide) (by decide)
        hcase⟩

/-- C9: for a live, identified parent `P` with no prior `RollSafeChildren`
marker and distinct live entities `A, B, C, D`, `push_children(P, [A,B,C])`
followed by `insert_children(P, 1, [D])` succeeds and leaves `P`'s marker
holding exactly the identities of `A, D, B, C` in that order. -/
theorem C9_push_then_insert {w : World} {P A B C D : Entity}
    (hI : InvB w)
    (hPal : P ∈ w.alive) (hA : A ∈ w.alive) (hB : B ∈ w.alive)
    (hC : C ∈ w.alive) (hD : D ∈ w.alive)
    (hnd : [P, A, B, C, D].Nodup)
    (hm : w.childrenComp P = none) :
    ∃ w1 w2 a b c d,
      push_children P [A, B, C] w = some w1 ∧
      insert_children P 1 [D] w1 = some w2 ∧
      w2.idComp A = some a ∧ w2.idComp B = some b ∧
      w2.idComp C = some c ∧ w2.idComp D = some d ∧
      w2.childrenComp P = some [a, d, b, c] := by
  have htotal := hI.2.1
  have huniq := hI.1
  have hPnot := (List.nodup_cons.mp hnd).1
  have hrest := (List.nodup_cons.mp hnd).2
  have hAnot := (List.nodup_cons.mp hrest).1
  have hrest2 := (List.nodup_cons.mp hrest).2
  have hBnot := (List.nodup_cons.mp hrest2).1
  have hrest3 := (List.nodup_cons.mp hrest2).2
  have hCnot := (List.nodup_cons.mp hrest3).1
  have hAD : A ≠ D := by
    intro hh
    exact hAnot (by rw [hh]; simp)
  have hBD : B ≠ D := by
    intro hh
    exact hBnot (by rw [hh]; simp)
  have hCD : C ≠ D := by
    intro hh
    exact hCnot (by rw [hh]; simp)
  obtain ⟨pid, hpid⟩ := Option.isSome_iff_exists.mp (htotal P hPal)
  obtain ⟨a, ha⟩ := Option.isSome_iff_exists.mp (htotal A hA)
  obtain ⟨b, hb⟩ := Option.isSome_iff_exists.mp (htotal B hB)
  obtain ⟨c, hc⟩ := Option.isSome_iff_exists.mp (htotal C hC)
  obtain ⟨d, hd⟩ := Option.isSome_iff_exists.mp (htotal D hD)
  have had : a ≠ d := by
    intro hh
    have hu := huniq A hA D hD
    rw [ha, hd, hh] at hu
    exact hAD (hu rfl)
  have hbd : b ≠ d := by
    intro hh
    have hu := huniq B hB D hD
    rw [hb, hd, hh] at hu
    exact hBD (hu rfl)
  have hcd : c ≠ d := by
    intro hh
    have hu := huniq C hC D hD
    rw [hc, hd, hh] at hu
    exact hCD (hu rfl)
  have hgp : w.getId P = some pid := by
    rw [getId_of_mem hPal]
    exact hpid
  have hPABC : P ∉ [A, B, C] := by
    intro hh
    refine hPnot ?_
    rcases List.mem_cons.mp hh with h1 | hh2
    · rw [h1]
      simp
    rcases List.mem_cons.mp hh2 with h1 | hh3
    · rw [h1]
      simp
    rcases List.mem_cons.mp hh3 with h1 | hh4
    · rw [h1]
      simp
    · exact absurd hh4 (by simp)
  have hlivABC : ∀ x ∈ [A, B, C], x ∈ w.alive := by
    intro x hx
    rcases List.mem_cons.mp hx with h1 | hx2
    · rw [h1]; exact hA
    rcases List.mem_cons.mp hx2 with h1 | hx3
    · rw [h1]; exact hB
    rcases List.mem_cons.mp hx3 with h1 | hx4
    · rw [h1]; exact hC
    · exact absurd hx4 (by simp)
  have hndABC : ([A, B, C] : List Entity).Nodup := by
    rw [List.nodup_cons]
    refine ⟨?_, ?_⟩
    · intro hh
      exact hAnot (by
        rcases List.mem_cons.mp hh with h1 | hh2
        · rw [h1]; simp
        · rw [List.mem_singleton] at hh2
          rw [hh2]
          simp)
    rw [List.nodup_cons]
    refine ⟨?_, List.nodup_singleton C⟩
    intro hh
    rw [List.mem_singleton] at hh
    exact hBnot (by rw [hh]; simp)
  obtain ⟨w1, hw1⟩ := push_children_some hgp hPABC hlivABC
    (fun x hx => by rw [(htotal x (hlivABC x hx) : (w.idComp x).isSome = true)])
  obtain ⟨hI1, _, hal1, hid1, hidm1, _, _, _, ids3, hf23, hm1⟩ :=
    push_children_invB hI hndABC hw1
  have hclw : childrenList w P = [] := by
    unfold childrenList
    rw [hm]
    rfl
  rw [hclw] at hm1
  cases hf23 with
  | @cons _ a0 _ idsBC ha0 htail =>
  cases htail with
  | @cons _ b0 _ idsC hb0 htail2 =>
  cases htail2 with
  | @cons _ c0 _ idsN hc0 htail3 =>
  cases htail3
  rw [ha] at ha0
  rw [Option.some_inj] at ha0
  rw [hb] at hb0
  rw [Option.some_inj] at hb0
  rw [hc] at hc0
  rw [Option.some_inj] at hc0
  rw [← ha0, ← hb0, ← hc0] at hm1
  have hm1P : w1.childrenComp P = some [a, b, c] := hm1
  have hPal1 : P ∈ w1.alive := by
    rw [hal1]
    exact hPal
  have hgp1 : w1.getId P = some pid := by
    rw [getId_of_mem hPal1, hid1]
    exact hpid
  have hDal1 : D ∈ w1.alive := by
    rw [hal1]
    exact hD
  have hPD : P ∉ ([D] : List Entity) := by
    intro hh
    rw [List.mem_singleton] at hh
    exact hPnot (by rw [hh]; simp)
  obtain ⟨w1b, hw1b⟩ := uops_some [D] w1 hgp1 (fun x hx => by
    rw [List.mem_singleton] at hx
    rw [hx]
    exact hDal1)
  obtain ⟨halb, hidb, hidmb⟩ := uops_frame [D] w1 w1b hgp1 hw1b
  obtain ⟨_, _, _, _, _, hpcb, _⟩ := uops_midinv [D] [] w1 w1b
    (invB_to_midinv hI1 hPal1 (by rw [hid1]; exact hpid)) (by simp)
    (List.nodup_singleton D) hw1b
  obtain ⟨idsD, hcollD, hf2D⟩ := collect_of_ids [D] w1b (fun x hx => by
    rw [List.mem_singleton] at hx
    rw [hx, getId_of_mem (by rw [halb]; exact hDal1), hidb, hid1, hd]
    rfl)
  cases hf2D with
  | @cons _ d0 _ idsN2 hd0 htailD =>
  cases htailD
  rw [getId_of_mem (by rw [halb]; exact hDal1), hidb, hid1, hd] at hd0
  rw [Option.some_inj] at hd0
  rw [← hd0] at hcollD
  have hgcb : w1b.getChildren P = some [a, b, c] := by
    rw [getChildren_of_mem (by rw [halb]; exact hPal1), hpcb]
    exact hm1P
  have hfd : ([a, b, c] : List RollSafeId).filter
      (fun x => ¬ (([d] : List RollSafeId).contains x)) = [a, b, c] := by
    simp [had, hbd, hcd]
  have hinsert : insert_children P 1 [D] w1 =
      some (w1b.setChildrenSome P [a, d, b, c]) := by
    unfold insert_children
    rw [if_pos hPal1, if_neg hPD, hw1b]
    dsimp only
    rw [hcollD]
    dsimp only
    rw [hgcb]
    dsimp only
    rw [hfd]
    rw [if_pos (by simp)]
    rfl
  refine ⟨w1, w1b.setChildrenSome P [a, d, b, c], a, b, c, d, hw1, hinsert,
    ?_, ?_, ?_, ?_, ?_⟩
  · rw [show (w1b.setChildrenSome P [a, d, b, c]).idComp = w1b.idComp from rfl,
      hidb, hid1]
    exact ha
  · rw [show (w1b.setChildrenSome P [a, d, b, c]).idComp = w1b.idComp from rfl,
      hidb, hid1]
    exact hb
  · rw [show (w1b.setChildrenSome P [a, d, b, c]).idComp = w1b.idComp from rfl,
      hidb, hid1]
    exact hc
  · rw [show (w1b.setChildrenSome P [a, d, b, c]).idComp = w1b.idComp from rfl,
      hidb, hid1]
    exact hd
  · rw [childrenComp_setChildrenSome, if_pos rfl]

theorem C9_witness :
    InvB Wfive ∧ ([1, 2, 3, 4, 5] : List Entity).Nodup ∧
    Wfive.childrenComp 1 = none ∧
    ∃ w1 w2 a b c d,
      push_children 1 [2, 3, 4] Wfive = some w1 ∧
      insert_children 1 1 [5] w1 = some w2 ∧
      w2.idComp 2 = some a ∧ w2.idComp 3 = some b ∧
      w2.idComp 4 = some c ∧ w2.idComp 5 = some d ∧
      w2.childrenComp 1 = some [a, d, b, c] :=
  ⟨by decide, by decide, by decide,
    C9_push_then_insert (by decide) (by decide) (by decide) (by decide)
      (by decide) (by decide) (by decide) (by decide)⟩

end RollSafe
